import Mathlib

/-!
# Adventure content graph: reconciliation of a submitted snapshot against the store

Shallow embedding of the Go packages `models`, `store/sqlstore` and `controllers/api`
of the adventure platform.

* The relational store is a record of tables: lists of rows in table-scan order, a
  column scanned into an `sql.Null*` being an `Option`.
* A query reads the tables as they are and fails only with `sql.ErrNoRows`.
* Every `s.db.Exec` of the embedded functions is one `Call`; it is recorded in the
  call log of the store and applied to the tables, unless the fault script of the
  store says that this `Exec` fails, in which case the tables stay as they are and
  the caller gets an error.
* Integers are `Int`: the embedded functions only compare and copy them.
* Timestamps (`created_at`, `updated_at`) are left out of rows and structs: no
  function embedded here reads them.
* Of the Go library, `strings`, `path`, the response writer of `net/http` and the
  durations of `time` are embedded as far as the handlers use them; `float64` values
  are rational numbers and every operation rounds its exact result to the nearest
  `float64`.
* Helpers that are not part of the sources (`uniuri`, `encoding/json` on props
  documents, `respondWithError`, the file system) are parameters of the functions that
  call them.
-/

namespace PS

/-! ## models -/

/-- Go `type Permission int` of `models/adventure.go`. -/
abbrev Permission := Int

/-- Constant `ReadOnly Permission = 1 << iota` (iota = 0). -/
def ReadOnly : Permission := 1
/-- Constant `ReadWrite` (1 << 1). -/
def ReadWrite : Permission := 2
/-- Constant `Ignore` (1 << 2). -/
def Ignore : Permission := 4

/-- Struct `models.Category` (timestamps left out). -/
structure Category where
  ID : Int := 0
  SortOrder : Int := 0
  Title : String := ""
  Description : String := ""
  Icon : String := ""
  Image : String := ""
  deriving DecidableEq, Repr

/-- Struct `models.User` as filled by `GetUsersInternal` (password, timestamps and
the never-filled `Adventures` slice left out). -/
structure User where
  ID : Int := 0
  Username : String := ""
  Name : String := ""
  Role : Int := 0
  deriving DecidableEq, Repr

/-- Struct `models.Node`. -/
structure Node where
  ID : Int := 0
  NodeID : Int := 0
  AdventureID : Int := 0
  Title : String := ""
  Icon : String := ""
  Content : String := ""
  X : Int := 0
  Y : Int := 0
  ImageURL : String := ""
  ImageID : Int := 0
  ImageLayoutType : String := ""
  NodeType : String := ""
  Changed : Bool := false
  Props : String := ""
  deriving DecidableEq, Repr

/-- Struct `models.Link`. -/
structure Link where
  ID : Int := 0
  LinkID : Int := 0
  AdventureID : Int := 0
  SourceNodeID : Int := 0
  SourceLinkTitle : String := ""
  TargetNodeID : Int := 0
  TargetLinkTitle : String := ""
  LinkType : String := ""
  Changed : Bool := false
  Props : String := ""
  deriving DecidableEq, Repr

/-- Struct `models.Adventure` (timestamps left out). -/
structure Adventure where
  ID : Int := 0
  Title : String := ""
  Description : String := ""
  Slug : String := ""
  ViewSlug : String := ""
  Locked : Bool := false
  Category : Category := {}
  Nodes : List Node := []
  Links : List Link := []
  Permission : Permission := 0
  CoverUrl : String := ""
  EditVersion : Int := 0
  ViewCount : Int := 0
  Props : String := ""
  Users : List User := []
  deriving DecidableEq, Repr

/-! ## tables -/

/-- Row of table `adventure`; a column scanned into an `sql.Null*` is an `Option`. -/
structure AdventureRow where
  id : Int
  title : Option String := none
  description : Option String := none
  slug : String
  view_slug : String
  locked : Bool := false
  category_id : Option Int := none
  cover_url : Option String := none
  edit_version : Int := 0
  view_count : Int := 0
  props : Option String := none
  deriving DecidableEq, Repr

/-- Row of table `adventure_node`. -/
structure NodeRow where
  id : Int
  adventure_id : Int
  node_id : Int
  title : String := ""
  icon : Option String := none
  content : Option String := none
  image_url : Option String := none
  image_id : Option Int := none
  image_layout_type : Option String := none
  node_type : Option String := none
  position_x : Option Int := none
  position_y : Option Int := none
  props : Option String := none
  deriving DecidableEq, Repr

/-- Row of table `adventure_link`. -/
structure LinkRow where
  id : Int
  adventure_id : Int
  link_id : Int
  source_node_id : Int
  target_node_id : Int
  source_link_title : Option String := none
  target_link_title : Option String := none
  link_type : Option String := none
  props : Option String := none
  deriving DecidableEq, Repr

/-- Row of table `adventure_category`. -/
structure CategoryRow where
  id : Int
  sort_order : Option Int := none
  title : Option String := none
  description : Option String := none
  icon : Option String := none
  image : Option String := none
  deriving DecidableEq, Repr

/-- Row of table `users` (the columns `GetUsersInternal` selects). -/
structure UserRow where
  id : Int
  username : Option String := none
  name : Option String := none
  role : Option Int := none
  deriving DecidableEq, Repr

/-- Row of the join table `user_adventure`. -/
structure UserAdventureRow where
  user_id : Int
  adventure_id : Int
  deriving DecidableEq, Repr

/-- The relational store: its tables, and for the tables the embedded functions
insert into, the last AUTO_INCREMENT value handed out. -/
structure DB where
  adventure : List AdventureRow := []
  adventure_node : List NodeRow := []
  adventure_link : List LinkRow := []
  adventure_category : List CategoryRow := []
  users : List UserRow := []
  user_adventure : List UserAdventureRow := []
  node_seq : Int := 0
  link_seq : Int := 0
  adventure_seq : Int := 0
  deriving DecidableEq, Repr

/-- Errors a store call can return; `nilRow` stands for the nil `*sql.Row`
dereference `GetAdventure` runs into when `permission` is none of the three modes. -/
inductive Error where
  | ErrNoRows
  | storage
  | nilRow
  deriving DecidableEq, Repr

/-- Text of an error, the result of the Go method `Error()`. -/
def Error.message : Error → String
  | .ErrNoRows => "sql: no rows in result set"
  | .storage => "storage failure"
  | .nilRow => "invalid memory address or nil pointer dereference"

/-! ## reads (`sqlstore`) -/

namespace SQLStore

/-- Function `SQLStore.GetCategory`: first row of `adventure_category` with the id. -/
def GetCategory (db : DB) (categoryID : Int) : Except Error Category :=
  match db.adventure_category.find? (fun r => r.id == categoryID) with
  | none => .error .ErrNoRows
  | some r =>
    .ok { ID := r.id
          SortOrder := r.sort_order.getD 0
          Title := r.title.getD ""
          Description := r.description.getD ""
          Icon := r.icon.getD ""
          Image := r.image.getD "" }

/-- One scanned row of `GetNodesByAdventureID`: `AdventureID` and `Changed` are not
selected and keep their zero values. -/
def scanNode (r : NodeRow) : Node :=
  { ID := r.id
    NodeID := r.node_id
    Title := r.title
    Icon := r.icon.getD ""
    Content := r.content.getD ""
    ImageURL := r.image_url.getD ""
    ImageID := r.image_id.getD 0
    ImageLayoutType := r.image_layout_type.getD ""
    NodeType := r.node_type.getD ""
    X := r.position_x.getD 0
    Y := r.position_y.getD 0
    Props := r.props.getD "" }

/-- Function `SQLStore.GetNodesByAdventureID`. -/
def GetNodesByAdventureID (db : DB) (adventureID : Int) : List Node :=
  (db.adventure_node.filter (fun r => r.adventure_id == adventureID)).map scanNode

/-- One scanned row of `GetLinksByAdventureID`. -/
def scanLink (r : LinkRow) : Link :=
  { ID := r.id
    LinkID := r.link_id
    SourceNodeID := r.source_node_id
    SourceLinkTitle := r.source_link_title.getD ""
    TargetNodeID := r.target_node_id
    TargetLinkTitle := r.target_link_title.getD ""
    LinkType := r.link_type.getD ""
    Props := r.props.getD "" }

/-- Function `SQLStore.GetLinksByAdventureID`. -/
def GetLinksByAdventureID (db : DB) (adventureID : Int) : List Link :=
  (db.adventure_link.filter (fun r => r.adventure_id == adventureID)).map scanLink

/-- One scanned row of `GetUsersInternal`. -/
def scanUser (r : UserRow) : User :=
  { ID := r.id
    Username := r.username.getD ""
    Name := r.name.getD ""
    Role := r.role.getD 0 }

/-- Function `SQLStore.GetUsersByAdventureID`: `users u INNER JOIN user_adventure
on user_id = u.id and adventure_id = ?`. -/
def GetUsersByAdventureID (db : DB) (adventureID : Int) : List User :=
  db.users.flatMap (fun u =>
    (db.user_adventure.filter
      (fun ua => ua.user_id == u.id && ua.adventure_id == adventureID)).map
      (fun _ => scanUser u))

/-- Function `SQLStore.getAdventureContent`. -/
def getAdventureContent (db : DB) (adventureID : Int) : List Node × List Link × List User :=
  (GetNodesByAdventureID db adventureID, GetLinksByAdventureID db adventureID,
    GetUsersByAdventureID db adventureID)

/-- The `switch permission` of `GetAdventure`: the WHERE clause of the query, or
`none` when no case matches and `row` stays nil. -/
def adventureWhere (slug : String) (permission : Permission) : Option (AdventureRow → Bool) :=
  if permission = ReadOnly then some (fun r => r.view_slug == slug)
  else if permission = ReadWrite then some (fun r => r.slug == slug)
  else if permission = Ignore then some (fun r => r.slug == slug || r.view_slug == slug)
  else none

/-- The "Fetch category" block of `GetAdventure`: the category of a non-NULL
`category_id`; a missing category row (`ErrNoRows`) leaves the zero category, any
other error of `GetCategory` is returned. -/
def fetchCategory (db : DB) (categoryID : Option Int) : Except Error Category :=
  match categoryID with
  | none => .ok {}
  | some cid =>
    match GetCategory db cid with
    | .error err => if err ≠ .ErrNoRows then .error err else .ok {}
    | .ok cat => .ok cat

/-- The adventure `GetAdventure` builds from the scanned row `r`, its category and its
content.  `CoverUrl` is taken from the row when `description` is non-NULL, as the
source tests `description.Valid` there. -/
def assemble (db : DB) (slug : String) (r : AdventureRow) (category : Category) : Adventure :=
  let content := getAdventureContent db r.id
  { ID := r.id
    Title := r.title.getD ""
    Description := r.description.getD ""
    Slug := r.slug
    ViewSlug := r.view_slug
    Locked := r.locked
    Category := category
    Nodes := content.1
    Links := content.2.1
    Users := content.2.2
    Permission := if slug = r.view_slug then ReadOnly else ReadWrite
    CoverUrl := if r.description.isSome then r.cover_url.getD "" else ""
    EditVersion := r.edit_version
    ViewCount := r.view_count
    Props := r.props.getD "" }

/-- Function `SQLStore.GetAdventure`: `QueryRow` yields the first matching row; the
comparisons of the WHERE clause are equality of strings. -/
def GetAdventure (db : DB) (slug : String) (permission : Permission) : Except Error Adventure :=
  match adventureWhere slug permission with
  | none => .error .nilRow
  | some p =>
    match db.adventure.find? p with
    | none => .error .ErrNoRows
    | some r =>
      match fetchCategory db r.category_id with
      | .error err => .error err
      | .ok category => .ok (assemble db slug r category)

end SQLStore

/-! ## writes (`sqlstore`) -/

/-- One write call on the store, with its argument: the in-line `UPDATE adventure`
of `UpdateAdventureContent`, the six node and link methods, and the other statements
of the source that write the `adventure` table or the `user_adventure` join, each of
which runs exactly one `s.db.Exec`. -/
inductive Call where
  | UpdateAdventureRow (title description : String) (category_id : Int) (locked : Bool)
      (cover_url props : String) (id : Int) (slug : String)
  | DeleteNode (node : Node)
  | CreateNewNode (node : Node)
  | UpdateNode (node : Node)
  | DeleteLink (link : Link)
  | CreateNewLink (link : Link)
  | UpdateLink (link : Link)
  | CreateNewAdventure (slug view_slug : String)
  | UpdateAdventure (title description : String) (category_id : Int) (locked : Bool)
      (view_slug : String) (id : Int)
  | DeleteUserFromAdventure (user_id adventure_id : Int)
  | AddUserToAdventure (user_id adventure_id : Int)
  | DeleteAdventureByID (adventureID : Int)
  | CountViewAdventure (adventureID : Int)
  | UpdateAdventureEditVersion (slug : String)
  | removeReferencesToCategoryID (categoryID : Int)
  deriving DecidableEq, Repr

/-- Effect of the SQL statement of a write call on the tables. -/
def applyCall (db : DB) : Call → DB
  | .UpdateAdventureRow title description category_id locked cover_url props id slug =>
    { db with adventure := db.adventure.map (fun r =>
        if r.id == id && r.slug == slug then
          { r with title := some title, description := some description,
                   category_id := some category_id, locked := locked,
                   cover_url := some cover_url, props := some props }
        else r) }
  | .DeleteNode node =>
    { db with adventure_node := db.adventure_node.filter (fun r =>
        !(r.adventure_id == node.AdventureID && r.id == node.ID && r.node_id == node.NodeID)) }
  | .CreateNewNode node =>
    { db with
      node_seq := db.node_seq + 1
      adventure_node := db.adventure_node ++
        [{ id := db.node_seq + 1, adventure_id := node.AdventureID, node_id := node.NodeID,
           title := node.Title, icon := some node.Icon, content := some node.Content,
           image_url := some node.ImageURL, image_id := some node.ImageID,
           image_layout_type := some node.ImageLayoutType, node_type := some node.NodeType,
           position_x := some node.X, position_y := some node.Y, props := some node.Props }] }
  | .UpdateNode node =>
    { db with adventure_node := db.adventure_node.map (fun r =>
        if r.id == node.ID && r.adventure_id == node.AdventureID then
          { r with title := node.Title, icon := some node.Icon, content := some node.Content,
                   image_url := some node.ImageURL, image_id := some node.ImageID,
                   image_layout_type := some node.ImageLayoutType,
                   position_x := some node.X, position_y := some node.Y,
                   props := some node.Props }
        else r) }
  | .DeleteLink link =>
    { db with adventure_link := db.adventure_link.filter (fun r =>
        !(r.adventure_id == link.AdventureID && r.id == link.ID && r.link_id == link.LinkID)) }
  | .CreateNewLink link =>
    { db with
      link_seq := db.link_seq + 1
      adventure_link := db.adventure_link ++
        [{ id := db.link_seq + 1, adventure_id := link.AdventureID, link_id := link.LinkID,
           source_node_id := link.SourceNodeID, target_node_id := link.TargetNodeID,
           source_link_title := some link.SourceLinkTitle,
           target_link_title := some link.TargetLinkTitle,
           link_type := some link.LinkType, props := some link.Props }] }
  | .UpdateLink link =>
    { db with adventure_link := db.adventure_link.map (fun r =>
        if r.id == link.ID && r.adventure_id == link.AdventureID then
          { r with source_node_id := link.SourceNodeID,
                   source_link_title := some link.SourceLinkTitle,
                   target_node_id := link.TargetNodeID,
                   target_link_title := some link.TargetLinkTitle,
                   link_type := some link.LinkType, props := some link.Props }
        else r) }
  | .CreateNewAdventure slug view_slug =>
    { db with
      adventure_seq := db.adventure_seq + 1
      adventure := db.adventure ++
        [{ id := db.adventure_seq + 1, title := some "Nytt äventyr", slug := slug,
           view_slug := view_slug, category_id := some 1 }] }
  | .UpdateAdventure title description category_id locked view_slug id =>
    { db with adventure := db.adventure.map (fun r =>
        if r.id == id then
          { r with title := some title, description := some description,
                   category_id := some category_id, locked := locked,
                   view_slug := view_slug }
        else r) }
  | .DeleteUserFromAdventure user_id adventure_id =>
    { db with user_adventure := db.user_adventure.filter (fun ua =>
        !(ua.user_id == user_id && ua.adventure_id == adventure_id)) }
  | .AddUserToAdventure user_id adventure_id =>
    { db with user_adventure := db.user_adventure ++
        [{ user_id := user_id, adventure_id := adventure_id }] }
  | .DeleteAdventureByID adventureID =>
    { db with adventure := db.adventure.filter (fun r => !(r.id == adventureID)) }
  | .CountViewAdventure adventureID =>
    { db with adventure := db.adventure.map (fun r =>
        if r.id == adventureID then { r with view_count := r.view_count + 1 } else r) }
  | .UpdateAdventureEditVersion slug =>
    { db with adventure := db.adventure.map (fun r =>
        if r.slug == slug then { r with edit_version := r.edit_version + 1 } else r) }
  | .removeReferencesToCategoryID categoryID =>
    { db with adventure := db.adventure.map (fun r =>
        if r.category_id == some categoryID then { r with category_id := none } else r) }

/-- The store as the handlers see it: the tables, the write calls issued so far
(oldest first), and the fault script: the n-th coming `Exec` fails when the n-th
entry is `true`; past the end of the script every `Exec` succeeds. -/
structure Store where
  db : DB := {}
  log : List Call := []
  faults : List Bool := []
  deriving DecidableEq, Repr

/-- No coming `Exec` fails. -/
def Store.noFault (s : Store) : Bool := s.faults.all (fun b => !b)

/-- Method `s.db.Exec` for a write call: the call is logged; it fails without effect
when the fault script says so, and is applied to the tables otherwise. -/
def Store.Exec (s : Store) (c : Call) : Store × Option Error :=
  match s.faults with
  | true :: rest => ({ s with log := s.log ++ [c], faults := rest }, some .storage)
  | false :: rest => ({ db := applyCall s.db c, log := s.log ++ [c], faults := rest }, none)
  | [] => ({ s with db := applyCall s.db c, log := s.log ++ [c] }, none)

namespace SQLStore

/-- Function `SQLStore.CreateNewNode`: on success the node carries `LastInsertId`. -/
def CreateNewNode (s : Store) (node : Node) : Store × Except Error Node :=
  match s.Exec (.CreateNewNode node) with
  | (s1, some err) => (s1, .error err)
  | (s1, none) => (s1, .ok { node with ID := s1.db.node_seq })

/-- Function `SQLStore.UpdateNode`. -/
def UpdateNode (s : Store) (node : Node) : Store × Option Error :=
  s.Exec (.UpdateNode node)

/-- Function `SQLStore.DeleteNode`. -/
def DeleteNode (s : Store) (node : Node) : Store × Option Error :=
  s.Exec (.DeleteNode node)

/-- Function `SQLStore.CreateNewLink`. -/
def CreateNewLink (s : Store) (link : Link) : Store × Except Error Link :=
  match s.Exec (.CreateNewLink link) with
  | (s1, some err) => (s1, .error err)
  | (s1, none) => (s1, .ok { link with ID := s1.db.link_seq })

/-- Function `SQLStore.UpdateLink`. -/
def UpdateLink (s : Store) (link : Link) : Store × Option Error :=
  s.Exec (.UpdateLink link)

/-- Function `SQLStore.DeleteLink`. -/
def DeleteLink (s : Store) (link : Link) : Store × Option Error :=
  s.Exec (.DeleteLink link)

/-- Loop `for _, node := range a.Nodes` of `UpdateAdventureContent` ("Delete nodes
that have been removed"), over the rest of `a.Nodes`. -/
def deleteRemovedNodes (a newAdventure : Adventure) (s : Store) : List Node → Store × Option Error
  | [] => (s, none)
  | node :: rest =>
    let nodeExists := newAdventure.Nodes.any (fun existingNode => existingNode.ID == node.ID)
    if !nodeExists then
      match DeleteNode s { node with AdventureID := a.ID } with
      | (s1, some err) => (s1, some err)
      | (s1, none) => deleteRemovedNodes a newAdventure s1 rest
    else deleteRemovedNodes a newAdventure s rest

/-- Loop `for _, node := range newAdventure.Nodes` of `UpdateAdventureContent`. -/
def writeNodes (a : Adventure) (s : Store) : List Node → Store × Option Error
  | [] => (s, none)
  | node :: rest =>
    let node := { node with AdventureID := a.ID }
    if node.ID == 0 then
      match CreateNewNode s node with
      | (s1, .error err) => (s1, some err)
      | (s1, .ok _) => writeNodes a s1 rest
    else if node.Changed then
      match UpdateNode s node with
      | (s1, some err) => (s1, some err)
      | (s1, none) => writeNodes a s1 rest
    else writeNodes a s rest

/-- Loop `for _, link := range a.Links` of `UpdateAdventureContent` ("Delete links
that have been removed"). -/
def deleteRemovedLinks (a newAdventure : Adventure) (s : Store) : List Link → Store × Option Error
  | [] => (s, none)
  | link :: rest =>
    let linkExists := newAdventure.Links.any (fun existingLink => existingLink.ID == link.ID)
    if !linkExists then
      match DeleteLink s { link with AdventureID := a.ID } with
      | (s1, some err) => (s1, some err)
      | (s1, none) => deleteRemovedLinks a newAdventure s1 rest
    else deleteRemovedLinks a newAdventure s rest

/-- Loop `for _, link := range newAdventure.Links` of `UpdateAdventureContent`. -/
def writeLinks (a : Adventure) (s : Store) : List Link → Store × Option Error
  | [] => (s, none)
  | link :: rest =>
    let link := { link with AdventureID := a.ID }
    if link.ID == 0 then
      match CreateNewLink s link with
      | (s1, .error err) => (s1, some err)
      | (s1, .ok _) => writeLinks a s1 rest
    else if link.Changed then
      match UpdateLink s link with
      | (s1, some err) => (s1, some err)
      | (s1, none) => writeLinks a s1 rest
    else writeLinks a s rest

/-- Function `SQLStore.UpdateAdventureContent`: the returned `Option Error` is the
Go `error` (`none` for nil). -/
def UpdateAdventureContent (s : Store) (newAdventure : Adventure) : Store × Option Error :=
  match GetAdventure s.db newAdventure.Slug ReadWrite with
  | .error err => (s, some err)
  | .ok a =>
    match s.Exec (.UpdateAdventureRow newAdventure.Title newAdventure.Description
        newAdventure.Category.ID newAdventure.Locked newAdventure.CoverUrl
        newAdventure.Props a.ID a.Slug) with
    | (s1, some err) => (s1, some err)
    | (s1, none) =>
      match deleteRemovedNodes a newAdventure s1 a.Nodes with
      | (s2, some err) => (s2, some err)
      | (s2, none) =>
        match writeNodes a s2 newAdventure.Nodes with
        | (s3, some err) => (s3, some err)
        | (s3, none) =>
          match deleteRemovedLinks a newAdventure s3 a.Links with
          | (s4, some err) => (s4, some err)
          | (s4, none) => writeLinks a s4 newAdventure.Links

end SQLStore

/-! ## handler (`controllers/api`) -/

/-- What a handler writes to the `http.ResponseWriter`: `respondWithError` or
`respondWithJSON` with an adventure. -/
inductive Response where
  | error (code : Nat) (message : String)
  | json (code : Nat) (payload : Adventure)
  deriving DecidableEq, Repr

/-- HTTP status of a response. -/
def Response.code : Response → Nat
  | .error code _ => code
  | .json code _ => code

def StatusOK : Nat := 200
def StatusBadRequest : Nat := 400
def StatusNotFound : Nat := 404
def StatusLocked : Nat := 423
def StatusInternalServerError : Nat := 500

namespace API

/-- Handler `API.UpdateAdventureContent`.  `slug` is the route variable `id`; `body`
is the outcome of `decoder.Decode(&adv)` on the request body, `none` when decoding
fails. -/
def UpdateAdventureContent (s : Store) (slug : String) (body : Option Adventure) :
    Store × Response :=
  match SQLStore.GetAdventure s.db slug ReadWrite with
  | .error err =>
    if err = .ErrNoRows then (s, .error StatusNotFound "Adventure not found")
    else (s, .error StatusInternalServerError err.message)
  | .ok existingAdventure =>
    if existingAdventure.Locked then (s, .error StatusNotFound "Adventure is read-only")
    else
      match body with
      | none => (s, .error StatusBadRequest "Invalid request payload")
      | some adv =>
        if existingAdventure.EditVersion > adv.EditVersion then
          (s, .error StatusLocked "Adventure is used by other instance.")
        else
          let adv := { adv with Slug := existingAdventure.Slug, ID := existingAdventure.ID }
          match SQLStore.UpdateAdventureContent s adv with
          | (s1, some err) => (s1, .error StatusInternalServerError err.message)
          | (s1, none) =>
            match SQLStore.GetAdventure s1.db slug ReadWrite with
            | .error err =>
              if err = .ErrNoRows then (s1, .error StatusNotFound "Adventure not found")
              else (s1, .error StatusInternalServerError err.message)
            | .ok updatedAdventure => (s1, .json StatusOK updatedAdventure)

end API

/-! ## the write plan of one reconciliation, call kinds, sample data -/

/-- The adventure `GetAdventure` returns for the row `r` it found (the category
lookup of the tables cannot fail other than by a missing row). -/
def SQLStore.scanAdventure (db : DB) (slug : String) (r : AdventureRow) : Adventure :=
  SQLStore.assemble db slug r
    (match r.category_id with
     | none => {}
     | some cid =>
       match SQLStore.GetCategory db cid with
       | .error _ => {}
       | .ok cat => cat)

/-- Runs write calls in order and stops at the first one that fails. -/
def Store.run (s : Store) : List Call → Store × Option Error
  | [] => (s, none)
  | c :: cs =>
    match s.Exec c with
    | (s1, some err) => (s1, some err)
    | (s1, none) => s1.run cs

/-- Delete calls for the persisted nodes `nodes` of `a` given the snapshot. -/
def nodeDeletes (a newAdventure : Adventure) (nodes : List Node) : List Call :=
  (nodes.filter (fun node => !newAdventure.Nodes.any (fun e => e.ID == node.ID))).map
    (fun node => Call.DeleteNode { node with AdventureID := a.ID })

/-- Insert or update call, if any, for one incoming node. -/
def nodeWrite (a : Adventure) (node : Node) : Option Call :=
  if node.ID == 0 then some (.CreateNewNode { node with AdventureID := a.ID })
  else if node.Changed then some (.UpdateNode { node with AdventureID := a.ID })
  else none

/-- Delete calls for the persisted links `links` of `a` given the snapshot. -/
def linkDeletes (a newAdventure : Adventure) (links : List Link) : List Call :=
  (links.filter (fun link => !newAdventure.Links.any (fun e => e.ID == link.ID))).map
    (fun link => Call.DeleteLink { link with AdventureID := a.ID })

/-- Insert or update call, if any, for one incoming link. -/
def linkWrite (a : Adventure) (link : Link) : Option Call :=
  if link.ID == 0 then some (.CreateNewLink { link with AdventureID := a.ID })
  else if link.Changed then some (.UpdateLink { link with AdventureID := a.ID })
  else none

/-- The scalar `UPDATE adventure` of `UpdateAdventureContent`. -/
def scalarUpdate (a newAdventure : Adventure) : Call :=
  .UpdateAdventureRow newAdventure.Title newAdventure.Description newAdventure.Category.ID
    newAdventure.Locked newAdventure.CoverUrl newAdventure.Props a.ID a.Slug

/-- All write calls of one `UpdateAdventureContent`, in the order of the source,
when `a` is the persisted adventure and none of them fails. -/
def plan (a newAdventure : Adventure) : List Call :=
  scalarUpdate a newAdventure :: (nodeDeletes a newAdventure a.Nodes ++
    (newAdventure.Nodes.filterMap (nodeWrite a) ++
      (linkDeletes a newAdventure a.Links ++ newAdventure.Links.filterMap (linkWrite a))))

/-- The write calls a store operation added to the log. -/
def issued (s s1 : Store) : List Call := s1.log.drop s.log.length

/-- Call on the node or link table. -/
def Call.isContent : Call → Bool
  | .DeleteNode _ => true
  | .CreateNewNode _ => true
  | .UpdateNode _ => true
  | .DeleteLink _ => true
  | .CreateNewLink _ => true
  | .UpdateLink _ => true
  | _ => false

/-- The scalar update as a function on rows of `adventure`. -/
def scalarRow (a newAdventure : Adventure) (r : AdventureRow) : AdventureRow :=
  if r.id == a.ID && r.slug == a.Slug then
    { r with title := some newAdventure.Title, description := some newAdventure.Description,
             category_id := some newAdventure.Category.ID, locked := newAdventure.Locked,
             cover_url := some newAdventure.CoverUrl, props := some newAdventure.Props }
  else r

/-- Sample tables: an open adventure (id 1) with three nodes and two links, and a
locked adventure (id 2) with one node. -/
def demoDB : DB :=
  { adventure :=
      [ { id := 1, title := some "Cave", description := some "A cave", slug := "edit0001",
          view_slug := "view0001", category_id := some 1,
          cover_url := some "/upload/edit0001/c.jpg", edit_version := 3, view_count := 7 },
        { id := 2, title := some "Vault", slug := "edit0002", view_slug := "view0002",
          locked := true, edit_version := 1 } ]
    adventure_node :=
      [ { id := 1, adventure_id := 1, node_id := 0, title := "Start", node_type := some "root" },
        { id := 2, adventure_id := 1, node_id := 1, title := "Left" },
        { id := 3, adventure_id := 1, node_id := 2, title := "Right" },
        { id := 4, adventure_id := 2, node_id := 0, title := "Door" } ]
    adventure_link :=
      [ { id := 1, adventure_id := 1, link_id := 1, source_node_id := 0, target_node_id := 1,
          link_type := some "bidirectional" },
        { id := 2, adventure_id := 1, link_id := 2, source_node_id := 0, target_node_id := 2,
          link_type := some "bidirectional" } ]
    adventure_category := [ { id := 1, title := some "General" } ]
    node_seq := 4
    link_seq := 2
    adventure_seq := 2 }

/-- Sample store over `demoDB` in which no write fails. -/
def demoStore : Store := { db := demoDB }

/-- The open adventure of `demoDB` as `GetAdventure` returns it for its edit slug. -/
def demoAdventure : Adventure :=
  { ID := 1, Title := "Cave", Description := "A cave", Slug := "edit0001",
    ViewSlug := "view0001", Category := { ID := 1, Title := "General" },
    Nodes := [ { ID := 1, NodeID := 0, Title := "Start", NodeType := "root" },
               { ID := 2, NodeID := 1, Title := "Left" },
               { ID := 3, NodeID := 2, Title := "Right" } ],
    Links := [ { ID := 1, LinkID := 1, SourceNodeID := 0, TargetNodeID := 1,
                 LinkType := "bidirectional" },
               { ID := 2, LinkID := 2, SourceNodeID := 0, TargetNodeID := 2,
                 LinkType := "bidirectional" } ],
    Permission := ReadWrite, CoverUrl := "/upload/edit0001/c.jpg", EditVersion := 3,
    ViewCount := 7 }

/-- Argument of a `DeleteNode` call. -/
def Call.deletedNode? : Call → Option Node
  | .DeleteNode node => some node
  | _ => none

/-- Argument of a `CreateNewNode` call. -/
def Call.createdNode? : Call → Option Node
  | .CreateNewNode node => some node
  | _ => none

/-- Argument of an `UpdateNode` call. -/
def Call.updatedNode? : Call → Option Node
  | .UpdateNode node => some node
  | _ => none

/-- Argument of any call on the node table. -/
def Call.node? : Call → Option Node
  | .DeleteNode node => some node
  | .CreateNewNode node => some node
  | .UpdateNode node => some node
  | _ => none

/-- Argument of a `DeleteLink` call. -/
def Call.deletedLink? : Call → Option Link
  | .DeleteLink link => some link
  | _ => none

/-- Argument of a `CreateNewLink` call. -/
def Call.createdLink? : Call → Option Link
  | .CreateNewLink link => some link
  | _ => none

/-- Argument of an `UpdateLink` call. -/
def Call.updatedLink? : Call → Option Link
  | .UpdateLink link => some link
  | _ => none

/-- Argument of any call on the link table. -/
def Call.link? : Call → Option Link
  | .DeleteLink link => some link
  | .CreateNewLink link => some link
  | .UpdateLink link => some link
  | _ => none

/-- A snapshot for the open adventure of `demoDB`: node 1 untouched, node 2 edited,
node 3 dropped, one new node; link 1 edited, link 2 dropped, one new link. -/
def demoSnapshot : Adventure :=
  { Title := "Cave II", Description := "Deeper", Slug := "edit0001",
    Category := { ID := 1 }, CoverUrl := "/upload/edit0001/d.jpg", EditVersion := 3,
    Props := "fonts-v2",
    Nodes := [ { ID := 1, NodeID := 0, Title := "Start", NodeType := "root" },
               { ID := 2, NodeID := 1, Title := "Left turn", Changed := true },
               { ID := 0, NodeID := 5, Title := "Pit" } ],
    Links := [ { ID := 1, LinkID := 1, SourceNodeID := 0, TargetNodeID := 1,
                 LinkType := "default", Changed := true },
               { ID := 0, LinkID := 7, SourceNodeID := 1, TargetNodeID := 5,
                 LinkType := "default" } ] }

/-- Call `DeleteNode`. -/
def Call.isNodeDelete : Call → Bool
  | .DeleteNode _ => true
  | _ => false

/-- Call `CreateNewNode` or `UpdateNode`. -/
def Call.isNodeUpsert : Call → Bool
  | .CreateNewNode _ => true
  | .UpdateNode _ => true
  | _ => false

/-- Call `DeleteLink`. -/
def Call.isLinkDelete : Call → Bool
  | .DeleteLink _ => true
  | _ => false

/-- Call `CreateNewLink` or `UpdateLink`. -/
def Call.isLinkUpsert : Call → Bool
  | .CreateNewLink _ => true
  | .UpdateLink _ => true
  | _ => false

/-- Position of a call in the order of the source: scalar update, node deletes, node
inserts and updates, link deletes, link inserts and updates. -/
def Call.phase : Call → Nat
  | .UpdateAdventureRow _ _ _ _ _ _ _ _ => 0
  | .DeleteNode _ => 1
  | .CreateNewNode _ => 2
  | .UpdateNode _ => 2
  | .DeleteLink _ => 3
  | .CreateNewLink _ => 4
  | .UpdateLink _ => 4
  | _ => 0

/-- The order the claim asks of two calls, `c1` issued before `c2`: `c1` is not a
node insert or update when `c2` is a node delete, not a link insert or update when
`c2` is a link delete, and not a link call when `c2` is a node call. -/
def inOrder (c1 c2 : Call) : Prop :=
  ¬ (c1.isNodeUpsert = true ∧ c2.isNodeDelete = true) ∧
    ¬ (c1.isLinkUpsert = true ∧ c2.isLinkDelete = true) ∧
    ¬ ((c1.isLinkDelete = true ∨ c1.isLinkUpsert = true) ∧
        (c2.isNodeDelete = true ∨ c2.isNodeUpsert = true))

/-- Every persisted node and link has a storage id assigned by the store, which is
never 0 (0 is the "not yet persisted" mark of the data model). -/
def DB.idsAssigned (db : DB) : Bool :=
  db.adventure_node.all (fun r => r.id != 0) && db.adventure_link.all (fun r => r.id != 0)

/-! ## package `strings` of the Go library, on the characters of a string -/

namespace strings

/-- Function `strings.HasPrefix`. -/
def HasPrefix (s pre : String) : Bool := pre.data.isPrefixOf s.data

/-- Function `strings.HasSuffix`. -/
def HasSuffix (s suffix : String) : Bool := suffix.data.isSuffixOf s.data

/-- Function `strings.Contains`: `substr` starts at some position of `s`. -/
def Contains (s substr : String) : Bool := s.data.tails.any (fun t => substr.data.isPrefixOf t)

/-- Replacement of a non-empty `old`, left to right without overlap: `n` is the number
of replacements still allowed, `skip` the number of characters of a matched `old`
still to pass over. -/
def replaceLoop (old new : List Char) : Nat → Nat → List Char → List Char
  | _, _, [] => []
  | n, skip + 1, _ :: cs => replaceLoop old new n skip cs
  | 0, 0, c :: cs => c :: cs
  | n + 1, 0, c :: cs =>
    if old.isPrefixOf (c :: cs) then new ++ replaceLoop old new n (old.length - 1) cs
    else c :: replaceLoop old new (n + 1) 0 cs

/-- Replacement of the empty `old`: `new` is put in front of the string and after each
character, `n` times at most. -/
def insertLoop (new : List Char) : Nat → List Char → List Char
  | 0, s => s
  | _ + 1, [] => new
  | n + 1, c :: cs => new ++ c :: insertLoop new n cs

/-- Function `strings.Replace(s, old, new, n)`: a copy of `s` with the first `n`
non-overlapping instances of `old` replaced by `new`, all of them when `n < 0`. -/
def Replace (s old new : String) (n : Int) : String :=
  if old = new ∨ n = 0 then s
  else
    let k : Nat := if n < 0 then s.data.length + 1 else n.toNat
    if old.data = [] then String.mk (insertLoop new.data k s.data)
    else String.mk (replaceLoop old.data new.data k 0 s.data)

end strings

/-! ## package `path` of the Go library -/

namespace path

/-- The elements of a path between its slashes. -/
def splitSlash : List Char → List (List Char)
  | [] => [[]]
  | c :: cs =>
    if c = '/' then [] :: splitSlash cs
    else
      match splitSlash cs with
      | [] => [[c]]
      | seg :: rest => (c :: seg) :: rest

/-- One element in the lexical processing of `path.Clean`; the stack holds the elements
kept so far, the last one first.  Empty elements and `.` are dropped; `..` removes the
element before it, is dropped at the root, and is kept in front of a relative path. -/
def cleanStep (rooted : Bool) (stack : List (List Char)) (seg : List Char) : List (List Char) :=
  if seg = [] ∨ seg = ['.'] then stack
  else if seg = ['.', '.'] then
    match stack with
    | top :: below => if top = ['.', '.'] then seg :: stack else below
    | [] => if rooted then [] else [seg]
  else seg :: stack

/-- The elements of the cleaned path. -/
def cleanElems (p : List Char) : List (List Char) :=
  ((splitSlash p).foldl (cleanStep (p.head? = some '/')) []).reverse

/-- Function `path.Clean`: the shortest path equivalent to `p` by purely lexical
processing. -/
def Clean (p : String) : String :=
  let out := (if p.data.head? = some '/' then ['/'] else []) ++
    ['/'].intercalate (cleanElems p.data)
  if out = [] then "." else String.mk out

/-- Function `path.Join`: the non-empty elements joined by slashes, cleaned; the
empty string when there is none. -/
def Join (elem : List String) : String :=
  if elem.filter (fun e => e != "") = [] then ""
  else Clean ("/".intercalate (elem.filter (fun e => e != "")))

end path

/-! ## further store functions -/

namespace SQLStore

/-- Function `SQLStore.CreateNewAdventure`; `viewSlug` and `slug` are what
`uniuri.New()` and `uniuri.NewLen(8)` return in this call. -/
def CreateNewAdventure (s : Store) (viewSlug slug : String) : Store × Except Error Adventure :=
  match s.Exec (.CreateNewAdventure slug viewSlug) with
  | (s1, some err) => (s1, .error err)
  | (s1, none) => (s1, .ok { ViewSlug := viewSlug, Slug := slug, ID := s1.db.adventure_seq })

/-- Function `SQLStore.GetAdventureByID`: `cover_url` is scanned into a plain string,
so that a NULL there is a scan error; `edit_version` and `props` are not selected. -/
def GetAdventureByID (db : DB) (adventureID : Int) : Except Error Adventure :=
  match db.adventure.find? (fun r => r.id == adventureID) with
  | none => .error .ErrNoRows
  | some r =>
    match r.cover_url with
    | none => .error .storage
    | some coverUrl =>
      match fetchCategory db r.category_id with
      | .error err => .error err
      | .ok category =>
        let content := getAdventureContent db r.id
        .ok { ID := r.id
              Title := r.title.getD ""
              Description := r.description.getD ""
              Slug := r.slug
              ViewSlug := r.view_slug
              Locked := r.locked
              Category := category
              ViewCount := r.view_count
              CoverUrl := coverUrl
              Nodes := content.1
              Links := content.2.1
              Users := content.2.2 }

/-- Function `SQLStore.DeleteUserFromAdventure`. -/
def DeleteUserFromAdventure (s : Store) (user : User) (adventure : Adventure) :
    Store × Option Error :=
  s.Exec (.DeleteUserFromAdventure user.ID adventure.ID)

/-- Function `SQLStore.AddUserToAdventure`. -/
def AddUserToAdventure (s : Store) (user : User) (adventure : Adventure) :
    Store × Option Error :=
  s.Exec (.AddUserToAdventure user.ID adventure.ID)

/-- First user loop of `UpdateAdventure`: users of the persisted adventure that the
payload no longer lists are removed from it. -/
def removeUsers (existingAdventure adventure : Adventure) (s : Store) :
    List User → Store × Option Error
  | [] => (s, none)
  | user :: rest =>
    let removeUser := !adventure.Users.any (fun existingUser => existingUser.ID == user.ID)
    if removeUser then
      match DeleteUserFromAdventure s user existingAdventure with
      | (s1, some err) => (s1, some err)
      | (s1, none) => removeUsers existingAdventure adventure s1 rest
    else removeUsers existingAdventure adventure s rest

/-- Second user loop of `UpdateAdventure`: users of the payload that the persisted
adventure does not have are added to it. -/
def addUsers (existingAdventure : Adventure) (s : Store) : List User → Store × Option Error
  | [] => (s, none)
  | user :: rest =>
    let addUser := !existingAdventure.Users.any (fun newUser => newUser.ID == user.ID)
    if addUser then
      match AddUserToAdventure s user existingAdventure with
      | (s1, some err) => (s1, some err)
      | (s1, none) => addUsers existingAdventure s1 rest
    else addUsers existingAdventure s rest

/-- Function `SQLStore.UpdateAdventure` ("Updates only specific fields on an
adventure"). -/
def UpdateAdventure (s : Store) (adventure : Adventure) : Store × Option Error :=
  match GetAdventure s.db adventure.Slug ReadWrite with
  | .error err => (s, some err)
  | .ok existingAdventure =>
    match s.Exec (.UpdateAdventure adventure.Title adventure.Description adventure.Category.ID
        adventure.Locked adventure.ViewSlug adventure.ID) with
    | (s1, some err) => (s1, some err)
    | (s1, none) =>
      match removeUsers existingAdventure adventure s1 existingAdventure.Users with
      | (s2, some err) => (s2, some err)
      | (s2, none) => addUsers existingAdventure s2 adventure.Users

/-- Function `SQLStore.DeleteAdventureByID`. -/
def DeleteAdventureByID (s : Store) (adventureID : Int) : Store × Option Error :=
  s.Exec (.DeleteAdventureByID adventureID)

/-- Function `SQLStore.CountViewAdventure`. -/
def CountViewAdventure (s : Store) (adventureID : Int) : Store × Option Error :=
  s.Exec (.CountViewAdventure adventureID)

/-- Function `SQLStore.UpdateAdventureEditVersion`. -/
def UpdateAdventureEditVersion (s : Store) (slug : String) : Store × Option Error :=
  s.Exec (.UpdateAdventureEditVersion slug)

end SQLStore

/-! ## further handlers -/

def StatusCreated : Nat := 201

namespace API

/-- The loop over `nodes` shared by `CopyAdventureById` and `ImportAdventure`: the
storage id is reset, the first instance of the old slug in `ImageURL` and every
instance in `Props` is replaced by the new slug. -/
def resetNodes (nodes : List Node) (slug newSlug : String) : List Node :=
  nodes.map (fun node =>
    { node with ID := 0
                ImageURL := strings.Replace node.ImageURL slug newSlug 1
                Props := strings.Replace node.Props slug newSlug (-1) })

/-- The loop over the links of both handlers: the storage id is reset. -/
def resetLinks (links : List Link) : List Link :=
  links.map (fun link => { link with ID := 0 })

/-- The rewrite step of `CopyAdventureById` (from `nodes := existingAdventure.Nodes`
to the assignment of `ViewSlug`): the snapshot handed to `UpdateAdventureContent`. -/
def copySnapshot (existingAdventure : Adventure) (slug : String) (newAdventure : Adventure) :
    Adventure :=
  { existingAdventure with
    Nodes := resetNodes existingAdventure.Nodes slug newAdventure.Slug
    Links := resetLinks existingAdventure.Links
    CoverUrl := strings.Replace existingAdventure.CoverUrl slug newAdventure.Slug 1
    Title := "Copy of " ++ existingAdventure.Title
    Slug := newAdventure.Slug
    ViewSlug := newAdventure.ViewSlug }

/-- Handler `API.CopyAdventureById`.  `slug` is the route variable; `viewSlug` and
`newSlug` are the slugs `uniuri` mints in this call; `media` is the outcome of
`CopyAdventureMedia` on the file system. -/
def CopyAdventureById (s : Store) (slug viewSlug newSlug : String) (media : Option Error) :
    Store × Response :=
  match SQLStore.GetAdventure s.db slug ReadWrite with
  | .error err =>
    if err = .ErrNoRows then (s, .error StatusNotFound "Adventure not found")
    else (s, .error StatusInternalServerError err.message)
  | .ok existingAdventure =>
    match SQLStore.CreateNewAdventure s viewSlug newSlug with
    | (s1, .error err) => (s1, .error StatusInternalServerError err.message)
    | (s1, .ok newAdventure) =>
      match SQLStore.UpdateAdventureContent s1
          (copySnapshot existingAdventure slug newAdventure) with
      | (s2, some err) => (s2, .error StatusInternalServerError err.message)
      | (s2, none) =>
        match media with
        | some err => (s2, .error StatusInternalServerError err.message)
        | none =>
          match SQLStore.GetAdventureByID s2.db newAdventure.ID with
          | .error _ => (s2, .error StatusNotFound "error.adventure.adventurenotcopied")
          | .ok copiedAdventure => (s2, .json StatusOK copiedAdventure)

/-- Handler `API.UpdateAdventureByID` ("updates a specific adventure, but not its
content").  `adventureID` is the outcome of `strconv.ParseInt` on the route variable,
`body` that of decoding the request body. -/
def UpdateAdventureByID (s : Store) (adventureID : Option Int) (body : Option Adventure) :
    Store × Response :=
  match adventureID with
  | none => (s, .error StatusNotFound "error.adventure.parametererror")
  | some adventureID =>
    match SQLStore.GetAdventureByID s.db adventureID with
    | .error _ => (s, .error StatusNotFound "error.adventure.adventurenotfound")
    | .ok existingAdventure =>
      match body with
      | none => (s, .error StatusBadRequest "error.adventure.payloaderror")
      | some payload =>
        let existingAdventure :=
          { existingAdventure with
            Category := { existingAdventure.Category with ID := payload.Category.ID }
            Title := payload.Title
            Description := payload.Description
            Locked := payload.Locked
            CoverUrl := payload.CoverUrl
            Users := payload.Users
            ViewSlug := payload.ViewSlug }
        match SQLStore.UpdateAdventure s existingAdventure with
        | (s1, some _) => (s1, .error StatusInternalServerError "error.adventure.updateerror")
        | (s1, none) =>
          match SQLStore.GetAdventureByID s1.db adventureID with
          | .error _ => (s1, .error StatusNotFound "error.adventure.adventurenotfound")
          | .ok updatedAdventure => (s1, .json StatusOK updatedAdventure)

end API

/-! ## import and export of archives (`controllers/api/transfer.go`) -/

/-- One entry of a zip archive as the handlers use it: its name, whether it is a
directory, whether `file.Open()` fails, and what decoding its content as a
`models.Adventure` yields (`none` when the decoder fails). -/
structure ZipFile where
  Name : String
  IsDir : Bool := false
  OpenFails : Bool := false
  Json : Option Adventure := none
  deriving DecidableEq, Repr

/-- The request body of an import: reading it fails, it is no zip archive
(`zip.NewReader` fails), or it is an archive with these entries. -/
inductive Upload where
  | readError (message : String)
  | notZip (message : String)
  | archive (files : List ZipFile)
  deriving DecidableEq, Repr

/-- Struct `models.Props`: what the export reads of a node's props document. -/
structure Props where
  AudioUrl : String := ""
  AudioUrlAlt : String := ""
  SubtitlesUrl : String := ""
  deriving DecidableEq, Repr

/-- What a props document sets when it is unmarshalled into a `models.Props`: a field
the document does not give (or the whole of an undecodable document) is left as it
was. -/
structure PropsPatch where
  AudioUrl : Option String := none
  AudioUrlAlt : Option String := none
  SubtitlesUrl : Option String := none
  deriving DecidableEq, Repr

/-- Package `encoding/json` on the two props documents the export parses: the fields
a node's props document sets, and the `font_list` of an adventure's props document
(empty when the document has none or does not decode). -/
structure JSON where
  nodeProps : String → PropsPatch
  fontList : String → List String

/-- Call `json.Unmarshal([]byte(doc), &props)`. -/
def JSON.Unmarshal (json : JSON) (doc : String) (props : Props) : Props :=
  { AudioUrl := (json.nodeProps doc).AudioUrl.getD props.AudioUrl
    AudioUrlAlt := (json.nodeProps doc).AudioUrlAlt.getD props.AudioUrlAlt
    SubtitlesUrl := (json.nodeProps doc).SubtitlesUrl.getD props.SubtitlesUrl }

/-- What `Decode` reads back from the document `json.Marshal` writes for an
adventure: the fields tagged `json:"-"` (the adventure's `Permission`, the
`AdventureID` of nodes and links) are not written and come back zero. -/
def jsonSnapshot (a : Adventure) : Adventure :=
  { a with Permission := 0
           Nodes := a.Nodes.map (fun n => { n with AdventureID := 0 })
           Links := a.Links.map (fun l => { l with AdventureID := 0 }) }

/-- What `CreateExportZip` needs of the file system and the template engine:
whether `os.Create` of the archive fails, whether parsing or executing the player
template fails, the keys whose file `os.Open` does not find, and the entry names on
which `zipWriter.Create` fails. -/
structure ExportEnv where
  createFails : Bool := false
  templateFails : Bool := false
  missing : List String := []
  zipFails : List String := []
  deriving DecidableEq, Repr

namespace API

/-- Assignment `fileMap[key] = 1` on the keys of the map, kept in order of first
insertion. -/
def fileMapSet (fileMap : List String) (key : String) : List String :=
  if key ∈ fileMap then fileMap else fileMap ++ [key]

/-- The loop over the nodes in `CreateExportZip`; `props` is declared once before the
loop and unmarshalled into for each node. -/
def collectNodes (json : JSON) : Props → List String → List Node → List String
  | _, fileMap, [] => fileMap
  | props, fileMap, node :: rest =>
    let fileMap := fileMapSet fileMap node.ImageURL
    let props := json.Unmarshal node.Props props
    let fileMap := fileMapSet fileMap props.AudioUrl
    let fileMap := fileMapSet fileMap props.AudioUrlAlt
    let fileMap := fileMapSet fileMap props.SubtitlesUrl
    collectNodes json props fileMap rest

/-- Array `filesToInclude` of `CreateExportZip`. -/
def filesToInclude : List String :=
  [ "css/ps_fonts.css", "css/ps.css", "favicon.ico", "js/aventyr.model.js",
    "js/aventyr.viewer.js", "js/markdown-it.min.js", "js/markdownhelper.js",
    "js/aventyr.player.js", "js/aventyr.props.js", "js/aventyr.scrollytell.js" ]

/-- The keys of `fileMap` when `CreateExportZip` starts to iterate over it. -/
def assetSet (json : JSON) (adventureModel : Adventure) : List String :=
  let fileMap := fileMapSet [] adventureModel.CoverUrl
  let fileMap := collectNodes json {} fileMap adventureModel.Nodes
  let fileMap := fileMap.filter (fun key => key != "")
  let fileMap := (json.fontList adventureModel.Props).foldl fileMapSet fileMap
  filesToInclude.foldl (fun fileMap fileName => fileMapSet fileMap ("/web/" ++ fileName)) fileMap

/-- The name of the archive entry for a key of `fileMap`. -/
def entryName (key : String) : String :=
  let name := strings.Replace key "/upload/" "upload/" 1
  let name := strings.Replace name "/web/css/" "static/css/" 1
  let name := strings.Replace name "/web/js/" "static/js/" 1
  strings.Replace name "/web/" "static/" 1

/-- The loop `for key := range fileMap` of `CreateExportZip` (the order of the keys is
that of the list): the entries added, or the error of `zipWriter.Create`. -/
def addAssets (env : ExportEnv) : List String → Except Error (List ZipFile)
  | [] => .ok []
  | key :: rest =>
    if key ∈ env.missing then addAssets env rest
    else if entryName key ∈ env.zipFails then .error .storage
    else
      match addAssets env rest with
      | .error err => .error err
      | .ok files => .ok ({ Name := entryName key } :: files)

/-- Function `API.CreateExportZip`: the entries of the archive written to
`saveFilePath`, or the error returned. -/
def CreateExportZip (db : DB) (env : ExportEnv) (json : JSON) (slug : String) :
    Except Error (List ZipFile) :=
  match SQLStore.GetAdventure db slug Ignore with
  | .error err => .error err
  | .ok adventureModel =>
    let adventureFileName := "PSadventure_" ++ slug
    if env.createFails then .error .storage
    else if env.templateFails then .error .storage
    else
      match addAssets env (assetSet json adventureModel) with
      | .error err => .error err
      | .ok files =>
        .ok ({ Name := adventureFileName ++ ".json", Json := some (jsonSnapshot adventureModel) } ::
          { Name := "index.html" } :: files)

/-- The loop of `ImportAdventure` that unpacks the entries under `upload`: the paths
of the files created.  `failing` lists the paths on which `os.Create` fails; a failed
`Open` or `Create` ends the loop. -/
def relocate (destinationPath sourceSlug newSlug : String) (failing : List String) :
    List ZipFile → List String
  | [] => []
  | file :: rest =>
    if !strings.HasPrefix file.Name "upload" then
      relocate destinationPath sourceSlug newSlug failing rest
    else if file.IsDir then relocate destinationPath sourceSlug newSlug failing rest
    else if file.OpenFails then []
    else
      let fileName := strings.Replace file.Name ("upload/" ++ sourceSlug) newSlug 1
      let fileName := path.Join [destinationPath, fileName]
      if fileName ∈ failing then []
      else fileName :: relocate destinationPath sourceSlug newSlug failing rest

/-- The rewrite step of `ImportAdventure` (from `var nodes = payload.Nodes` to
`payload.ID = newAdventure.ID`): the snapshot handed to `UpdateAdventureContent`, and
returned in the response. -/
def importSnapshot (payload newAdventure : Adventure) : Adventure :=
  { payload with
    Nodes := resetNodes payload.Nodes payload.Slug newAdventure.Slug
    Links := resetLinks payload.Links
    CoverUrl := strings.Replace payload.CoverUrl payload.Slug newAdventure.Slug 1
    Slug := newAdventure.Slug
    ID := newAdventure.ID }

/-- Handler `API.ImportAdventure`: the store, the paths of the files created under
`destinationPath` (`a.systemPath + a.uploadDir`), and the response.  `viewSlug` and
`slug` are the slugs `uniuri` mints in this call. -/
def ImportAdventure (s : Store) (destinationPath : String) (failing : List String)
    (upload : Upload) (viewSlug slug : String) : Store × List String × Response :=
  match upload with
  | .readError message => (s, [], .error StatusBadRequest message)
  | .notZip message => (s, [], .error StatusInternalServerError message)
  | .archive files =>
    match SQLStore.CreateNewAdventure s viewSlug slug with
    | (s1, .error err) => (s1, [], .error StatusInternalServerError err.message)
    | (s1, .ok newAdventure) =>
      match files.find? (fun file => strings.HasSuffix file.Name ".json") with
      | none => (s1, [], .error StatusInternalServerError "Adventure file missing in archive.")
      | some file =>
        if file.OpenFails then
          (s1, [], .error StatusInternalServerError "Adventure file missing in archive.")
        else
          match file.Json with
          | none => (s1, [], .error StatusBadRequest "error.adventure.payloaderror")
          | some payload =>
            let written := relocate destinationPath payload.Slug newAdventure.Slug failing files
            match SQLStore.UpdateAdventureContent s1 (importSnapshot payload newAdventure) with
            | (s2, some err) => (s2, written, .error StatusInternalServerError err.message)
            | (s2, none) => (s2, written, .json StatusOK (importSnapshot payload newAdventure))

end API

/-! ## sample data for the copy, import and export -/

/-- A view slug as `uniuri.New()` mints it (16 characters). -/
def mintedViewSlug : String := "Vq3kX9aLm2Zt8RbC"

/-- An edit slug as `uniuri.NewLen(8)` mints it. -/
def mintedSlug : String := "Zx81kQpL"

/-- The directory `a.systemPath + a.uploadDir` of the samples. -/
def demoUploadPath : String := "/srv/app/upload/"

/-- The snapshot in a sample archive: an adventure exported under edit slug
`srcslug1` with two nodes and one link. -/
def demoPayload : Adventure :=
  { ID := 41, Title := "Maze", Slug := "srcslug1", ViewSlug := "srcviewslug000001",
    CoverUrl := "/upload/srcslug1/cover.jpg", EditVersion := 5,
    Nodes := [ { ID := 90, NodeID := 0, Title := "Start", NodeType := "root",
                 ImageURL := "/upload/srcslug1/a.jpg" },
               { ID := 91, NodeID := 1, Title := "End" } ],
    Links := [ { ID := 70, LinkID := 0, SourceNodeID := 0, TargetNodeID := 1,
                 LinkType := "bidirectional" } ] }

/-- A sample archive: the snapshot, the player page and one media file. -/
def demoArchive : List ZipFile :=
  [ { Name := "PSadventure_srcslug1.json", Json := some demoPayload },
    { Name := "index.html" },
    { Name := "upload/srcslug1/a.jpg" } ]

/-- A sample archive without a snapshot. -/
def demoArchiveNoJson : List ZipFile :=
  [ { Name := "index.html" }, { Name := "upload/srcslug1/a.jpg" } ]

/-- A decoder of props documents for the samples: it knows one node document and one
adventure document, and fails on everything else (as on the empty document). -/
def demoJSON : JSON :=
  { nodeProps := fun doc =>
      if doc = "\x7b\"audio_url\":\"/upload/x/a.mp3\"\x7d" then
        { AudioUrl := some "/upload/x/a.mp3" }
      else {}
    fontList := fun doc =>
      if doc = "\x7b\"font_list\":[\"\"]\x7d" then [""] else [] }

/-- The edit slug of every row of `adventure`, by id. -/
def DB.editSlugs (db : DB) : List (Int × String) := db.adventure.map (fun r => (r.id, r.slug))

/-- The view slug of every row of `adventure`, by id. -/
def DB.viewSlugs (db : DB) : List (Int × String) :=
  db.adventure.map (fun r => (r.id, r.view_slug))

/-- Call that inserts or deletes a row of `adventure`. -/
def Call.createsOrDeletes : Call → Bool
  | .CreateNewAdventure _ _ => true
  | .DeleteAdventureByID _ => true
  | _ => false

/-- Call `UPDATE adventure` of `SQLStore.UpdateAdventure`. -/
def Call.isUpdateAdventure : Call → Bool
  | .UpdateAdventure _ _ _ _ _ _ => true
  | _ => false

/-- The counters of the store are at least every id handed out, and every node and
link belongs to an adventure id already handed out. -/
def DB.wellFormed (db : DB) : Bool :=
  db.adventure.all (fun r => decide (r.id ≤ db.adventure_seq)) &&
    db.adventure_node.all (fun r =>
      decide (r.id ≤ db.node_seq) && decide (r.adventure_id ≤ db.adventure_seq)) &&
    db.adventure_link.all (fun r =>
      decide (r.id ≤ db.link_seq) && decide (r.adventure_id ≤ db.adventure_seq))

/-- The row `CreateNewNode` inserts for `node` under storage id `id`. -/
def newNodeRow (id : Int) (node : Node) : NodeRow :=
  { id := id, adventure_id := node.AdventureID, node_id := node.NodeID,
    title := node.Title, icon := some node.Icon, content := some node.Content,
    image_url := some node.ImageURL, image_id := some node.ImageID,
    image_layout_type := some node.ImageLayoutType, node_type := some node.NodeType,
    position_x := some node.X, position_y := some node.Y, props := some node.Props }

/-- The rows inserted for a list of nodes when the counter stands at `seq`. -/
def newNodeRows (advID : Int) : Int → List Node → List NodeRow
  | _, [] => []
  | seq, node :: rest =>
    newNodeRow (seq + 1) { node with AdventureID := advID } :: newNodeRows advID (seq + 1) rest

/-- The row `CreateNewLink` inserts for `link` under storage id `id`. -/
def newLinkRow (id : Int) (link : Link) : LinkRow :=
  { id := id, adventure_id := link.AdventureID, link_id := link.LinkID,
    source_node_id := link.SourceNodeID, target_node_id := link.TargetNodeID,
    source_link_title := some link.SourceLinkTitle,
    target_link_title := some link.TargetLinkTitle,
    link_type := some link.LinkType, props := some link.Props }

/-- The rows inserted for a list of links when the counter stands at `seq`. -/
def newLinkRows (advID : Int) : Int → List Link → List LinkRow
  | _, [] => []
  | seq, link :: rest =>
    newLinkRow (seq + 1) { link with AdventureID := advID } :: newLinkRows advID (seq + 1) rest

/-- The row `CreateNewAdventure` inserts under id `id`. -/
def mintedRow (id : Int) (slug viewSlug : String) : AdventureRow :=
  { id := id, title := some "Nytt äventyr", slug := slug, view_slug := viewSlug,
    category_id := some 1 }

/-- The props document of `node` sets one of the three URLs `models.Props` reads to
`x`. -/
def JSON.sets (json : JSON) (node : Node) (x : String) : Prop :=
  (json.nodeProps node.Props).AudioUrl = some x ∨
    (json.nodeProps node.Props).AudioUrlAlt = some x ∨
    (json.nodeProps node.Props).SubtitlesUrl = some x

/-- The keys `/web/<fileName>` of the fixed manifest. -/
def API.manifestKeys : List String := API.filesToInclude.map (fun fileName => "/web/" ++ fileName)

/-! ## values in which a slug stands as a path element -/

namespace strings

/-- The value `g/old/g₁/old/…`: the pieces `g`, `g₁`, … separated by the path element
`old` between two slashes. -/
def delimited (old : List Char) : List Char → List (List Char) → List Char
  | g, [] => g
  | g, g1 :: gs => g ++ '/' :: (old ++ '/' :: delimited old g1 gs)

/-- The value `v` is `g/old/g₁/old/…` and `old` occurs in none of the pieces: it holds
`old` as a path element only, once for each piece of `gs`. -/
def elementOnly (v old : String) (g : List Char) (gs : List (List Char)) : Bool :=
  v.data == delimited old.data g gs && !Contains (String.mk g) old &&
    gs.all (fun x => !Contains (String.mk x) old)

end strings

/-- An adventure whose media are filed under its slug `edit0001`, as `GetAdventure`
returns it: a font of the adventure's props, a link with a background image in its
props, and a node image named after the slug. -/
def demoCopySource : Adventure :=
  { ID := 1, Title := "Forest", Slug := "edit0001", ViewSlug := "view000000000001",
    CoverUrl := "/upload/edit0001/cover.jpg",
    Props := "\x7b\"font_list\":[\"/upload/edit0001/font.woff\"]\x7d",
    Nodes := [ { ID := 11, NodeID := 0, AdventureID := 1,
                 ImageURL := "/upload/edit0001/edit0001.jpg",
                 Props := "\x7b\"audio_url\":\"/upload/edit0001/a.mp3\"\x7d" } ],
    Links := [ { ID := 21, LinkID := 0, AdventureID := 1, SourceNodeID := 0,
                 TargetNodeID := 0,
                 Props := "\x7b\"image\":\"/upload/edit0001/arrow.png\"\x7d" } ] }

/-- The adventure `CreateNewAdventure` returns for the minted slugs. -/
def demoMinted : Adventure :=
  { ID := 3, Title := "Nytt äventyr", Slug := mintedSlug, ViewSlug := mintedViewSlug }

/-- An adventure whose node values and cover hold the slug `edit0001` as a path element
only. -/
def demoMediaAdventure : Adventure :=
  { ID := 1, Title := "Forest", Slug := "edit0001", ViewSlug := "view000000000001",
    CoverUrl := "/upload/edit0001/cover.jpg",
    Nodes := [ { ID := 11, NodeID := 0, AdventureID := 1,
                 ImageURL := "/upload/edit0001/n.jpg",
                 Props := "\x7b\"audio_url\":\"/upload/edit0001/a.mp3\",\"subtitles_url\":\"/upload/edit0001/s.vtt\"\x7d" },
               { ID := 12, NodeID := 1, AdventureID := 1 } ] }

namespace path

/-- The elements of `r` that `path.Clean` keeps when none of them is `..`: the non-empty
ones other than `.`. -/
def plainElems (r : String) : List (List Char) :=
  (splitSlash r.data).filter (fun e => !(decide (e = []) || decide (e = ['.'])))

/-- The cleaned path made of the elements of the directory `dir` followed by `elems`. -/
def under (dir : String) (elems : List (List Char)) : String :=
  String.mk ((if dir.data.head? = some '/' then ['/'] else []) ++
    ['/'].intercalate (cleanElems dir.data ++ elems))

end path

/-- A sample archive with two further entries under `upload`: one that climbs out of
the directory with `..`, and one filed under another slug than the snapshot's. -/
def demoArchiveSlip : List ZipFile :=
  [ { Name := "PSadventure_srcslug1.json", Json := some demoPayload },
    { Name := "upload/srcslug1/a.jpg" },
    { Name := "upload/../../etc/cron.d/job" },
    { Name := "upload/other/a.jpg" } ]

/-! ## the default adventure; the adventure a write call belongs to -/

namespace SQLStore

/-- Node `newRootNode` of `CreateDefaultAdventure`. -/
def newRootNode (adventureID : Int) : Node :=
  { AdventureID := adventureID, NodeID := 0, NodeType := "root", Title := "Start",
    Icon := "🏠", Content := "<p>Detta är starten på ditt nya PS.</p>", X := 345, Y := 100 }

/-- Node `newLeftNode` of `CreateDefaultAdventure`. -/
def newLeftNode (adventureID : Int) : Node :=
  { AdventureID := adventureID, NodeID := 1, NodeType := "default", Title := "Vänster",
    Content := "<p>Du har gått till vänster.</p>", X := 144, Y := 383 }

/-- Node `newRightNode` of `CreateDefaultAdventure`. -/
def newRightNode (adventureID : Int) : Node :=
  { AdventureID := adventureID, NodeID := 2, NodeType := "default", Title := "Höger",
    Content := "<p>Du har gått till höger.</p>", X := 546, Y := 383 }

/-- Link `newLinkRootToLeft` of `CreateDefaultAdventure`. -/
def newLinkRootToLeft (adventureID : Int) : Link :=
  { AdventureID := adventureID, LinkID := 0, SourceNodeID := 0, TargetNodeID := 1,
    LinkType := "bidirectional" }

/-- Link `newLinkRootToRight` of `CreateDefaultAdventure`. -/
def newLinkRootToRight (adventureID : Int) : Link :=
  { AdventureID := adventureID, LinkID := 1, SourceNodeID := 0, TargetNodeID := 2,
    LinkType := "bidirectional" }

/-- Function `SQLStore.CreateDefaultAdventure`; `viewSlug` and `slug` are what `uniuri`
returns in the call to `CreateNewAdventure`. -/
def CreateDefaultAdventure (s : Store) (viewSlug slug : String) : Store × Except Error Adventure :=
  match CreateNewAdventure s viewSlug slug with
  | (s0, .error err) => (s0, .error err)
  | (s0, .ok adventure) =>
    match CreateNewNode s0 (newRootNode adventure.ID) with
    | (s1, .error err) => (s1, .error err)
    | (s1, .ok _) =>
      match CreateNewNode s1 (newLeftNode adventure.ID) with
      | (s2, .error err) => (s2, .error err)
      | (s2, .ok _) =>
        match CreateNewNode s2 (newRightNode adventure.ID) with
        | (s3, .error err) => (s3, .error err)
        | (s3, .ok _) =>
          match CreateNewLink s3 (newLinkRootToLeft adventure.ID) with
          | (s4, .error err) => (s4, .error err)
          | (s4, .ok _) =>
            match CreateNewLink s4 (newLinkRootToRight adventure.ID) with
            | (s5, .error err) => (s5, .error err)
            | (s5, .ok _) =>
              let content := getAdventureContent s5.db adventure.ID
              (s5, .ok { adventure with Nodes := content.1, Links := content.2.1,
                                        Users := content.2.2 })

end SQLStore

/-- The write call is restricted to the adventure `id`: the row it inserts carries this
adventure id, or its WHERE clause asks for it. -/
def Call.scopedTo (id : Int) : Call → Bool
  | .UpdateAdventureRow _ _ _ _ _ _ id1 _ => id1 == id
  | .DeleteNode node => node.AdventureID == id
  | .CreateNewNode node => node.AdventureID == id
  | .UpdateNode node => node.AdventureID == id
  | .DeleteLink link => link.AdventureID == id
  | .CreateNewLink link => link.AdventureID == id
  | .UpdateLink link => link.AdventureID == id
  | _ => false

/-- A snapshot for the open adventure of `demoDB` that carries the storage id 4 of the
node of the other adventure, marked as changed, and none of its own nodes and links. -/
def demoForeignSnapshot : Adventure :=
  { Title := "Cave", Slug := "edit0001", Category := { ID := 1 }, EditVersion := 3,
    Nodes := [ { ID := 4, NodeID := 0, Title := "Mine now", Changed := true } ],
    Links := [] }

/-! ## package `net/http`: the response writer -/

/-- The state of an `http.ResponseWriter`: the header map, the status line once it is
sent, and the bytes of the body written so far. -/
structure ResponseWriter where
  header : List (String × String) := []
  status : Option Nat := none
  body : List Nat := []
  deriving DecidableEq, Repr

/-- Call `w.Header().Set(key, value)`: without effect once the status line is sent. -/
def ResponseWriter.HeaderSet (w : ResponseWriter) (key value : String) : ResponseWriter :=
  if w.status.isSome then w
  else { w with header := w.header.filter (fun kv => kv.1 != key) ++ [(key, value)] }

/-- Method `WriteHeader`: the first call sends the status line, a later one is
superfluous and ignored. -/
def ResponseWriter.WriteHeader (w : ResponseWriter) (statusCode : Nat) : ResponseWriter :=
  if w.status.isSome then w else { w with status := some statusCode }

/-- Method `Write`: sends the status line with `StatusOK` if none was sent, and appends
the data to the body. -/
def ResponseWriter.Write (w : ResponseWriter) (data : List Nat) : ResponseWriter :=
  { (w.WriteHeader StatusOK) with body := w.body ++ data }

/-- One call on a response writer. -/
inductive WriterCall where
  | HeaderSet (key value : String)
  | WriteHeader (statusCode : Nat)
  | Write (data : List Nat)
  deriving DecidableEq, Repr

/-- The calls made in order. -/
def ResponseWriter.calls (w : ResponseWriter) : List WriterCall → ResponseWriter
  | [] => w
  | .HeaderSet key value :: rest => (w.HeaderSet key value).calls rest
  | .WriteHeader statusCode :: rest => (w.WriteHeader statusCode).calls rest
  | .Write data :: rest => (w.Write data).calls rest

namespace API

/-- Handler `API.ExportAdventure`.  The helper `respondWithError` is given by the calls
it makes on the response writer for a status code and a message; `readFile` is
`ioutil.ReadFile` on the file system after `CreateExportZip`: the bytes read and the
error, if any; `uploadPath` is `a.systemPath + a.uploadDir`. -/
def ExportAdventure (db : DB) (env : ExportEnv) (json : JSON)
    (respondWithError : Nat → String → List WriterCall)
    (readFile : String → List Nat × Option Error) (uploadPath slug : String)
    (w : ResponseWriter) : ResponseWriter :=
  let created : String × ResponseWriter :=
    match CreateExportZip db env json slug with
    | .error err => ("", w.calls (respondWithError StatusInternalServerError err.message))
    | .ok _ => (uploadPath ++ "PSadventure_" ++ slug ++ ".zip", w)
  let w := created.2.HeaderSet "Content-Type" "application/zip"
  let w := w.WriteHeader StatusOK
  let data := (readFile created.1).1
  let w :=
    match (readFile created.1).2 with
    | some err => w.calls (respondWithError StatusInternalServerError err.message)
    | none => w
  let w :=
    if data.length > 100 * 1000 * 1024 then
      w.calls (respondWithError StatusInternalServerError "Could not export. Too large filesize.")
    else w
  w.Write data

/-- The loop of `DeleteMedia` over the nodes, with its `break`. -/
def countReferences (hash : String) : Nat → List Node → Nat
  | fileCount, [] => fileCount
  | fileCount, node :: rest =>
    if strings.Contains node.ImageURL hash || strings.Contains node.Props hash then
      if fileCount + 1 > 1 then fileCount + 1
      else countReferences hash (fileCount + 1) rest
    else countReferences hash fileCount rest

end API

/-- What `DeleteMedia` answers: an error, or the JSON object with the one key `result`. -/
inductive MediaResponse where
  | error (code : Nat) (message : String)
  | result (code : Nat) (result : String)
  deriving DecidableEq, Repr

namespace API

/-- Handler `API.DeleteMedia`: the path handed to `os.Remove`, if any, and the response.
`id` and `hash` are the route variables, `uploadPath` is `a.systemPath + a.uploadDir`. -/
def DeleteMedia (db : DB) (uploadPath id hash : String) : Option String × MediaResponse :=
  match SQLStore.GetAdventure db id ReadWrite with
  | .error err =>
    if err = .ErrNoRows then (none, .error StatusNotFound "Adventure not found")
    else (none, .error StatusInternalServerError err.message)
  | .ok existingAdventure =>
    let fileCount := countReferences hash 0 existingAdventure.Nodes
    let deletePath := uploadPath ++ id ++ "/" ++ hash
    (if fileCount == 1 then some deletePath else none, .result StatusOK "success")

end API

/-- The usual helper: a JSON object with the message, under the status code. -/
def demoRespondWithError (code : Nat) (message : String) : List WriterCall :=
  [ .HeaderSet "Content-Type" "application/json", .WriteHeader code,
    .Write (("\x7b\"error\":\"" ++ message ++ "\"\x7d").data.map Char.toNat) ]

/-- Tables with one adventure whose cover and whose only node show the same uploaded
file. -/
def demoMediaDB : DB :=
  { adventure :=
      [ { id := 1, title := some "Cave", description := some "A cave", slug := "edit0001",
          view_slug := "view0001", cover_url := some "/upload/edit0001/abc.jpg" } ]
    adventure_node :=
      [ { id := 1, adventure_id := 1, node_id := 0, title := "Start",
          image_url := some "/upload/edit0001/abc.jpg" } ]
    node_seq := 1
    adventure_seq := 1 }

/-- Tables with one adventure in which one node shows an uploaded file as its image and
names it again in its props. -/
def demoMediaTwiceDB : DB :=
  { adventure :=
      [ { id := 1, title := some "Cave", description := some "A cave", slug := "edit0001",
          view_slug := "view0001" } ]
    adventure_node :=
      [ { id := 1, adventure_id := 1, node_id := 0, title := "Start",
          image_url := some "/upload/edit0001/abc.jpg",
          props := some "\x7b\"background\":\"/upload/edit0001/abc.jpg\"\x7d" } ]
    node_seq := 1
    adventure_seq := 1 }

/-! ## `float64` arithmetic, on rational values

A finite `float64` is a rational number `m * 2 ^ t` with `m < 2 ^ 53` and `-1074 ≤ t`.
The result of an operation is the exact result rounded to the nearest such number, ties
to the even `m`.  Infinities and NaN are left out: they arise from values of magnitude
`2 ^ 1024` and more only, and an `int64` count of nanoseconds stays below `2 ^ 63`. -/

namespace float64

/-- The integer nearest to `y`, the even one of the two when `y` lies half way. -/
def roundEven (y : ℚ) : ℤ :=
  if y - ⌊y⌋ < 1 / 2 then ⌊y⌋
  else if 1 / 2 < y - ⌊y⌋ then ⌊y⌋ + 1
  else if ⌊y⌋ % 2 = 0 then ⌊y⌋ else ⌊y⌋ + 1

/-- The binary exponent of the positive value `x`: that of the subnormal numbers below
`2 ^ (-1022)`. -/
def exponent (x : ℚ) : ℤ := max (Int.log 2 x) (-1022)

/-- The `float64` nearest to a positive value: a multiple of the spacing
`2 ^ (exponent x - 52)` of its binade. -/
def nearestPos (x : ℚ) : ℚ :=
  roundEven (x / 2 ^ (exponent x - 52)) * 2 ^ (exponent x - 52)

/-- The `float64` nearest to `x`: the value of a conversion to `float64`, and of an
arithmetic operation whose exact result is `x`. -/
def nearest (x : ℚ) : ℚ :=
  if x = 0 then 0 else if 0 < x then nearestPos x else -nearestPos (-x)

/-- Conversion `float64(n)` of an `int64`. -/
def ofInt (n : Int) : ℚ := nearest n

/-- Sum of two `float64`. -/
def add (x y : ℚ) : ℚ := nearest (x + y)

/-- Quotient of two `float64`. -/
def div (x y : ℚ) : ℚ := nearest (x / y)

/-- Conversion `int(f)` of a `float64`: the fraction is discarded. -/
def toInt (f : ℚ) : Int := if 0 ≤ f then ⌊f⌋ else ⌈f⌉

/-- A finite non-negative `float64`: a value `m * 2 ^ t` with `m < 2 ^ 53` and
`-1074 ≤ t`. -/
def Representable (a : ℚ) : Prop :=
  ∃ (m : ℕ) (t : ℤ), -1074 ≤ t ∧ m < 2 ^ 53 ∧ a = (m : ℚ) * 2 ^ t

end float64

/-! ## package `time`: durations -/

namespace time

/-- Type `time.Duration`: a count of nanoseconds, an `int64`. -/
abbrev Duration := Int

def Second : Duration := 1000000000
def Minute : Duration := 60 * Second
def Hour : Duration := 60 * Minute

/-- Method `Duration.Hours`: `float64(hour) + float64(nsec)/(60*60*1e9)`. -/
def Duration.Hours (d : Duration) : ℚ :=
  float64.add (float64.ofInt (d.tdiv Hour)) (float64.div (float64.ofInt (d.tmod Hour)) 3600000000000)

/-- Method `Duration.Minutes`: `float64(min) + float64(nsec)/(60*1e9)`. -/
def Duration.Minutes (d : Duration) : ℚ :=
  float64.add (float64.ofInt (d.tdiv Minute)) (float64.div (float64.ofInt (d.tmod Minute)) 60000000000)

/-- Method `Duration.Seconds`: `float64(sec) + float64(nsec)/1e9`. -/
def Duration.Seconds (d : Duration) : ℚ :=
  float64.add (float64.ofInt (d.tdiv Second)) (float64.div (float64.ofInt (d.tmod Second)) 1000000000)

/-- Method `Time.Sub` on two instants given in nanoseconds: the difference, or the
largest or smallest duration when the difference does not fit an `int64`. -/
def Sub (t u : Int) : Duration :=
  if t - u > 9223372036854775807 then 9223372036854775807
  else if t - u < -9223372036854775808 then -9223372036854775808
  else t - u

end time

/-! ## package `timeago` -/

namespace timeago

/-- Type `DateAgoValues`. -/
inductive DateAgoValues where
  | SecondsAgo
  | MinutesAgo
  | HoursAgo
  | DaysAgo
  | WeeksAgo
  | MonthsAgo
  | YearsAgo
  deriving DecidableEq, Repr

/-- Function `round`: `math.Floor(f + .5)`. -/
def round (f : ℚ) : ℚ := ⌊float64.add f (1 / 2)⌋

/-- Function `localizedStringFor`; `%d` prints the decimal digits of the value. -/
def localizedStringFor (valueType : DateAgoValues) (value : Int) : String :=
  match valueType with
  | .YearsAgo => if value ≥ 2 then toString value ++ " år sedan" else "Förra året"
  | .MonthsAgo => if value ≥ 2 then toString value ++ " månader sedan" else "Förra månaden"
  | .WeeksAgo => if value ≥ 2 then toString value ++ " veckor sedan" else "Förra veckan"
  | .DaysAgo => if value ≥ 2 then toString value ++ " dagar sedan" else "Iförrgår"
  | .HoursAgo => if value ≥ 2 then toString value ++ " timmar sedan" else "En timme sedan"
  | .MinutesAgo => if value ≥ 2 then toString value ++ " minuter sedan" else "En minut sedan"
  | .SecondsAgo => if value ≥ 2 then toString value ++ " sekunder sedan" else "Alldeles nyss"

/-- Function `stringForDuration`. -/
def stringForDuration (duration : time.Duration) : String :=
  if duration.Hours < 24 then
    if duration.Hours ≥ 1 then
      localizedStringFor .HoursAgo (float64.toInt (round duration.Hours))
    else if duration.Minutes ≥ 1 then
      localizedStringFor .MinutesAgo (float64.toInt (round duration.Minutes))
    else
      localizedStringFor .SecondsAgo (float64.toInt (round duration.Seconds))
  else
    if duration.Hours ≥ 8760 then
      localizedStringFor .YearsAgo (float64.toInt (float64.div duration.Hours 8760))
    else if duration.Hours ≥ 730 then
      localizedStringFor .MonthsAgo (float64.toInt (float64.div duration.Hours 730))
    else if duration.Hours ≥ 168 then
      localizedStringFor .WeeksAgo (float64.toInt (float64.div duration.Hours 168))
    else
      localizedStringFor .DaysAgo (float64.toInt (float64.div duration.Hours 24))

/-- Function `WithTime`, on two instants given in nanoseconds: the text and the error,
which is always nil. -/
def WithTime (start endTime : Int) : String × Option Error :=
  (stringForDuration (time.Sub start endTime), none)

end timeago

/-! # Theorems -/

/-! ## lemmas: execution -/

theorem fetchCategory_eq (db : DB) (categoryID : Option Int) :
    SQLStore.fetchCategory db categoryID =
      .ok (match categoryID with
           | none => {}
           | some cid =>
             match SQLStore.GetCategory db cid with
             | .error _ => {}
             | .ok cat => cat) := by
  cases categoryID with
  | none => rfl
  | some cid =>
    simp only [SQLStore.fetchCategory]
    rcases hc : SQLStore.GetCategory db cid with e | cat
    · have he : e = .ErrNoRows := by
        unfold SQLStore.GetCategory at hc
        split at hc
        · cases hc; rfl
        · cases hc
      simp [he]
    · rfl

/-- `GetAdventure` in terms of the row it finds. -/
theorem GetAdventure_eq (db : DB) (slug : String) (permission : Permission) :
    SQLStore.GetAdventure db slug permission =
      match SQLStore.adventureWhere slug permission with
      | none => .error .nilRow
      | some p =>
        match db.adventure.find? p with
        | none => .error .ErrNoRows
        | some r => .ok (SQLStore.scanAdventure db slug r) := by
  unfold SQLStore.GetAdventure
  cases SQLStore.adventureWhere slug permission with
  | none => rfl
  | some p =>
    simp only
    cases db.adventure.find? p with
    | none => rfl
    | some r =>
      simp only [fetchCategory_eq]
      rfl

theorem run_append (s : Store) (l1 l2 : List Call) :
    s.run (l1 ++ l2) =
      match s.run l1 with
      | (s1, some err) => (s1, some err)
      | (s1, none) => s1.run l2 := by
  induction l1 generalizing s with
  | nil => simp [Store.run]
  | cons c cs ih =>
    show Store.run s (c :: (cs ++ l2)) = _
    simp only [Store.run]
    rcases s.Exec c with ⟨s1, _ | err⟩
    · exact ih s1
    · rfl

theorem deleteRemovedNodes_eq_run (a newAdventure : Adventure) (s : Store) (nodes : List Node) :
    SQLStore.deleteRemovedNodes a newAdventure s nodes = s.run (nodeDeletes a newAdventure nodes) := by
  induction nodes generalizing s with
  | nil => simp [SQLStore.deleteRemovedNodes, nodeDeletes, Store.run]
  | cons node rest ih =>
    unfold SQLStore.deleteRemovedNodes
    by_cases h : newAdventure.Nodes.any (fun e => e.ID == node.ID) = true
    · simp only [h, Bool.not_true, Bool.false_eq_true, if_false, ih]
      simp [nodeDeletes, List.filter_cons, h]
    · simp only [Bool.not_eq_true] at h
      have hd : nodeDeletes a newAdventure (node :: rest) =
          Call.DeleteNode { node with AdventureID := a.ID } :: nodeDeletes a newAdventure rest := by
        simp [nodeDeletes, List.filter_cons, h]
      rw [hd]
      simp only [h, Bool.not_false, if_true, SQLStore.DeleteNode, Store.run]
      rcases s.Exec (Call.DeleteNode { node with AdventureID := a.ID }) with ⟨s1, _ | err⟩
      · exact ih s1
      · rfl

theorem writeNodes_eq_run (a : Adventure) (s : Store) (nodes : List Node) :
    SQLStore.writeNodes a s nodes = s.run (nodes.filterMap (nodeWrite a)) := by
  induction nodes generalizing s with
  | nil => simp [SQLStore.writeNodes, Store.run]
  | cons node rest ih =>
    unfold SQLStore.writeNodes
    cases h0 : (node.ID == 0)
    · cases hc : node.Changed
      · have hw : (node :: rest).filterMap (nodeWrite a) = rest.filterMap (nodeWrite a) := by
          simp only [List.filterMap_cons, nodeWrite, h0, hc, if_false, Bool.false_eq_true]
        rw [hw]
        simp only [h0, if_false, hc, Bool.false_eq_true]
        exact ih s
      · have hw : (node :: rest).filterMap (nodeWrite a) =
            Call.UpdateNode { node with AdventureID := a.ID } :: rest.filterMap (nodeWrite a) := by
          simp only [List.filterMap_cons, nodeWrite, h0, hc, if_true, if_false, Bool.false_eq_true]
        rw [hw]
        simp only [h0, if_false, hc, if_true, SQLStore.UpdateNode, Store.run, Bool.false_eq_true]
        rcases s.Exec _ with ⟨s1, _ | err⟩
        · exact ih s1
        · rfl
    · have hw : (node :: rest).filterMap (nodeWrite a) =
          Call.CreateNewNode { node with AdventureID := a.ID } :: rest.filterMap (nodeWrite a) := by
        simp only [List.filterMap_cons, nodeWrite, h0, if_true]
      rw [hw]
      simp only [h0, if_true, SQLStore.CreateNewNode, Store.run]
      rcases s.Exec _ with ⟨s1, _ | err⟩
      · exact ih s1
      · rfl

theorem deleteRemovedLinks_eq_run (a newAdventure : Adventure) (s : Store) (links : List Link) :
    SQLStore.deleteRemovedLinks a newAdventure s links = s.run (linkDeletes a newAdventure links) := by
  induction links generalizing s with
  | nil => simp [SQLStore.deleteRemovedLinks, linkDeletes, Store.run]
  | cons link rest ih =>
    unfold SQLStore.deleteRemovedLinks
    by_cases h : newAdventure.Links.any (fun e => e.ID == link.ID) = true
    · simp only [h, Bool.not_true, Bool.false_eq_true, if_false, ih]
      simp [linkDeletes, List.filter_cons, h]
    · simp only [Bool.not_eq_true] at h
      have hd : linkDeletes a newAdventure (link :: rest) =
          Call.DeleteLink { link with AdventureID := a.ID } :: linkDeletes a newAdventure rest := by
        simp [linkDeletes, List.filter_cons, h]
      rw [hd]
      simp only [h, Bool.not_false, if_true, SQLStore.DeleteLink, Store.run]
      rcases s.Exec (Call.DeleteLink { link with AdventureID := a.ID }) with ⟨s1, _ | err⟩
      · exact ih s1
      · rfl

theorem writeLinks_eq_run (a : Adventure) (s : Store) (links : List Link) :
    SQLStore.writeLinks a s links = s.run (links.filterMap (linkWrite a)) := by
  induction links generalizing s with
  | nil => simp [SQLStore.writeLinks, Store.run]
  | cons link rest ih =>
    unfold SQLStore.writeLinks
    cases h0 : (link.ID == 0)
    · cases hc : link.Changed
      · have hw : (link :: rest).filterMap (linkWrite a) = rest.filterMap (linkWrite a) := by
          simp only [List.filterMap_cons, linkWrite, h0, hc, if_false, Bool.false_eq_true]
        rw [hw]
        simp only [h0, if_false, hc, Bool.false_eq_true]
        exact ih s
      · have hw : (link :: rest).filterMap (linkWrite a) =
            Call.UpdateLink { link with AdventureID := a.ID } :: rest.filterMap (linkWrite a) := by
          simp only [List.filterMap_cons, linkWrite, h0, hc, if_true, if_false, Bool.false_eq_true]
        rw [hw]
        simp only [h0, if_false, hc, if_true, SQLStore.UpdateLink, Store.run, Bool.false_eq_true]
        rcases s.Exec _ with ⟨s1, _ | err⟩
        · exact ih s1
        · rfl
    · have hw : (link :: rest).filterMap (linkWrite a) =
          Call.CreateNewLink { link with AdventureID := a.ID } :: rest.filterMap (linkWrite a) := by
        simp only [List.filterMap_cons, linkWrite, h0, if_true]
      rw [hw]
      simp only [h0, if_true, SQLStore.CreateNewLink, Store.run]
      rcases s.Exec _ with ⟨s1, _ | err⟩
      · exact ih s1
      · rfl

/-- With the persisted adventure `a` at hand, `UpdateAdventureContent` is the run of
its plan. -/
theorem UpdateAdventureContent_eq_run (s : Store) (newAdventure a : Adventure)
    (h : SQLStore.GetAdventure s.db newAdventure.Slug ReadWrite = .ok a) :
    SQLStore.UpdateAdventureContent s newAdventure = s.run (plan a newAdventure) := by
  unfold SQLStore.UpdateAdventureContent
  simp only [h, plan, Store.run, scalarUpdate]
  rcases s.Exec _ with ⟨s1, _ | err⟩
  · simp only [run_append, deleteRemovedNodes_eq_run, writeNodes_eq_run,
      deleteRemovedLinks_eq_run, writeLinks_eq_run]
  · rfl

theorem Exec_log (s : Store) (c : Call) : (s.Exec c).1.log = s.log ++ [c] := by
  unfold Store.Exec
  rcases s.faults with _ | ⟨_ | _, rest⟩ <;> rfl

theorem Exec_ok_db (s : Store) (c : Call) (h : (s.Exec c).2 = none) :
    (s.Exec c).1.db = applyCall s.db c := by
  rcases hf : s.faults with _ | ⟨_ | _, rest⟩
  · simp [Store.Exec, hf]
  · simp [Store.Exec, hf]
  · simp [Store.Exec, hf] at h

theorem Exec_err_db (s : Store) (c : Call) (h : (s.Exec c).2 ≠ none) :
    (s.Exec c).1.db = s.db := by
  rcases hf : s.faults with _ | ⟨_ | _, rest⟩
  · simp [Store.Exec, hf] at h
  · simp [Store.Exec, hf] at h
  · simp [Store.Exec, hf]

theorem Exec_noFault (s : Store) (c : Call) (h : s.noFault = true) :
    (s.Exec c).2 = none ∧ (s.Exec c).1.noFault = true := by
  rcases hf : s.faults with _ | ⟨_ | _, rest⟩
  · simp [Store.Exec, Store.noFault, hf]
  · simp only [Store.noFault, hf, List.all_cons, Bool.not_false, Bool.true_and] at h
    simp [Store.Exec, Store.noFault, hf, h]
  · simp [Store.noFault, hf] at h

/-- Shape of a run: the log grows by the first `k` calls of the list, of which the
first `j` are applied; a run without error issues and applies them all, a run that
ends in an error has issued exactly one call (the failed one) more than it applied. -/
theorem run_spec (s : Store) (cs : List Call) :
    ∃ k j, j ≤ k ∧ k ≤ cs.length ∧
      (s.run cs).1.log = s.log ++ cs.take k ∧
      (s.run cs).1.db = (cs.take j).foldl applyCall s.db ∧
      ((s.run cs).2 = none → j = cs.length) ∧
      ((s.run cs).2 ≠ none → k = j + 1) := by
  induction cs generalizing s with
  | nil => exact ⟨0, 0, le_refl _, le_refl _, by simp [Store.run], by simp [Store.run],
      fun _ => rfl, fun h => absurd rfl h⟩
  | cons c cs ih =>
    have hlog := Exec_log s c
    have hok := Exec_ok_db s c
    have herr := Exec_err_db s c
    simp only [Store.run]
    rcases hx : s.Exec c with ⟨s1, _ | err⟩
    · rw [hx] at hlog hok
      simp only [forall_const] at hlog hok
      obtain ⟨k, j, hjk, hk, h1, h2, h3, h4⟩ := ih s1
      refine ⟨k + 1, j + 1, by omega, by simp only [List.length_cons]; omega, ?_, ?_, ?_, ?_⟩
      · simp only [h1, hlog, List.take_succ_cons, List.append_assoc, List.singleton_append]
      · simp only [h2, hok, List.take_succ_cons, List.foldl_cons]
      · intro h; simp only [List.length_cons, h3 h]
      · intro h; rw [h4 h]
    · rw [hx] at hlog herr
      simp only [ne_eq, reduceCtorEq, not_false_eq_true, forall_const] at hlog herr
      refine ⟨1, 0, by omega, by simp only [List.length_cons]; omega, ?_, ?_, ?_, ?_⟩
      · simp only [hlog, List.take_succ_cons, List.take_zero]
      · simp only [List.take_zero, List.foldl_nil, herr]
      · intro h; simp at h
      · intro _; rfl

theorem run_noFault (s : Store) (cs : List Call) (h : s.noFault = true) :
    (s.run cs).2 = none ∧ (s.run cs).1.log = s.log ++ cs ∧
      (s.run cs).1.db = cs.foldl applyCall s.db := by
  induction cs generalizing s with
  | nil => simp [Store.run]
  | cons c cs ih =>
    have hlog := Exec_log s c
    have hok := Exec_ok_db s c
    have hnf := Exec_noFault s c h
    simp only [Store.run]
    rcases hx : s.Exec c with ⟨s1, _ | err⟩
    · rw [hx] at hlog hok hnf
      simp only [forall_const, true_and] at hlog hok hnf
      obtain ⟨h1, h2, h3⟩ := ih s1 hnf
      refine ⟨h1, ?_, ?_⟩
      · simp only [h2, hlog, List.append_assoc, List.singleton_append]
      · simp only [h3, hok, List.foldl_cons]
    · rw [hx] at hnf
      simp at hnf

theorem issued_run (s : Store) (cs : List Call) :
    ∃ k, issued s (s.run cs).1 = cs.take k := by
  obtain ⟨k, _, _, _, h1, _⟩ := run_spec s cs
  exact ⟨k, by simp [issued, h1]⟩

theorem issued_run_noFault (s : Store) (cs : List Call) (h : s.noFault = true) :
    issued s (s.run cs).1 = cs := by
  simp [issued, (run_noFault s cs h).2.1]

theorem take_filterMap {α β : Type} (f : α → Option β) (l : List α) (k : Nat) :
    ∃ m, (l.take k).filterMap f = (l.filterMap f).take m := by
  induction l generalizing k with
  | nil => exact ⟨0, by simp⟩
  | cons x xs ih =>
    cases k with
    | zero => exact ⟨0, by simp⟩
    | succ k =>
      obtain ⟨m, hm⟩ := ih k
      simp only [List.take_succ_cons, List.filterMap_cons]
      cases f x with
      | none => exact ⟨m, hm⟩
      | some y => exact ⟨m + 1, by simp [hm]⟩

/-! ## lemmas: the adventure table under a reconciliation -/

theorem applyCall_content_adventure (db : DB) (c : Call) (h : c.isContent = true) :
    (applyCall db c).adventure = db.adventure ∧
      (applyCall db c).adventure_category = db.adventure_category := by
  cases c <;> first | exact ⟨rfl, rfl⟩ | simp [Call.isContent] at h

theorem foldl_content_adventure (db : DB) (cs : List Call) (h : ∀ c ∈ cs, c.isContent = true) :
    (cs.foldl applyCall db).adventure = db.adventure ∧
      (cs.foldl applyCall db).adventure_category = db.adventure_category := by
  induction cs generalizing db with
  | nil => exact ⟨rfl, rfl⟩
  | cons c cs ih =>
    have h1 := applyCall_content_adventure db c (h c (List.mem_cons_self _ _))
    have h2 := ih (applyCall db c) (fun x hx => h x (List.mem_cons_of_mem _ hx))
    simp only [List.foldl_cons]
    exact ⟨h2.1.trans h1.1, h2.2.trans h1.2⟩

theorem plan_tail_isContent (a newAdventure : Adventure) :
    ∀ c ∈ (plan a newAdventure).tail, c.isContent = true := by
  intro c hc
  simp only [plan, List.tail_cons, List.mem_append, nodeDeletes, linkDeletes, List.mem_map,
    List.mem_filterMap, nodeWrite, linkWrite] at hc
  rcases hc with ⟨n, _, rfl⟩ | ⟨n, _, h⟩ | ⟨l, _, rfl⟩ | ⟨l, _, h⟩
  · rfl
  · split at h
    · cases h; rfl
    · split at h
      · cases h; rfl
      · cases h
  · rfl
  · split at h
    · cases h; rfl
    · split at h
      · cases h; rfl
      · cases h

theorem plan_foldl_adventure (db : DB) (a newAdventure : Adventure) :
    ((plan a newAdventure).foldl applyCall db).adventure =
        db.adventure.map (scalarRow a newAdventure) ∧
      ((plan a newAdventure).foldl applyCall db).adventure_category = db.adventure_category := by
  have h := foldl_content_adventure (applyCall db (scalarUpdate a newAdventure))
    (plan a newAdventure).tail (plan_tail_isContent a newAdventure)
  have hp : plan a newAdventure = scalarUpdate a newAdventure :: (plan a newAdventure).tail := rfl
  rw [hp, List.foldl_cons]
  exact ⟨h.1, h.2⟩

theorem scalarRow_slug (a newAdventure : Adventure) (r : AdventureRow) :
    (scalarRow a newAdventure r).slug = r.slug ∧ (scalarRow a newAdventure r).id = r.id ∧
      (scalarRow a newAdventure r).view_slug = r.view_slug ∧
      (scalarRow a newAdventure r).edit_version = r.edit_version ∧
      (scalarRow a newAdventure r).view_count = r.view_count := by
  unfold scalarRow
  split <;> exact ⟨rfl, rfl, rfl, rfl, rfl⟩

theorem GetAdventure_ReadWrite (db : DB) (slug : String) :
    SQLStore.GetAdventure db slug ReadWrite =
      match db.adventure.find? (fun r => r.slug == slug) with
      | none => .error .ErrNoRows
      | some r => .ok (SQLStore.scanAdventure db slug r) := by
  rw [GetAdventure_eq]
  rfl

theorem GetAdventure_ReadWrite_ok (db : DB) (slug : String) (a : Adventure)
    (h : SQLStore.GetAdventure db slug ReadWrite = .ok a) :
    ∃ r, db.adventure.find? (fun r => r.slug == slug) = some r ∧
      a = SQLStore.scanAdventure db slug r ∧ r.slug = slug := by
  rw [GetAdventure_ReadWrite] at h
  rcases hf : db.adventure.find? (fun r => r.slug == slug) with _ | r
  · simp [hf] at h
  · simp only [hf, Except.ok.injEq] at h
    refine ⟨r, hf, h.symm, ?_⟩
    have := List.find?_some hf
    simpa using this

theorem find_slug_map_scalarRow (rows : List AdventureRow) (a newAdventure : Adventure)
    (slug : String) :
    (rows.map (scalarRow a newAdventure)).find? (fun r => r.slug == slug) =
      (rows.find? (fun r => r.slug == slug)).map (scalarRow a newAdventure) := by
  rw [List.find?_map]
  congr 2
  funext r
  simp [(scalarRow_slug a newAdventure r).1]

/-- A reconciliation that returns no error has issued and applied its whole plan. -/
theorem UpdateAdventureContent_ok (s : Store) (newAdventure a : Adventure)
    (h : SQLStore.GetAdventure s.db newAdventure.Slug ReadWrite = .ok a)
    (hok : (SQLStore.UpdateAdventureContent s newAdventure).2 = none) :
    (SQLStore.UpdateAdventureContent s newAdventure).1.db =
        (plan a newAdventure).foldl applyCall s.db ∧
      (SQLStore.UpdateAdventureContent s newAdventure).1.log = s.log ++ plan a newAdventure := by
  rw [UpdateAdventureContent_eq_run s newAdventure a h] at hok ⊢
  obtain ⟨k, j, hjk, hk, h1, h2, h3, _⟩ := run_spec s (plan a newAdventure)
  have hj := h3 hok
  have hk2 : k = (plan a newAdventure).length := by omega
  rw [h1, h2, hj, hk2, List.take_length]
  exact ⟨rfl, rfl⟩

/-- After a reconciliation without error the edit slug still resolves. -/
theorem refetch_ok (s : Store) (newAdventure a : Adventure)
    (h : SQLStore.GetAdventure s.db newAdventure.Slug ReadWrite = .ok a)
    (hok : (SQLStore.UpdateAdventureContent s newAdventure).2 = none) :
    ∃ r, s.db.adventure.find? (fun r => r.slug == newAdventure.Slug) = some r ∧
      SQLStore.GetAdventure (SQLStore.UpdateAdventureContent s newAdventure).1.db
          newAdventure.Slug ReadWrite =
        .ok (SQLStore.scanAdventure (SQLStore.UpdateAdventureContent s newAdventure).1.db
          newAdventure.Slug (scalarRow a newAdventure r)) := by
  obtain ⟨r, hr, _, _⟩ := GetAdventure_ReadWrite_ok _ _ _ h
  refine ⟨r, hr, ?_⟩
  have hdb := (UpdateAdventureContent_ok s newAdventure a h hok).1
  rw [GetAdventure_ReadWrite, hdb, (plan_foldl_adventure s.db a newAdventure).1,
    find_slug_map_scalarRow, hr]
  rfl

theorem scanAdventure_Slug (db : DB) (slug : String) (r : AdventureRow) :
    (SQLStore.scanAdventure db slug r).Slug = r.slug ∧
      (SQLStore.scanAdventure db slug r).ID = r.id ∧
      (SQLStore.scanAdventure db slug r).Locked = r.locked ∧
      (SQLStore.scanAdventure db slug r).EditVersion = r.edit_version := ⟨rfl, rfl, rfl, rfl⟩

/-- The handler on a request that passes every check: the outcome is decided by the
store call alone. -/
theorem handler_accepted (s : Store) (slug : String) (persisted incoming : Adventure)
    (hres : SQLStore.GetAdventure s.db slug ReadWrite = .ok persisted)
    (hunl : persisted.Locked = false)
    (hver : ¬ persisted.EditVersion > incoming.EditVersion) :
    (API.UpdateAdventureContent s slug (some incoming)).1 =
        (SQLStore.UpdateAdventureContent s
          { incoming with Slug := persisted.Slug, ID := persisted.ID }).1 ∧
      ((SQLStore.UpdateAdventureContent s
          { incoming with Slug := persisted.Slug, ID := persisted.ID }).2 = none →
        ∃ updated, SQLStore.GetAdventure (SQLStore.UpdateAdventureContent s
            { incoming with Slug := persisted.Slug, ID := persisted.ID }).1.db slug ReadWrite =
              .ok updated ∧
          (API.UpdateAdventureContent s slug (some incoming)).2 = .json StatusOK updated) ∧
      (∀ err, (SQLStore.UpdateAdventureContent s
          { incoming with Slug := persisted.Slug, ID := persisted.ID }).2 = some err →
        (API.UpdateAdventureContent s slug (some incoming)).2 =
          .error StatusInternalServerError err.message) := by
  obtain ⟨row, hrow, ha, hslug⟩ := GetAdventure_ReadWrite_ok _ _ _ hres
  have hs : persisted.Slug = slug := by rw [ha]; exact hslug
  have hadv : SQLStore.GetAdventure s.db
      ({ incoming with Slug := persisted.Slug, ID := persisted.ID } : Adventure).Slug ReadWrite =
        .ok persisted := by
    show SQLStore.GetAdventure s.db persisted.Slug ReadWrite = .ok persisted
    rw [hs]; exact hres
  have key : ∀ s1, SQLStore.UpdateAdventureContent s
      { incoming with Slug := persisted.Slug, ID := persisted.ID } = (s1, none) →
      ∃ updated, SQLStore.GetAdventure s1.db slug ReadWrite = .ok updated := by
    intro s1 h1
    obtain ⟨r0, _, hre⟩ := refetch_ok s _ persisted hadv (by rw [h1])
    rw [h1] at hre
    have h2 : ({ incoming with Slug := persisted.Slug, ID := persisted.ID } : Adventure).Slug =
        slug := hs
    rw [h2] at hre
    exact ⟨_, hre⟩
  simp only [API.UpdateAdventureContent, hres, hunl, hver, if_false, Bool.false_eq_true]
  rcases hr : SQLStore.UpdateAdventureContent s
      { incoming with Slug := persisted.Slug, ID := persisted.ID } with ⟨s1, _ | err⟩
  · obtain ⟨updated, hu⟩ := key s1 hr
    simp only [hu]
    exact ⟨trivial, fun _ => ⟨updated, rfl, rfl⟩, fun err h => absurd h (by simp)⟩
  · simp only
    refine ⟨trivial, fun h => absurd h (by simp), fun e h => ?_⟩
    simp only [Option.some.injEq] at h
    rw [h]

/-! ## the handler: staleness and lock checks -/

/-- A reconciliation on a store in which no write fails returns no error. -/
theorem UpdateAdventureContent_noFault (s : Store) (newAdventure a : Adventure)
    (h : SQLStore.GetAdventure s.db newAdventure.Slug ReadWrite = .ok a)
    (hnf : s.noFault = true) :
    (SQLStore.UpdateAdventureContent s newAdventure).2 = none := by
  rw [UpdateAdventureContent_eq_run s newAdventure a h]
  exact (run_noFault s _ hnf).1

/-- Status 423 is answered only to a decodable request on an unlocked adventure whose
persisted edit version is greater than the incoming one. -/
theorem code_locked_only_stale (s : Store) (slug : String) (body : Option Adventure)
    (h : (API.UpdateAdventureContent s slug body).2.code = StatusLocked) :
    ∃ p i, SQLStore.GetAdventure s.db slug ReadWrite = .ok p ∧ p.Locked = false ∧
      body = some i ∧ p.EditVersion > i.EditVersion := by
  rcases hg : SQLStore.GetAdventure s.db slug ReadWrite with e | p
  · simp only [API.UpdateAdventureContent, hg] at h
    split at h <;> simp [Response.code, StatusLocked, StatusNotFound,
      StatusInternalServerError] at h
  · cases hl : p.Locked
    · cases body with
      | none =>
        simp [API.UpdateAdventureContent, hg, hl, Response.code, StatusLocked,
          StatusBadRequest] at h
      | some i =>
        by_cases hv : p.EditVersion > i.EditVersion
        · exact ⟨p, i, rfl, hl, rfl, hv⟩
        · obtain ⟨_, h2, h3⟩ := handler_accepted s slug p i hg hl hv
          rcases hr : (SQLStore.UpdateAdventureContent s
              { i with Slug := p.Slug, ID := p.ID }).2 with _ | err
          · obtain ⟨u, _, hu⟩ := h2 hr
            rw [hu] at h
            simp [Response.code, StatusLocked, StatusOK] at h
          · rw [h3 err hr] at h
            simp [Response.code, StatusLocked, StatusInternalServerError] at h
    · simp [API.UpdateAdventureContent, hg, hl, Response.code, StatusLocked,
        StatusNotFound] at h

/-- C1: for a request whose slug resolves under ReadWrite to an unlocked adventure and
whose payload decodes, the handler answers 423 exactly when the persisted edit version
is greater than the incoming one; an equal version is not rejected as stale (and is
answered 200 when no write fails); and no other outcome of the handler, on any
request, carries status 423. -/
theorem C1_stale_write_iff (s : Store) (slug : String) (persisted incoming : Adventure)
    (hres : SQLStore.GetAdventure s.db slug ReadWrite = .ok persisted)
    (hunl : persisted.Locked = false) :
    ((API.UpdateAdventureContent s slug (some incoming)).2.code = StatusLocked ↔
        persisted.EditVersion > incoming.EditVersion) ∧
      (persisted.EditVersion > incoming.EditVersion →
        (API.UpdateAdventureContent s slug (some incoming)).2 =
          .error StatusLocked "Adventure is used by other instance.") ∧
      (incoming.EditVersion = persisted.EditVersion →
        (API.UpdateAdventureContent s slug (some incoming)).2.code ≠ StatusLocked ∧
          (s.noFault = true →
            (API.UpdateAdventureContent s slug (some incoming)).2.code = StatusOK)) ∧
      (∀ (s0 : Store) (slug0 : String) (body0 : Option Adventure),
        (API.UpdateAdventureContent s0 slug0 body0).2.code = StatusLocked →
          ∃ p i, SQLStore.GetAdventure s0.db slug0 ReadWrite = .ok p ∧ p.Locked = false ∧
            body0 = some i ∧ p.EditVersion > i.EditVersion) := by
  have hstale : persisted.EditVersion > incoming.EditVersion →
      (API.UpdateAdventureContent s slug (some incoming)).2 =
        .error StatusLocked "Adventure is used by other instance." := by
    intro hv
    simp [API.UpdateAdventureContent, hres, hunl, hv]
  have hiff : (API.UpdateAdventureContent s slug (some incoming)).2.code = StatusLocked ↔
      persisted.EditVersion > incoming.EditVersion := by
    constructor
    · intro h
      obtain ⟨p, i, hp, _, hi, hv⟩ := code_locked_only_stale s slug _ h
      rw [hres] at hp
      cases hp
      cases hi
      exact hv
    · intro hv
      rw [hstale hv]
      rfl
  refine ⟨hiff, hstale, ?_, fun s0 slug0 body0 h => code_locked_only_stale s0 slug0 body0 h⟩
  intro heq
  have hv : ¬ persisted.EditVersion > incoming.EditVersion := by omega
  refine ⟨fun h => hv (hiff.mp h), fun hnf => ?_⟩
  obtain ⟨row, _, ha, hslug⟩ := GetAdventure_ReadWrite_ok _ _ _ hres
  have hs : persisted.Slug = slug := by rw [ha]; exact hslug
  obtain ⟨_, h2, _⟩ := handler_accepted s slug persisted incoming hres hunl hv
  have hok := UpdateAdventureContent_noFault s
    { incoming with Slug := persisted.Slug, ID := persisted.ID } persisted
    (by show SQLStore.GetAdventure s.db persisted.Slug ReadWrite = .ok persisted
        rw [hs]; exact hres) hnf
  obtain ⟨u, _, hu⟩ := h2 hok
  rw [hu]
  rfl

/-- C1, at the sample store: the open adventure has edit version 3; a snapshot with
version 3 is answered 200. -/
theorem C1_stale_write_iff_witness :
    SQLStore.GetAdventure demoStore.db "edit0001" ReadWrite = .ok demoAdventure ∧
      demoAdventure.Locked = false ∧
      (API.UpdateAdventureContent demoStore "edit0001" (some demoAdventure)).2.code =
        StatusOK :=
  ⟨rfl, rfl,
    ((C1_stale_write_iff demoStore "edit0001" demoAdventure demoAdventure rfl rfl).2.2.1
      rfl).2 rfl⟩

/-- C2: when the slug resolves under ReadWrite and the incoming edit version is less
than the persisted one, the handler leaves the store exactly as it was (tables, call
log and fault script: no write is issued), and answers 423 when the adventure is
unlocked. -/
theorem C2_stale_write_no_mutation (s : Store) (slug : String) (persisted incoming : Adventure)
    (hres : SQLStore.GetAdventure s.db slug ReadWrite = .ok persisted)
    (hver : incoming.EditVersion < persisted.EditVersion) :
    (API.UpdateAdventureContent s slug (some incoming)).1 = s ∧
      issued s (API.UpdateAdventureContent s slug (some incoming)).1 = [] ∧
      (persisted.Locked = false →
        (API.UpdateAdventureContent s slug (some incoming)).2.code = StatusLocked) := by
  have hv : persisted.EditVersion > incoming.EditVersion := hver
  have h1 : (API.UpdateAdventureContent s slug (some incoming)).1 = s := by
    cases hl : persisted.Locked <;> simp [API.UpdateAdventureContent, hres, hl, hv]
  refine ⟨h1, by rw [h1]; simp [issued], fun hl => ?_⟩
  simp [API.UpdateAdventureContent, hres, hl, hv, Response.code]

/-- C2, at the sample store: a snapshot with version 2 against persisted version 3. -/
theorem C2_stale_write_no_mutation_witness :
    SQLStore.GetAdventure demoStore.db "edit0001" ReadWrite = .ok demoAdventure ∧
      ({ demoAdventure with EditVersion := 2 } : Adventure).EditVersion <
        demoAdventure.EditVersion ∧
      (API.UpdateAdventureContent demoStore "edit0001"
        (some { demoAdventure with EditVersion := 2 })).1 = demoStore :=
  ⟨rfl, by decide,
    (C2_stale_write_no_mutation demoStore "edit0001" demoAdventure
      { demoAdventure with EditVersion := 2 } rfl (by decide)).1⟩

/-! ## the calls of a reconciliation, by kind -/

theorem issued_UpdateAdventureContent (s : Store) (S P : Adventure)
    (hP : SQLStore.GetAdventure s.db S.Slug ReadWrite = .ok P) :
    (∃ k, issued s (SQLStore.UpdateAdventureContent s S).1 = (plan P S).take k) ∧
      ((SQLStore.UpdateAdventureContent s S).2 = none →
        issued s (SQLStore.UpdateAdventureContent s S).1 = plan P S) := by
  refine ⟨?_, fun hok => ?_⟩
  · rw [UpdateAdventureContent_eq_run s S P hP]
    exact issued_run s _
  · simp [issued, (UpdateAdventureContent_ok s S P hP hok).2]

theorem filterMap_ite {α β : Type} (p : α → Bool) (g : α → β) (l : List α) :
    l.filterMap (fun x => if p x then some (g x) else none) = (l.filter p).map g := by
  induction l with
  | nil => rfl
  | cons x xs ih =>
    cases hp : p x <;> simp [List.filterMap_cons, List.filter_cons, hp, ih]

theorem not_any_ID_eq (nodes : List Node) (id : Int) :
    (!nodes.any (fun e => e.ID == id)) = decide (id ∉ nodes.map Node.ID) := by
  rw [Bool.eq_iff_iff]
  simp only [Bool.not_eq_true', List.any_eq_false, beq_iff_eq, decide_eq_true_eq,
    List.mem_map, not_exists, not_and]

theorem not_any_link_ID_eq (links : List Link) (id : Int) :
    (!links.any (fun e => e.ID == id)) = decide (id ∉ links.map Link.ID) := by
  rw [Bool.eq_iff_iff]
  simp only [Bool.not_eq_true', List.any_eq_false, beq_iff_eq, decide_eq_true_eq,
    List.mem_map, not_exists, not_and]

/-- The `DeleteNode` calls of the plan. -/
theorem plan_deletedNode (P S : Adventure) :
    (plan P S).filterMap Call.deletedNode? =
      (P.Nodes.filter (fun p => decide (p.ID ∉ S.Nodes.map Node.ID))).map
        (fun p => { p with AdventureID := P.ID }) := by
  have h1 : (nodeDeletes P S P.Nodes).filterMap Call.deletedNode? =
      (P.Nodes.filter (fun p => decide (p.ID ∉ S.Nodes.map Node.ID))).map
        (fun p => { p with AdventureID := P.ID }) := by
    simp only [nodeDeletes, List.filterMap_map, not_any_ID_eq]
    exact congrFun (List.filterMap_eq_map _) _
  have h2 : (S.Nodes.filterMap (nodeWrite P)).filterMap Call.deletedNode? = [] := by
    rw [List.filterMap_eq_nil_iff]
    intro c hc
    simp only [List.mem_filterMap, nodeWrite] at hc
    obtain ⟨n, _, h⟩ := hc
    split at h
    · cases h; rfl
    · split at h
      · cases h; rfl
      · cases h
  have h3 : (linkDeletes P S P.Links).filterMap Call.deletedNode? = [] := by
    rw [List.filterMap_eq_nil_iff]
    intro c hc
    simp only [linkDeletes, List.mem_map] at hc
    obtain ⟨l, _, rfl⟩ := hc
    rfl
  have h4 : (S.Links.filterMap (linkWrite P)).filterMap Call.deletedNode? = [] := by
    rw [List.filterMap_eq_nil_iff]
    intro c hc
    simp only [List.mem_filterMap, linkWrite] at hc
    obtain ⟨n, _, h⟩ := hc
    split at h
    · cases h; rfl
    · split at h
      · cases h; rfl
      · cases h
  simp only [plan, List.filterMap_cons, scalarUpdate, Call.deletedNode?, List.filterMap_append,
    h1, h2, h3, h4, List.append_nil]

/-- C3: with P the persisted adventure the store call resolves, the `DeleteNode` calls
it issues are, in order, the persisted nodes of P whose storage id does not occur
among the storage ids of the snapshot's nodes, one call per such node and none for any
other node, whenever the call returns no error; if a write fails on the way, the
calls issued up to there are an initial part of that list. -/
theorem C3_node_deletion_set (s : Store) (S P : Adventure)
    (hP : SQLStore.GetAdventure s.db S.Slug ReadWrite = .ok P) :
    ((SQLStore.UpdateAdventureContent s S).2 = none →
        (issued s (SQLStore.UpdateAdventureContent s S).1).filterMap Call.deletedNode? =
          (P.Nodes.filter (fun p => decide (p.ID ∉ S.Nodes.map Node.ID))).map
            (fun p => { p with AdventureID := P.ID })) ∧
      (∃ k, (issued s (SQLStore.UpdateAdventureContent s S).1).filterMap Call.deletedNode? =
          ((P.Nodes.filter (fun p => decide (p.ID ∉ S.Nodes.map Node.ID))).map
            (fun p => { p with AdventureID := P.ID })).take k) := by
  obtain ⟨⟨k, hk⟩, hfull⟩ := issued_UpdateAdventureContent s S P hP
  refine ⟨fun hok => ?_, ?_⟩
  · rw [hfull hok, plan_deletedNode]
  · obtain ⟨m, hm⟩ := take_filterMap Call.deletedNode? (plan P S) k
    exact ⟨m, by rw [hk, hm, plan_deletedNode]⟩

/-- C3, at the sample store: the only persisted node absent from the snapshot is the
one with storage id 3, and it is the only one deleted. -/
theorem C3_node_deletion_set_witness :
    SQLStore.GetAdventure demoStore.db demoSnapshot.Slug ReadWrite = .ok demoAdventure ∧
      (SQLStore.UpdateAdventureContent demoStore demoSnapshot).2 = none ∧
      (issued demoStore (SQLStore.UpdateAdventureContent demoStore demoSnapshot).1).filterMap
          Call.deletedNode? =
        [{ ID := 3, NodeID := 2, AdventureID := 1, Title := "Right" }] :=
  ⟨rfl, rfl, (C3_node_deletion_set demoStore demoSnapshot demoAdventure rfl).1 rfl⟩

theorem mem_nodeDeletes (P S : Adventure) (nodes : List Node) (c : Call)
    (h : c ∈ nodeDeletes P S nodes) :
    ∃ n ∈ nodes, n.ID ∉ S.Nodes.map Node.ID ∧ c = .DeleteNode { n with AdventureID := P.ID } := by
  simp only [nodeDeletes, not_any_ID_eq, List.mem_map, List.mem_filter, decide_eq_true_eq] at h
  obtain ⟨n, ⟨hn, hid⟩, rfl⟩ := h
  exact ⟨n, hn, by simpa using hid, rfl⟩

theorem mem_nodeWrites (P : Adventure) (nodes : List Node) (c : Call)
    (h : c ∈ nodes.filterMap (nodeWrite P)) :
    ∃ n ∈ nodes, (n.ID = 0 ∧ c = .CreateNewNode { n with AdventureID := P.ID }) ∨
      (n.ID ≠ 0 ∧ n.Changed = true ∧ c = .UpdateNode { n with AdventureID := P.ID }) := by
  simp only [List.mem_filterMap, nodeWrite] at h
  obtain ⟨n, hn, h⟩ := h
  refine ⟨n, hn, ?_⟩
  split at h
  · rename_i h0
    cases h
    exact Or.inl ⟨by simpa using h0, rfl⟩
  · rename_i h0
    split at h
    · rename_i hc
      cases h
      exact Or.inr ⟨by simpa using h0, hc, rfl⟩
    · cases h

theorem mem_linkDeletes (P S : Adventure) (links : List Link) (c : Call)
    (h : c ∈ linkDeletes P S links) :
    ∃ l ∈ links, l.ID ∉ S.Links.map Link.ID ∧ c = .DeleteLink { l with AdventureID := P.ID } := by
  simp only [linkDeletes, not_any_link_ID_eq, List.mem_map, List.mem_filter,
    decide_eq_true_eq] at h
  obtain ⟨l, ⟨hl, hid⟩, rfl⟩ := h
  exact ⟨l, hl, by simpa using hid, rfl⟩

theorem mem_linkWrites (P : Adventure) (links : List Link) (c : Call)
    (h : c ∈ links.filterMap (linkWrite P)) :
    ∃ l ∈ links, (l.ID = 0 ∧ c = .CreateNewLink { l with AdventureID := P.ID }) ∨
      (l.ID ≠ 0 ∧ l.Changed = true ∧ c = .UpdateLink { l with AdventureID := P.ID }) := by
  simp only [List.mem_filterMap, linkWrite] at h
  obtain ⟨l, hl, h⟩ := h
  refine ⟨l, hl, ?_⟩
  split at h
  · rename_i h0
    cases h
    exact Or.inl ⟨by simpa using h0, rfl⟩
  · rename_i h0
    split at h
    · rename_i hc
      cases h
      exact Or.inr ⟨by simpa using h0, hc, rfl⟩
    · cases h

/-- Every call of the plan, by the segment it belongs to. -/
theorem mem_plan (P S : Adventure) (c : Call) (h : c ∈ plan P S) :
    c = scalarUpdate P S ∨ c ∈ nodeDeletes P S P.Nodes ∨ c ∈ S.Nodes.filterMap (nodeWrite P) ∨
      c ∈ linkDeletes P S P.Links ∨ c ∈ S.Links.filterMap (linkWrite P) := by
  simpa only [plan, List.mem_cons, List.mem_append] using h

/-- The `CreateNewNode` calls of the plan. -/
theorem plan_createdNode (P S : Adventure) :
    (plan P S).filterMap Call.createdNode? =
      (S.Nodes.filter (fun n => n.ID == 0)).map (fun n => { n with AdventureID := P.ID }) := by
  have h1 : (nodeDeletes P S P.Nodes).filterMap Call.createdNode? = [] := by
    rw [List.filterMap_eq_nil_iff]
    intro c hc
    obtain ⟨n, _, _, rfl⟩ := mem_nodeDeletes P S _ c hc
    rfl
  have h2 : (S.Nodes.filterMap (nodeWrite P)).filterMap Call.createdNode? =
      (S.Nodes.filter (fun n => n.ID == 0)).map (fun n => { n with AdventureID := P.ID }) := by
    rw [List.filterMap_filterMap, ← filterMap_ite]
    congr 1
    funext n
    unfold nodeWrite
    cases h0 : (n.ID == 0) <;> cases hc : n.Changed <;> simp [Call.createdNode?, h0, hc]
  have h3 : (linkDeletes P S P.Links).filterMap Call.createdNode? = [] := by
    rw [List.filterMap_eq_nil_iff]
    intro c hc
    obtain ⟨l, _, _, rfl⟩ := mem_linkDeletes P S _ c hc
    rfl
  have h4 : (S.Links.filterMap (linkWrite P)).filterMap Call.createdNode? = [] := by
    rw [List.filterMap_eq_nil_iff]
    intro c hc
    obtain ⟨l, _, ⟨_, rfl⟩ | ⟨_, _, rfl⟩⟩ := mem_linkWrites P _ c hc <;> rfl
  simp only [plan, List.filterMap_cons, scalarUpdate, Call.createdNode?, List.filterMap_append,
    h1, h2, h3, h4, List.append_nil, List.nil_append]

/-- The `UpdateNode` calls of the plan. -/
theorem plan_updatedNode (P S : Adventure) :
    (plan P S).filterMap Call.updatedNode? =
      (S.Nodes.filter (fun n => n.ID != 0 && n.Changed)).map (fun n => { n with AdventureID := P.ID }) := by
  have h1 : (nodeDeletes P S P.Nodes).filterMap Call.updatedNode? = [] := by
    rw [List.filterMap_eq_nil_iff]
    intro c hc
    obtain ⟨n, _, _, rfl⟩ := mem_nodeDeletes P S _ c hc
    rfl
  have h2 : (S.Nodes.filterMap (nodeWrite P)).filterMap Call.updatedNode? =
      (S.Nodes.filter (fun n => n.ID != 0 && n.Changed)).map (fun n => { n with AdventureID := P.ID }) := by
    rw [List.filterMap_filterMap, ← filterMap_ite]
    congr 1
    funext n
    unfold nodeWrite
    cases h0 : (n.ID == 0) <;> cases hc : n.Changed <;>
      simp only [Call.updatedNode?, h0, hc, Option.bind, bne, Bool.not_false, Bool.not_true,
        Bool.and_true, Bool.and_false, Bool.true_and, Bool.false_and, if_true, if_false,
        Bool.false_eq_true]
  have h3 : (linkDeletes P S P.Links).filterMap Call.updatedNode? = [] := by
    rw [List.filterMap_eq_nil_iff]
    intro c hc
    obtain ⟨l, _, _, rfl⟩ := mem_linkDeletes P S _ c hc
    rfl
  have h4 : (S.Links.filterMap (linkWrite P)).filterMap Call.updatedNode? = [] := by
    rw [List.filterMap_eq_nil_iff]
    intro c hc
    obtain ⟨l, _, ⟨_, rfl⟩ | ⟨_, _, rfl⟩⟩ := mem_linkWrites P _ c hc <;> rfl
  simp only [plan, List.filterMap_cons, scalarUpdate, Call.updatedNode?, List.filterMap_append,
    h1, h2, h3, h4, List.append_nil, List.nil_append]

theorem mem_issued_plan (s : Store) (S P : Adventure)
    (hP : SQLStore.GetAdventure s.db S.Slug ReadWrite = .ok P) (c : Call)
    (hc : c ∈ issued s (SQLStore.UpdateAdventureContent s S).1) : c ∈ plan P S := by
  obtain ⟨⟨k, hk⟩, _⟩ := issued_UpdateAdventureContent s S P hP
  rw [hk] at hc
  exact List.mem_of_mem_take hc

/-- No call of the plan has an incoming node with nonzero storage id and
`Changed = false` as its argument. -/
theorem plan_skips_clean_node (P S : Adventure) (n : Node) (hn : n ∈ S.Nodes)
    (h0 : n.ID ≠ 0) (hch : n.Changed = false) (c : Call) (hc : c ∈ plan P S) :
    c.node? ≠ some { n with AdventureID := P.ID } := by
  rcases mem_plan P S c hc with rfl | h | h | h | h
  · simp [scalarUpdate, Call.node?]
  · obtain ⟨m, _, hid, rfl⟩ := mem_nodeDeletes P S _ c h
    intro he
    simp only [Call.node?, Option.some.injEq] at he
    have h2 := congrArg Node.ID he
    simp only at h2
    exact hid (h2 ▸ List.mem_map_of_mem Node.ID hn)
  · obtain ⟨m, _, ⟨hm0, rfl⟩ | ⟨_, hmc, rfl⟩⟩ := mem_nodeWrites P _ c h
    · intro he
      simp only [Call.node?, Option.some.injEq] at he
      have h2 := congrArg Node.ID he
      simp only at h2
      exact h0 (h2 ▸ hm0)
    · intro he
      simp only [Call.node?, Option.some.injEq] at he
      have h2 := congrArg Node.Changed he
      simp only [hmc, hch] at h2
      cases h2
  · obtain ⟨l, _, _, rfl⟩ := mem_linkDeletes P S _ c h
    simp [Call.node?]
  · obtain ⟨l, _, ⟨_, rfl⟩ | ⟨_, _, rfl⟩⟩ := mem_linkWrites P _ c h <;> simp [Call.node?]

/-- C4: with P the persisted adventure the store call resolves, and whenever the call
returns no error, the `CreateNewNode` calls it issues are exactly the incoming nodes
with storage id 0 (one call each, fields unchanged but for the adventure id, so with
the client-assigned `NodeID`, which the inserted row then carries), and its `UpdateNode`
calls exactly the incoming nodes with nonzero storage id and `Changed = true`; if a
write fails on the way the calls issued are an initial part of these lists; and in no
case is any node call issued with an incoming node of nonzero storage id and
`Changed = false` as argument. -/
theorem C4_node_insert_update_sets (s : Store) (S P : Adventure)
    (hP : SQLStore.GetAdventure s.db S.Slug ReadWrite = .ok P) :
    ((SQLStore.UpdateAdventureContent s S).2 = none →
        (issued s (SQLStore.UpdateAdventureContent s S).1).filterMap Call.createdNode? =
            (S.Nodes.filter (fun n => n.ID == 0)).map
              (fun n => { n with AdventureID := P.ID }) ∧
          (issued s (SQLStore.UpdateAdventureContent s S).1).filterMap Call.updatedNode? =
            (S.Nodes.filter (fun n => n.ID != 0 && n.Changed)).map
              (fun n => { n with AdventureID := P.ID })) ∧
      (∃ k, (issued s (SQLStore.UpdateAdventureContent s S).1).filterMap Call.createdNode? =
          ((S.Nodes.filter (fun n => n.ID == 0)).map
            (fun n => { n with AdventureID := P.ID })).take k) ∧
      (∃ k, (issued s (SQLStore.UpdateAdventureContent s S).1).filterMap Call.updatedNode? =
          ((S.Nodes.filter (fun n => n.ID != 0 && n.Changed)).map
            (fun n => { n with AdventureID := P.ID })).take k) ∧
      (∀ n ∈ S.Nodes, n.ID ≠ 0 → n.Changed = false →
        ∀ c ∈ issued s (SQLStore.UpdateAdventureContent s S).1,
          c.node? ≠ some { n with AdventureID := P.ID }) ∧
      (∀ (db : DB) (m : Node),
        (applyCall db (.CreateNewNode m)).adventure_node.map NodeRow.node_id =
          db.adventure_node.map NodeRow.node_id ++ [m.NodeID]) := by
  obtain ⟨⟨k, hk⟩, hfull⟩ := issued_UpdateAdventureContent s S P hP
  refine ⟨fun hok => ?_, ?_, ?_, ?_, ?_⟩
  · rw [hfull hok, plan_createdNode, plan_updatedNode]
    exact ⟨rfl, rfl⟩
  · obtain ⟨m, hm⟩ := take_filterMap Call.createdNode? (plan P S) k
    exact ⟨m, by rw [hk, hm, plan_createdNode]⟩
  · obtain ⟨m, hm⟩ := take_filterMap Call.updatedNode? (plan P S) k
    exact ⟨m, by rw [hk, hm, plan_updatedNode]⟩
  · intro n hn h0 hch c hc
    exact plan_skips_clean_node P S n hn h0 hch c (mem_issued_plan s S P hP c hc)
  · intro db m
    simp [applyCall]

/-- C4, at the sample store: one insert (logical id 5) and one update (storage id 2). -/
theorem C4_node_insert_update_sets_witness :
    SQLStore.GetAdventure demoStore.db demoSnapshot.Slug ReadWrite = .ok demoAdventure ∧
      (SQLStore.UpdateAdventureContent demoStore demoSnapshot).2 = none ∧
      (issued demoStore (SQLStore.UpdateAdventureContent demoStore demoSnapshot).1).filterMap
          Call.createdNode? = [{ ID := 0, NodeID := 5, AdventureID := 1, Title := "Pit" }] ∧
      (issued demoStore (SQLStore.UpdateAdventureContent demoStore demoSnapshot).1).filterMap
          Call.updatedNode? =
        [{ ID := 2, NodeID := 1, AdventureID := 1, Title := "Left turn", Changed := true }] :=
  ⟨rfl, rfl, (C4_node_insert_update_sets demoStore demoSnapshot demoAdventure rfl).1 rfl⟩

/-- The `DeleteLink` calls of the plan. -/
theorem plan_deletedLink (P S : Adventure) :
    (plan P S).filterMap Call.deletedLink? =
      (P.Links.filter (fun p => decide (p.ID ∉ S.Links.map Link.ID))).map
        (fun p => { p with AdventureID := P.ID }) := by
  have h1 : (nodeDeletes P S P.Nodes).filterMap Call.deletedLink? = [] := by
    rw [List.filterMap_eq_nil_iff]
    intro c hc
    obtain ⟨n, _, _, rfl⟩ := mem_nodeDeletes P S _ c hc
    rfl
  have h2 : (S.Nodes.filterMap (nodeWrite P)).filterMap Call.deletedLink? = [] := by
    rw [List.filterMap_eq_nil_iff]
    intro c hc
    obtain ⟨l, _, ⟨_, rfl⟩ | ⟨_, _, rfl⟩⟩ := mem_nodeWrites P _ c hc <;> rfl
  have h3 : (linkDeletes P S P.Links).filterMap Call.deletedLink? =
      (P.Links.filter (fun p => decide (p.ID ∉ S.Links.map Link.ID))).map
        (fun p => { p with AdventureID := P.ID }) := by
    simp only [linkDeletes, List.filterMap_map, not_any_link_ID_eq]
    exact congrFun (List.filterMap_eq_map _) _
  have h4 : (S.Links.filterMap (linkWrite P)).filterMap Call.deletedLink? = [] := by
    rw [List.filterMap_eq_nil_iff]
    intro c hc
    obtain ⟨l, _, ⟨_, rfl⟩ | ⟨_, _, rfl⟩⟩ := mem_linkWrites P _ c hc <;> rfl
  simp only [plan, List.filterMap_cons, scalarUpdate, Call.deletedLink?, List.filterMap_append,
    h1, h2, h3, h4, List.append_nil, List.nil_append]

/-- The `CreateNewLink` calls of the plan. -/
theorem plan_createdLink (P S : Adventure) :
    (plan P S).filterMap Call.createdLink? =
      (S.Links.filter (fun l => l.ID == 0)).map (fun l => { l with AdventureID := P.ID }) := by
  have h1 : (nodeDeletes P S P.Nodes).filterMap Call.createdLink? = [] := by
    rw [List.filterMap_eq_nil_iff]
    intro c hc
    obtain ⟨n, _, _, rfl⟩ := mem_nodeDeletes P S _ c hc
    rfl
  have h2 : (S.Nodes.filterMap (nodeWrite P)).filterMap Call.createdLink? = [] := by
    rw [List.filterMap_eq_nil_iff]
    intro c hc
    obtain ⟨l, _, ⟨_, rfl⟩ | ⟨_, _, rfl⟩⟩ := mem_nodeWrites P _ c hc <;> rfl
  have h3 : (linkDeletes P S P.Links).filterMap Call.createdLink? = [] := by
    rw [List.filterMap_eq_nil_iff]
    intro c hc
    obtain ⟨l, _, _, rfl⟩ := mem_linkDeletes P S _ c hc
    rfl
  have h4 : (S.Links.filterMap (linkWrite P)).filterMap Call.createdLink? =
      (S.Links.filter (fun l => l.ID == 0)).map (fun l => { l with AdventureID := P.ID }) := by
    rw [List.filterMap_filterMap, ← filterMap_ite]
    congr 1
    funext l
    unfold linkWrite
    cases h0 : (l.ID == 0) <;> cases hc : l.Changed <;>
      simp only [Call.createdLink?, h0, hc, Option.bind, bne, Bool.not_false, Bool.not_true,
        Bool.and_true, Bool.and_false, Bool.true_and, Bool.false_and, if_true, if_false,
        Bool.false_eq_true]
  simp only [plan, List.filterMap_cons, scalarUpdate, Call.createdLink?, List.filterMap_append,
    h1, h2, h3, h4, List.append_nil, List.nil_append]

/-- The `UpdateLink` calls of the plan. -/
theorem plan_updatedLink (P S : Adventure) :
    (plan P S).filterMap Call.updatedLink? =
      (S.Links.filter (fun l => l.ID != 0 && l.Changed)).map (fun l => { l with AdventureID := P.ID }) := by
  have h1 : (nodeDeletes P S P.Nodes).filterMap Call.updatedLink? = [] := by
    rw [List.filterMap_eq_nil_iff]
    intro c hc
    obtain ⟨n, _, _, rfl⟩ := mem_nodeDeletes P S _ c hc
    rfl
  have h2 : (S.Nodes.filterMap (nodeWrite P)).filterMap Call.updatedLink? = [] := by
    rw [List.filterMap_eq_nil_iff]
    intro c hc
    obtain ⟨l, _, ⟨_, rfl⟩ | ⟨_, _, rfl⟩⟩ := mem_nodeWrites P _ c hc <;> rfl
  have h3 : (linkDeletes P S P.Links).filterMap Call.updatedLink? = [] := by
    rw [List.filterMap_eq_nil_iff]
    intro c hc
    obtain ⟨l, _, _, rfl⟩ := mem_linkDeletes P S _ c hc
    rfl
  have h4 : (S.Links.filterMap (linkWrite P)).filterMap Call.updatedLink? =
      (S.Links.filter (fun l => l.ID != 0 && l.Changed)).map (fun l => { l with AdventureID := P.ID }) := by
    rw [List.filterMap_filterMap, ← filterMap_ite]
    congr 1
    funext l
    unfold linkWrite
    cases h0 : (l.ID == 0) <;> cases hc : l.Changed <;>
      simp only [Call.updatedLink?, h0, hc, Option.bind, bne, Bool.not_false, Bool.not_true,
        Bool.and_true, Bool.and_false, Bool.true_and, Bool.false_and, if_true, if_false,
        Bool.false_eq_true]
  simp only [plan, List.filterMap_cons, scalarUpdate, Call.updatedLink?, List.filterMap_append,
    h1, h2, h3, h4, List.append_nil, List.nil_append]

/-- No call of the plan has an incoming link with nonzero storage id and
`Changed = false` as its argument. -/
theorem plan_skips_clean_link (P S : Adventure) (l : Link) (hl : l ∈ S.Links)
    (h0 : l.ID ≠ 0) (hch : l.Changed = false) (c : Call) (hc : c ∈ plan P S) :
    c.link? ≠ some { l with AdventureID := P.ID } := by
  rcases mem_plan P S c hc with rfl | h | h | h | h
  · simp [scalarUpdate, Call.link?]
  · obtain ⟨n, _, _, rfl⟩ := mem_nodeDeletes P S _ c h
    simp [Call.link?]
  · obtain ⟨n, _, ⟨_, rfl⟩ | ⟨_, _, rfl⟩⟩ := mem_nodeWrites P _ c h <;> simp [Call.link?]
  · obtain ⟨m, _, hid, rfl⟩ := mem_linkDeletes P S _ c h
    intro he
    simp only [Call.link?, Option.some.injEq] at he
    have h2 := congrArg Link.ID he
    simp only at h2
    exact hid (h2 ▸ List.mem_map_of_mem Link.ID hl)
  · obtain ⟨m, _, ⟨hm0, rfl⟩ | ⟨_, hmc, rfl⟩⟩ := mem_linkWrites P _ c h
    · intro he
      simp only [Call.link?, Option.some.injEq] at he
      have h2 := congrArg Link.ID he
      simp only at h2
      exact h0 (h2 ▸ hm0)
    · intro he
      simp only [Call.link?, Option.some.injEq] at he
      have h2 := congrArg Link.Changed he
      simp only [hmc, hch] at h2
      cases h2

/-- C5: links are reconciled by the policy of the nodes.  With P the persisted
adventure the store call resolves, and whenever the call returns no error, its
`DeleteLink` calls are exactly the persisted links whose storage id is absent from the
incoming links, its `CreateNewLink` calls exactly the incoming links with storage id 0
(fields unchanged but for the adventure id; the inserted row carries `LinkID`,
`SourceNodeID` and `TargetNodeID`), and its `UpdateLink` calls exactly the incoming links
with nonzero storage id and `Changed = true`; if a write fails on the way the calls
issued are an initial part of these lists; and in no case is any link call issued with
an incoming link of nonzero storage id and `Changed = false` as argument. -/
theorem C5_link_reconciliation (s : Store) (S P : Adventure)
    (hP : SQLStore.GetAdventure s.db S.Slug ReadWrite = .ok P) :
    ((SQLStore.UpdateAdventureContent s S).2 = none →
        (issued s (SQLStore.UpdateAdventureContent s S).1).filterMap Call.deletedLink? =
            (P.Links.filter (fun p => decide (p.ID ∉ S.Links.map Link.ID))).map
              (fun p => { p with AdventureID := P.ID }) ∧
          (issued s (SQLStore.UpdateAdventureContent s S).1).filterMap Call.createdLink? =
            (S.Links.filter (fun l => l.ID == 0)).map
              (fun l => { l with AdventureID := P.ID }) ∧
          (issued s (SQLStore.UpdateAdventureContent s S).1).filterMap Call.updatedLink? =
            (S.Links.filter (fun l => l.ID != 0 && l.Changed)).map
              (fun l => { l with AdventureID := P.ID })) ∧
      (∃ k, (issued s (SQLStore.UpdateAdventureContent s S).1).filterMap Call.deletedLink? =
          ((P.Links.filter (fun p => decide (p.ID ∉ S.Links.map Link.ID))).map
            (fun p => { p with AdventureID := P.ID })).take k) ∧
      (∃ k, (issued s (SQLStore.UpdateAdventureContent s S).1).filterMap Call.createdLink? =
          ((S.Links.filter (fun l => l.ID == 0)).map
            (fun l => { l with AdventureID := P.ID })).take k) ∧
      (∃ k, (issued s (SQLStore.UpdateAdventureContent s S).1).filterMap Call.updatedLink? =
          ((S.Links.filter (fun l => l.ID != 0 && l.Changed)).map
            (fun l => { l with AdventureID := P.ID })).take k) ∧
      (∀ l ∈ S.Links, l.ID ≠ 0 → l.Changed = false →
        ∀ c ∈ issued s (SQLStore.UpdateAdventureContent s S).1,
          c.link? ≠ some { l with AdventureID := P.ID }) ∧
      (∀ (db : DB) (m : Link),
        (applyCall db (.CreateNewLink m)).adventure_link.map
            (fun r => (r.link_id, r.source_node_id, r.target_node_id)) =
          db.adventure_link.map (fun r => (r.link_id, r.source_node_id, r.target_node_id)) ++
            [(m.LinkID, m.SourceNodeID, m.TargetNodeID)]) := by
  obtain ⟨⟨k, hk⟩, hfull⟩ := issued_UpdateAdventureContent s S P hP
  refine ⟨fun hok => ?_, ?_, ?_, ?_, ?_, ?_⟩
  · rw [hfull hok, plan_deletedLink, plan_createdLink, plan_updatedLink]
    exact ⟨rfl, rfl, rfl⟩
  · obtain ⟨m, hm⟩ := take_filterMap Call.deletedLink? (plan P S) k
    exact ⟨m, by rw [hk, hm, plan_deletedLink]⟩
  · obtain ⟨m, hm⟩ := take_filterMap Call.createdLink? (plan P S) k
    exact ⟨m, by rw [hk, hm, plan_createdLink]⟩
  · obtain ⟨m, hm⟩ := take_filterMap Call.updatedLink? (plan P S) k
    exact ⟨m, by rw [hk, hm, plan_updatedLink]⟩
  · intro l hl h0 hch c hc
    exact plan_skips_clean_link P S l hl h0 hch c (mem_issued_plan s S P hP c hc)
  · intro db m
    simp [applyCall]

/-- C5, at the sample store: link 2 is deleted, link 1 updated, one link inserted. -/
theorem C5_link_reconciliation_witness :
    SQLStore.GetAdventure demoStore.db demoSnapshot.Slug ReadWrite = .ok demoAdventure ∧
      (SQLStore.UpdateAdventureContent demoStore demoSnapshot).2 = none ∧
      (issued demoStore (SQLStore.UpdateAdventureContent demoStore demoSnapshot).1).filterMap
          Call.deletedLink? =
        [{ ID := 2, LinkID := 2, AdventureID := 1, SourceNodeID := 0, TargetNodeID := 2,
           LinkType := "bidirectional" }] ∧
      (issued demoStore (SQLStore.UpdateAdventureContent demoStore demoSnapshot).1).filterMap
          Call.createdLink? =
        [{ ID := 0, LinkID := 7, AdventureID := 1, SourceNodeID := 1, TargetNodeID := 5,
           LinkType := "default" }] ∧
      (issued demoStore (SQLStore.UpdateAdventureContent demoStore demoSnapshot).1).filterMap
          Call.updatedLink? =
        [{ ID := 1, LinkID := 1, AdventureID := 1, SourceNodeID := 0, TargetNodeID := 1,
           LinkType := "default", Changed := true }] :=
  ⟨rfl, rfl, (C5_link_reconciliation demoStore demoSnapshot demoAdventure rfl).1 rfl⟩

/-! ## order of the writes -/

theorem inOrder_of_phase (c1 c2 : Call) (h : c1.phase ≤ c2.phase) : inOrder c1 c2 := by
  cases c1 <;> cases c2 <;>
    simp [inOrder, Call.isNodeUpsert, Call.isNodeDelete, Call.isLinkUpsert,
      Call.isLinkDelete, Call.phase] at h ⊢

theorem plan_phase_sorted (P S : Adventure) :
    (plan P S).Pairwise (fun c1 c2 => c1.phase ≤ c2.phase) := by
  have p1 : ∀ c ∈ nodeDeletes P S P.Nodes, c.phase = 1 := by
    intro c hc
    obtain ⟨n, _, _, rfl⟩ := mem_nodeDeletes P S _ c hc
    rfl
  have p2 : ∀ c ∈ S.Nodes.filterMap (nodeWrite P), c.phase = 2 := by
    intro c hc
    obtain ⟨n, _, ⟨_, rfl⟩ | ⟨_, _, rfl⟩⟩ := mem_nodeWrites P _ c hc <;> rfl
  have p3 : ∀ c ∈ linkDeletes P S P.Links, c.phase = 3 := by
    intro c hc
    obtain ⟨n, _, _, rfl⟩ := mem_linkDeletes P S _ c hc
    rfl
  have p4 : ∀ c ∈ S.Links.filterMap (linkWrite P), c.phase = 4 := by
    intro c hc
    obtain ⟨n, _, ⟨_, rfl⟩ | ⟨_, _, rfl⟩⟩ := mem_linkWrites P _ c hc <;> rfl
  have same : ∀ (l : List Call) (k : Nat), (∀ c ∈ l, c.phase = k) →
      l.Pairwise (fun c1 c2 => c1.phase ≤ c2.phase) := by
    intro l k hk
    apply List.pairwise_of_forall_mem_list
    intro a ha b hb
    rw [hk a ha, hk b hb]
  simp only [plan, List.pairwise_cons, List.pairwise_append, List.mem_append]
  refine ⟨fun c _ => Nat.zero_le _, same _ 1 p1, ⟨same _ 2 p2, ⟨same _ 3 p3, same _ 4 p4, ?_⟩, ?_⟩, ?_⟩
  · intro a ha b hb
    rw [p3 a ha, p4 b hb]
    decide
  · intro a ha b hb
    rw [p2 a ha]
    rcases hb with hb | hb
    · rw [p3 b hb]; decide
    · rw [p4 b hb]; decide
  · intro a ha b hb
    rw [p1 a ha]
    rcases hb with hb | hb | hb
    · rw [p2 b hb]; decide
    · rw [p3 b hb]; decide
    · rw [p4 b hb]; decide

/-- C6: in the sequence of write calls one `UpdateAdventureContent` issues (on any
store, whether or not a write fails), no node insert or update comes before a node
delete, no link insert or update before a link delete, and no link call before a node
call. -/
theorem C6_write_order (s : Store) (S : Adventure) :
    (issued s (SQLStore.UpdateAdventureContent s S).1).Pairwise inOrder := by
  rcases hP : SQLStore.GetAdventure s.db S.Slug ReadWrite with e | P
  · have h : (SQLStore.UpdateAdventureContent s S).1 = s := by
      simp [SQLStore.UpdateAdventureContent, hP]
    rw [h]
    simp [issued]
  · obtain ⟨⟨k, hk⟩, _⟩ := issued_UpdateAdventureContent s S P hP
    rw [hk]
    exact ((plan_phase_sorted P S).imp (fun {a b} h => inOrder_of_phase a b h)).sublist
      (List.take_sublist k _)

/-! ## scalar fields -/

theorem GetCategory_ID (db : DB) (cid : Int) (cat : Category)
    (h : SQLStore.GetCategory db cid = .ok cat) : cat.ID = cid := by
  unfold SQLStore.GetCategory at h
  rcases hf : db.adventure_category.find? (fun r => r.id == cid) with _ | r
  · simp [hf] at h
  · simp only [hf, Except.ok.injEq] at h
    have hr := List.find?_some hf
    rw [← h]
    simpa using hr

theorem GetCategory_congr (db1 db2 : DB) (h : db1.adventure_category = db2.adventure_category)
    (cid : Int) : SQLStore.GetCategory db1 cid = SQLStore.GetCategory db2 cid := by
  simp only [SQLStore.GetCategory, h]

/-- C7: when `UpdateAdventureContent` resolves the snapshot's slug to the persisted
adventure P and returns no error, the persisted row of that adventure afterwards holds
the snapshot's title, description, category id, locked flag, cover URL and props
(whatever it held before, whatever the nodes and links of the snapshot), and its id,
edit slug, view slug, edit version and view count are those it had before; the same
holds of the adventure as re-fetched by its edit slug (its category being the one of
the snapshot's category id when that category exists). -/
theorem C7_scalar_overwrite (s : Store) (S P : Adventure)
    (hP : SQLStore.GetAdventure s.db S.Slug ReadWrite = .ok P)
    (hok : (SQLStore.UpdateAdventureContent s S).2 = none) :
    ∃ r0 r1 A1,
      s.db.adventure.find? (fun r => r.slug == S.Slug) = some r0 ∧
      (SQLStore.UpdateAdventureContent s S).1.db.adventure.find?
        (fun r => r.slug == S.Slug) = some r1 ∧
      SQLStore.GetAdventure (SQLStore.UpdateAdventureContent s S).1.db S.Slug ReadWrite =
        .ok A1 ∧
      (r1.title = some S.Title ∧ r1.description = some S.Description ∧
        r1.category_id = some S.Category.ID ∧ r1.locked = S.Locked ∧
        r1.cover_url = some S.CoverUrl ∧ r1.props = some S.Props) ∧
      (r1.id = r0.id ∧ r1.slug = r0.slug ∧ r1.view_slug = r0.view_slug ∧
        r1.edit_version = r0.edit_version ∧ r1.view_count = r0.view_count) ∧
      (A1.Title = S.Title ∧ A1.Description = S.Description ∧ A1.Locked = S.Locked ∧
        A1.CoverUrl = S.CoverUrl ∧ A1.Props = S.Props ∧
        (∀ cat, SQLStore.GetCategory s.db S.Category.ID = .ok cat →
          A1.Category = cat ∧ A1.Category.ID = S.Category.ID)) ∧
      (A1.ID = P.ID ∧ A1.Slug = P.Slug ∧ A1.ViewSlug = P.ViewSlug ∧
        A1.EditVersion = P.EditVersion ∧ A1.ViewCount = P.ViewCount) := by
  obtain ⟨r0, hr0, hre⟩ := refetch_ok s S P hP hok
  obtain ⟨r0b, hr0b, hPs, _⟩ := GetAdventure_ReadWrite_ok _ _ _ hP
  rw [hr0] at hr0b
  cases hr0b
  have hdb := (UpdateAdventureContent_ok s S P hP hok).1
  have hcatT := (plan_foldl_adventure s.db P S).2
  have hmatch : (r0.id == P.ID && r0.slug == P.Slug) = true := by
    rw [hPs]
    simp [SQLStore.scanAdventure, SQLStore.assemble]
  have hrow : scalarRow P S r0 =
      { r0 with title := some S.Title, description := some S.Description,
                category_id := some S.Category.ID, locked := S.Locked,
                cover_url := some S.CoverUrl, props := some S.Props } := by
    simp only [scalarRow, hmatch, if_true]
  refine ⟨r0, scalarRow P S r0, _, hr0, ?_, hre, ?_, ?_, ?_, ?_⟩
  · rw [hdb, (plan_foldl_adventure s.db P S).1, find_slug_map_scalarRow, hr0]
    rfl
  · rw [hrow]
    exact ⟨rfl, rfl, rfl, rfl, rfl, rfl⟩
  · rw [hrow]
    exact ⟨rfl, rfl, rfl, rfl, rfl⟩
  · rw [hrow]
    refine ⟨rfl, rfl, rfl, rfl, rfl, ?_⟩
    intro cat hcat
    have hc2 : SQLStore.GetCategory (SQLStore.UpdateAdventureContent s S).1.db S.Category.ID =
        .ok cat := by
      rw [GetCategory_congr _ s.db (by rw [hdb]; exact hcatT)]
      exact hcat
    have : (SQLStore.scanAdventure (SQLStore.UpdateAdventureContent s S).1.db S.Slug
        { r0 with title := some S.Title, description := some S.Description,
                  category_id := some S.Category.ID, locked := S.Locked,
                  cover_url := some S.CoverUrl, props := some S.Props }).Category = cat := by
      simp only [SQLStore.scanAdventure, SQLStore.assemble, hc2]
    exact ⟨this, by rw [this]; exact GetCategory_ID _ _ _ hcat⟩
  · rw [hrow, hPs]
    exact ⟨rfl, rfl, rfl, rfl, rfl⟩

/-- C7, at the sample store: after the sample snapshot the row of adventure 1 has the
new title and the slugs, edit version 3 and view count 7 it had. -/
theorem C7_scalar_overwrite_witness :
    SQLStore.GetAdventure demoStore.db demoSnapshot.Slug ReadWrite = .ok demoAdventure ∧
      (SQLStore.UpdateAdventureContent demoStore demoSnapshot).2 = none ∧
      ∃ r0 r1 A1,
        demoStore.db.adventure.find? (fun r => r.slug == demoSnapshot.Slug) = some r0 ∧
        (SQLStore.UpdateAdventureContent demoStore demoSnapshot).1.db.adventure.find?
          (fun r => r.slug == demoSnapshot.Slug) = some r1 ∧
        SQLStore.GetAdventure (SQLStore.UpdateAdventureContent demoStore demoSnapshot).1.db
          demoSnapshot.Slug ReadWrite = .ok A1 ∧
        (r1.title = some demoSnapshot.Title ∧ r1.description = some demoSnapshot.Description ∧
          r1.category_id = some demoSnapshot.Category.ID ∧ r1.locked = demoSnapshot.Locked ∧
          r1.cover_url = some demoSnapshot.CoverUrl ∧ r1.props = some demoSnapshot.Props) ∧
        (r1.id = r0.id ∧ r1.slug = r0.slug ∧ r1.view_slug = r0.view_slug ∧
          r1.edit_version = r0.edit_version ∧ r1.view_count = r0.view_count) ∧
        (A1.Title = demoSnapshot.Title ∧ A1.Description = demoSnapshot.Description ∧
          A1.Locked = demoSnapshot.Locked ∧ A1.CoverUrl = demoSnapshot.CoverUrl ∧
          A1.Props = demoSnapshot.Props ∧
          (∀ cat, SQLStore.GetCategory demoStore.db demoSnapshot.Category.ID = .ok cat →
            A1.Category = cat ∧ A1.Category.ID = demoSnapshot.Category.ID)) ∧
        (A1.ID = demoAdventure.ID ∧ A1.Slug = demoAdventure.Slug ∧
          A1.ViewSlug = demoAdventure.ViewSlug ∧
          A1.EditVersion = demoAdventure.EditVersion ∧
          A1.ViewCount = demoAdventure.ViewCount) :=
  ⟨rfl, rfl, C7_scalar_overwrite demoStore demoSnapshot demoAdventure rfl rfl⟩

/-! ## reconciling an adventure with its own snapshot -/

theorem fetched_nodes (db : DB) (slug : String) (A : Adventure)
    (hA : SQLStore.GetAdventure db slug ReadWrite = .ok A) (hids : db.idsAssigned = true) :
    (∀ n ∈ A.Nodes, n.ID ≠ 0 ∧ n.Changed = false) ∧
      (∀ l ∈ A.Links, l.ID ≠ 0 ∧ l.Changed = false) := by
  obtain ⟨r, _, hAs, _⟩ := GetAdventure_ReadWrite_ok _ _ _ hA
  simp only [DB.idsAssigned, Bool.and_eq_true, List.all_eq_true, bne_iff_ne, ne_eq] at hids
  rw [hAs]
  constructor
  · intro n hn
    simp only [SQLStore.scanAdventure, SQLStore.assemble, SQLStore.getAdventureContent,
      SQLStore.GetNodesByAdventureID, List.mem_map, List.mem_filter] at hn
    obtain ⟨row, ⟨hrow, _⟩, rfl⟩ := hn
    exact ⟨hids.1 row hrow, rfl⟩
  · intro l hl
    simp only [SQLStore.scanAdventure, SQLStore.assemble, SQLStore.getAdventureContent,
      SQLStore.GetLinksByAdventureID, List.mem_map, List.mem_filter] at hl
    obtain ⟨row, ⟨hrow, _⟩, rfl⟩ := hl
    exact ⟨hids.2 row hrow, rfl⟩

/-- The plan for a snapshot that carries exactly the persisted nodes and links, all
clean, is the scalar update alone. -/
theorem plan_own_snapshot (A S : Adventure) (hN : S.Nodes = A.Nodes) (hL : S.Links = A.Links)
    (hn : ∀ n ∈ A.Nodes, n.ID ≠ 0 ∧ n.Changed = false)
    (hl : ∀ l ∈ A.Links, l.ID ≠ 0 ∧ l.Changed = false) :
    plan A S = [scalarUpdate A S] := by
  have h1 : nodeDeletes A S A.Nodes = [] := by
    simp only [nodeDeletes, List.map_eq_nil_iff, List.filter_eq_nil_iff, hN]
    intro n hmem
    simp only [Bool.not_eq_true', Bool.not_eq_false, List.any_eq_true, beq_iff_eq]
    exact ⟨n, hmem, rfl⟩
  have h2 : S.Nodes.filterMap (nodeWrite A) = [] := by
    rw [List.filterMap_eq_nil_iff, hN]
    intro n hmem
    have h0 : (n.ID == 0) = false := by simpa using (hn n hmem).1
    simp [nodeWrite, h0, (hn n hmem).2]
  have h3 : linkDeletes A S A.Links = [] := by
    simp only [linkDeletes, List.map_eq_nil_iff, List.filter_eq_nil_iff, hL]
    intro n hmem
    simp only [Bool.not_eq_true', Bool.not_eq_false, List.any_eq_true, beq_iff_eq]
    exact ⟨n, hmem, rfl⟩
  have h4 : S.Links.filterMap (linkWrite A) = [] := by
    rw [List.filterMap_eq_nil_iff, hL]
    intro n hmem
    have h0 : (n.ID == 0) = false := by simpa using (hl n hmem).1
    simp [linkWrite, h0, (hl n hmem).2]
  simp only [plan, h1, h2, h3, h4, List.append_nil]

theorem run_single (s : Store) (c : Call) :
    (s.run [c]).1.log = s.log ++ [c] ∧
      (((s.run [c]).2 = none ∧ (s.run [c]).1.db = applyCall s.db c) ∨
        ((s.run [c]).2 ≠ none ∧ (s.run [c]).1.db = s.db)) ∧
      (s.noFault = true → (s.run [c]).2 = none ∧ (s.run [c]).1.noFault = true) := by
  have hlog := Exec_log s c
  have hok := Exec_ok_db s c
  have herr := Exec_err_db s c
  have hnf := Exec_noFault s c
  simp only [Store.run]
  rcases hx : s.Exec c with ⟨s1, _ | err⟩
  · rw [hx] at hlog hok hnf
    simp only [forall_const, true_and] at hlog hok hnf
    exact ⟨hlog, Or.inl ⟨rfl, hok⟩, fun h => ⟨rfl, hnf h⟩⟩
  · rw [hx] at hlog herr hnf
    simp only [ne_eq, reduceCtorEq, not_false_eq_true, forall_const, false_and, imp_false] at hlog herr hnf
    exact ⟨hlog, Or.inr ⟨by simp, herr⟩, fun h => absurd h (by simpa using hnf)⟩

/-- Re-fetching by edit slug after the scalar update alone: same nodes, links and
edit version; the locked flag is the snapshot's. -/
theorem scalar_refetch (db : DB) (slug : String) (A S : Adventure)
    (hA : SQLStore.GetAdventure db slug ReadWrite = .ok A) :
    ∃ A1, SQLStore.GetAdventure (applyCall db (scalarUpdate A S)) slug ReadWrite = .ok A1 ∧
      A1.Nodes = A.Nodes ∧ A1.Links = A.Links ∧ A1.EditVersion = A.EditVersion ∧
      A1.Locked = S.Locked := by
  obtain ⟨r0, hr0, hAs, _⟩ := GetAdventure_ReadWrite_ok _ _ _ hA
  have hmatch : (r0.id == A.ID && r0.slug == A.Slug) = true := by
    rw [hAs]
    simp [SQLStore.scanAdventure, SQLStore.assemble]
  have hfind : (applyCall db (scalarUpdate A S)).adventure.find? (fun r => r.slug == slug) =
      some (scalarRow A S r0) := by
    have : (applyCall db (scalarUpdate A S)).adventure = db.adventure.map (scalarRow A S) := rfl
    rw [this, find_slug_map_scalarRow, hr0]
    rfl
  have hAN : A.Nodes = SQLStore.GetNodesByAdventureID db r0.id := by rw [hAs]; rfl
  have hAL : A.Links = SQLStore.GetLinksByAdventureID db r0.id := by rw [hAs]; rfl
  have hAV : A.EditVersion = r0.edit_version := by rw [hAs]; rfl
  refine ⟨_, by rw [GetAdventure_ReadWrite, hfind], ?_, ?_, ?_, ?_⟩
  · rw [hAN]
    show SQLStore.GetNodesByAdventureID _ (scalarRow A S r0).id = _
    rw [(scalarRow_slug A S r0).2.1]
    rfl
  · rw [hAL]
    show SQLStore.GetLinksByAdventureID _ (scalarRow A S r0).id = _
    rw [(scalarRow_slug A S r0).2.1]
    rfl
  · rw [hAV]
    exact (scalarRow_slug A S r0).2.2.2.1
  · simp only [SQLStore.scanAdventure, SQLStore.assemble, scalarRow, hmatch, if_true]

/-- One handler call with a snapshot that carries exactly the persisted nodes and
links of the adventure its slug resolves to. -/
theorem handler_own_snapshot (s : Store) (slug : String) (A S : Adventure)
    (hA : SQLStore.GetAdventure s.db slug ReadWrite = .ok A)
    (hids : s.db.idsAssigned = true) (hN : S.Nodes = A.Nodes) (hL : S.Links = A.Links) :
    (API.UpdateAdventureContent s slug (some S)).1.db.adventure_node = s.db.adventure_node ∧
      (API.UpdateAdventureContent s slug (some S)).1.db.adventure_link = s.db.adventure_link ∧
      (∀ c ∈ issued s (API.UpdateAdventureContent s slug (some S)).1, c.isContent = false) ∧
      (∃ A1, SQLStore.GetAdventure (API.UpdateAdventureContent s slug (some S)).1.db slug
          ReadWrite = .ok A1 ∧
        A1.Nodes = A.Nodes ∧ A1.Links = A.Links ∧ A1.EditVersion = A.EditVersion ∧
        (s.noFault = true → A.Locked = false → S.EditVersion = A.EditVersion →
          A1.Locked = S.Locked)) ∧
      (s.noFault = true → (API.UpdateAdventureContent s slug (some S)).1.noFault = true ∧
        (A.Locked = false → S.EditVersion = A.EditVersion →
          (API.UpdateAdventureContent s slug (some S)).2.code = StatusOK)) := by
  have same : (API.UpdateAdventureContent s slug (some S)).1 = s →
      (API.UpdateAdventureContent s slug (some S)).1.db.adventure_node = s.db.adventure_node ∧
      (API.UpdateAdventureContent s slug (some S)).1.db.adventure_link = s.db.adventure_link ∧
      (∀ c ∈ issued s (API.UpdateAdventureContent s slug (some S)).1, c.isContent = false) ∧
      (∃ A1, SQLStore.GetAdventure (API.UpdateAdventureContent s slug (some S)).1.db slug
          ReadWrite = .ok A1 ∧
        A1.Nodes = A.Nodes ∧ A1.Links = A.Links ∧ A1.EditVersion = A.EditVersion) ∧
      (s.noFault = true → (API.UpdateAdventureContent s slug (some S)).1.noFault = true) := by
    intro h
    rw [h]
    exact ⟨rfl, rfl, by simp [issued], ⟨A, hA, rfl, rfl, rfl⟩, fun h => h⟩
  cases hl : A.Locked
  · by_cases hv : A.EditVersion > S.EditVersion
    · have h1 : (API.UpdateAdventureContent s slug (some S)).1 = s := by
        simp [API.UpdateAdventureContent, hA, hl, hv]
      obtain ⟨a, b, c, ⟨A1, d1, d2, d3, d4⟩, e⟩ := same h1
      exact ⟨a, b, c, ⟨A1, d1, d2, d3, d4, fun _ _ he => absurd he (by omega)⟩,
        fun hnf => ⟨e hnf, fun _ he => absurd he (by omega)⟩⟩
    · obtain ⟨h1, h2, h3⟩ := handler_accepted s slug A S hA hl hv
      obtain ⟨row, _, hAs, hslug⟩ := GetAdventure_ReadWrite_ok _ _ _ hA
      have hs : A.Slug = slug := by rw [hAs]; exact hslug
      have hadv : SQLStore.GetAdventure s.db
          ({ S with Slug := A.Slug, ID := A.ID } : Adventure).Slug ReadWrite = .ok A := by
        show SQLStore.GetAdventure s.db A.Slug ReadWrite = .ok A
        rw [hs]; exact hA
      obtain ⟨hn, hlk⟩ := fetched_nodes s.db slug A hA hids
      have hplan := plan_own_snapshot A { S with Slug := A.Slug, ID := A.ID } hN hL hn hlk
      have hrun := UpdateAdventureContent_eq_run s _ A hadv
      rw [hplan] at hrun
      obtain ⟨hlog, hdb, hnf⟩ := run_single s (scalarUpdate A { S with Slug := A.Slug, ID := A.ID })
      rw [← hrun] at hlog hdb hnf
      rw [h1]
      refine ⟨?_, ?_, ?_, ?_, ?_⟩
      · rcases hdb with ⟨_, hdb⟩ | ⟨_, hdb⟩ <;> first | (rw [hdb]; done) | (rw [hdb]; rfl)
      · rcases hdb with ⟨_, hdb⟩ | ⟨_, hdb⟩ <;> first | (rw [hdb]; done) | (rw [hdb]; rfl)
      · intro c hc
        simp only [issued, hlog, List.drop_left, List.mem_singleton] at hc
        rw [hc]
        rfl
      · rcases hdb with ⟨hnone, hdb⟩ | ⟨hsome, hdb⟩
        · obtain ⟨A1, g1, g2, g3, g4, g5⟩ :=
            scalar_refetch s.db slug A { S with Slug := A.Slug, ID := A.ID } hA
          rw [hdb]
          exact ⟨A1, g1, g2, g3, g4, fun _ _ _ => g5⟩
        · rw [hdb]
          exact ⟨A, hA, rfl, rfl, rfl, fun hf => absurd (hnf hf).1 hsome⟩
      · intro hf
        refine ⟨(hnf hf).2, fun _ _ => ?_⟩
        obtain ⟨u, _, hu⟩ := h2 (hnf hf).1
        rw [hu]
        rfl
  · have h1 : (API.UpdateAdventureContent s slug (some S)).1 = s := by
      simp [API.UpdateAdventureContent, hA, hl]
    obtain ⟨a, b, c, ⟨A1, d1, d2, d3, d4⟩, e⟩ := same h1
    exact ⟨a, b, c, ⟨A1, d1, d2, d3, d4, fun _ h => absurd h (by simp)⟩,
      fun hnf => ⟨e hnf, fun h => absurd h (by simp)⟩⟩

theorem no_content_calls (cs : List Call) (h : ∀ c ∈ cs, c.isContent = false) :
    cs.filterMap Call.node? = [] ∧ cs.filterMap Call.link? = [] := by
  simp only [List.filterMap_eq_nil_iff]
  constructor <;> intro c hc <;> have := h c hc <;> cases c <;>
    first | rfl | simp [Call.isContent] at this

/-- C8: let the edit slug resolve to the persisted adventure A, every persisted node
and link having a store-assigned (nonzero) storage id, and let the snapshot carry
exactly the nodes and links fetched for A and A's edit version.  Then after a first
handler call with this snapshot, and after a second identical one, the node table and
the link table are those of the start, neither call issues any node or link call, and
the edit slug still resolves to an adventure with the nodes and links of A; when no
write fails and neither A nor the snapshot is locked, both calls are answered 200. -/
theorem C8_own_snapshot_idempotent (s : Store) (slug : String) (A S : Adventure)
    (hA : SQLStore.GetAdventure s.db slug ReadWrite = .ok A)
    (hids : s.db.idsAssigned = true)
    (hN : S.Nodes = A.Nodes) (hL : S.Links = A.Links) (hV : S.EditVersion = A.EditVersion) :
    ((API.UpdateAdventureContent s slug (some S)).1.db.adventure_node = s.db.adventure_node ∧
      (API.UpdateAdventureContent s slug (some S)).1.db.adventure_link = s.db.adventure_link ∧
      (issued s (API.UpdateAdventureContent s slug (some S)).1).filterMap Call.node? = [] ∧
      (issued s (API.UpdateAdventureContent s slug (some S)).1).filterMap Call.link? = [] ∧
      ∃ A1, SQLStore.GetAdventure (API.UpdateAdventureContent s slug (some S)).1.db slug
          ReadWrite = .ok A1 ∧ A1.Nodes = A.Nodes ∧ A1.Links = A.Links) ∧
    ((API.UpdateAdventureContent (API.UpdateAdventureContent s slug (some S)).1 slug
          (some S)).1.db.adventure_node = s.db.adventure_node ∧
      (API.UpdateAdventureContent (API.UpdateAdventureContent s slug (some S)).1 slug
          (some S)).1.db.adventure_link = s.db.adventure_link ∧
      (issued (API.UpdateAdventureContent s slug (some S)).1
        (API.UpdateAdventureContent (API.UpdateAdventureContent s slug (some S)).1 slug
          (some S)).1).filterMap Call.node? = [] ∧
      (issued (API.UpdateAdventureContent s slug (some S)).1
        (API.UpdateAdventureContent (API.UpdateAdventureContent s slug (some S)).1 slug
          (some S)).1).filterMap Call.link? = [] ∧
      ∃ A2, SQLStore.GetAdventure (API.UpdateAdventureContent
          (API.UpdateAdventureContent s slug (some S)).1 slug (some S)).1.db slug
          ReadWrite = .ok A2 ∧ A2.Nodes = A.Nodes ∧ A2.Links = A.Links) ∧
    (s.noFault = true → A.Locked = false → S.Locked = false →
      (API.UpdateAdventureContent s slug (some S)).2.code = StatusOK ∧
        (API.UpdateAdventureContent (API.UpdateAdventureContent s slug (some S)).1 slug
          (some S)).2.code = StatusOK) := by
  obtain ⟨a1, a2, a3, ⟨A1, hA1, b1, b2, b3, b4⟩, a5⟩ :=
    handler_own_snapshot s slug A S hA hids hN hL
  have hids1 : (API.UpdateAdventureContent s slug (some S)).1.db.idsAssigned = true := by
    simp only [DB.idsAssigned, a1, a2]
    exact hids
  obtain ⟨c1, c2, c3, ⟨A2, hA2, d1, d2, _, _⟩, c5⟩ :=
    handler_own_snapshot (API.UpdateAdventureContent s slug (some S)).1 slug A1 S hA1 hids1
      (hN.trans b1.symm) (hL.trans b2.symm)
  refine ⟨⟨a1, a2, (no_content_calls _ a3).1, (no_content_calls _ a3).2, A1, hA1, b1, b2⟩,
    ⟨c1.trans a1, c2.trans a2, (no_content_calls _ c3).1, (no_content_calls _ c3).2,
      A2, hA2, d1.trans b1, d2.trans b2⟩, ?_⟩
  intro hnf hlA hlS
  have hl1 : A1.Locked = false := (b4 hnf hlA hV).trans hlS
  exact ⟨(a5 hnf).2 hlA hV, (c5 (a5 hnf).1).2 hl1 (hV.trans b3.symm)⟩

/-- C8, at the sample store: the open adventure reconciled twice with its own fetched
snapshot; both calls are answered 200 and the node table is untouched. -/
theorem C8_own_snapshot_idempotent_witness :
    SQLStore.GetAdventure demoStore.db "edit0001" ReadWrite = .ok demoAdventure ∧
      demoStore.db.idsAssigned = true ∧
      ((API.UpdateAdventureContent demoStore "edit0001" (some demoAdventure)).2.code =
          StatusOK ∧
        (API.UpdateAdventureContent
          (API.UpdateAdventureContent demoStore "edit0001" (some demoAdventure)).1 "edit0001"
          (some demoAdventure)).2.code = StatusOK) ∧
      (API.UpdateAdventureContent
        (API.UpdateAdventureContent demoStore "edit0001" (some demoAdventure)).1 "edit0001"
        (some demoAdventure)).1.db.adventure_node = demoStore.db.adventure_node :=
  ⟨rfl, rfl,
    (C8_own_snapshot_idempotent demoStore "edit0001" demoAdventure demoAdventure rfl rfl rfl rfl
      rfl).2.2 rfl rfl rfl,
    (C8_own_snapshot_idempotent demoStore "edit0001" demoAdventure demoAdventure rfl rfl rfl rfl
      rfl).2.1.1⟩

/-- C9: when the slug resolves under ReadWrite to a locked adventure, the handler
answers 404 "Adventure is read-only" and leaves the store exactly as it was (no write
is issued), whatever the body: undecodable, stale or current. -/
theorem C9_locked_rejected (s : Store) (slug : String) (persisted : Adventure)
    (body : Option Adventure)
    (hres : SQLStore.GetAdventure s.db slug ReadWrite = .ok persisted)
    (hl : persisted.Locked = true) :
    API.UpdateAdventureContent s slug body =
        (s, .error StatusNotFound "Adventure is read-only") ∧
      (API.UpdateAdventureContent s slug body).2.code = 404 ∧
      issued s (API.UpdateAdventureContent s slug body).1 = [] := by
  have h : API.UpdateAdventureContent s slug body =
      (s, .error StatusNotFound "Adventure is read-only") := by
    simp [API.UpdateAdventureContent, hres, hl]
  rw [h]
  exact ⟨rfl, rfl, by simp [issued]⟩

/-- C9, at the sample store: the locked adventure with an undecodable body. -/
theorem C9_locked_rejected_witness :
    (∃ persisted, SQLStore.GetAdventure demoStore.db "edit0002" ReadWrite = .ok persisted ∧
        persisted.Locked = true) ∧
      API.UpdateAdventureContent demoStore "edit0002" none =
        (demoStore, .error StatusNotFound "Adventure is read-only") :=
  ⟨⟨_, rfl, rfl⟩, (C9_locked_rejected demoStore "edit0002" _ none rfl rfl).1⟩

/-! ## slug resolution -/

/-- Under a mode with WHERE clause `p`, `GetAdventure` scans the first row that
satisfies `p`, and fails with `ErrNoRows` when there is none. -/
theorem GetAdventure_of_where (db : DB) (slug : String) (mode : Permission)
    (p : AdventureRow → Bool) (hw : SQLStore.adventureWhere slug mode = some p) :
    (∀ a, SQLStore.GetAdventure db slug mode = .ok a →
        ∃ r ∈ db.adventure, p r = true ∧ a = SQLStore.scanAdventure db slug r) ∧
      ((∃ r ∈ db.adventure, p r = true) → ∃ a, SQLStore.GetAdventure db slug mode = .ok a) ∧
      ((∀ r ∈ db.adventure, p r = false) →
        SQLStore.GetAdventure db slug mode = .error .ErrNoRows) := by
  simp only [GetAdventure_eq, hw]
  refine ⟨fun a h => ?_, fun ⟨r, hr, hp⟩ => ?_, fun h => ?_⟩
  · rcases hf : db.adventure.find? p with _ | r
    · simp [hf] at h
    · simp only [hf, Except.ok.injEq] at h
      exact ⟨r, List.mem_of_find?_eq_some hf, List.find?_some hf, h.symm⟩
  · rcases hf : db.adventure.find? p with _ | r0
    · rw [List.find?_eq_none] at hf
      exact absurd hp (hf r hr)
    · exact ⟨_, rfl⟩
  · have hf : db.adventure.find? p = none := by
      rw [List.find?_eq_none]
      intro r hr
      simp [h r hr]
    simp only [hf]

/-- C10: `GetAdventure` succeeds under ReadOnly exactly when some adventure has the
slug as view slug, under ReadWrite exactly when some adventure has it as edit slug,
under Ignore exactly when some adventure has it as either; the adventure returned is a
persisted one matching in that way; without a match the error is `ErrNoRows`; and the
returned `Permission` is ReadOnly when the slug is the returned adventure's view slug
and ReadWrite otherwise. -/
theorem C10_slug_resolution (db : DB) (slug : String) :
    ((∃ a, SQLStore.GetAdventure db slug ReadOnly = .ok a) ↔
        ∃ r ∈ db.adventure, r.view_slug = slug) ∧
      ((∃ a, SQLStore.GetAdventure db slug ReadWrite = .ok a) ↔
        ∃ r ∈ db.adventure, r.slug = slug) ∧
      ((∃ a, SQLStore.GetAdventure db slug Ignore = .ok a) ↔
        ∃ r ∈ db.adventure, r.slug = slug ∨ r.view_slug = slug) ∧
      (∀ a, SQLStore.GetAdventure db slug ReadOnly = .ok a →
        a.ViewSlug = slug ∧ ∃ r ∈ db.adventure, a = SQLStore.scanAdventure db slug r) ∧
      (∀ a, SQLStore.GetAdventure db slug ReadWrite = .ok a →
        a.Slug = slug ∧ ∃ r ∈ db.adventure, a = SQLStore.scanAdventure db slug r) ∧
      (∀ a, SQLStore.GetAdventure db slug Ignore = .ok a →
        (a.Slug = slug ∨ a.ViewSlug = slug) ∧
          ∃ r ∈ db.adventure, a = SQLStore.scanAdventure db slug r) ∧
      ((¬ ∃ r ∈ db.adventure, r.view_slug = slug) →
        SQLStore.GetAdventure db slug ReadOnly = .error .ErrNoRows) ∧
      ((¬ ∃ r ∈ db.adventure, r.slug = slug) →
        SQLStore.GetAdventure db slug ReadWrite = .error .ErrNoRows) ∧
      ((¬ ∃ r ∈ db.adventure, r.slug = slug ∨ r.view_slug = slug) →
        SQLStore.GetAdventure db slug Ignore = .error .ErrNoRows) ∧
      (∀ mode a, SQLStore.GetAdventure db slug mode = .ok a →
        a.Permission = if slug = a.ViewSlug then ReadOnly else ReadWrite) := by
  have wRO : SQLStore.adventureWhere slug ReadOnly = some (fun r => r.view_slug == slug) := rfl
  have wRW : SQLStore.adventureWhere slug ReadWrite = some (fun r => r.slug == slug) := rfl
  have wIg : SQLStore.adventureWhere slug Ignore =
      some (fun r => r.slug == slug || r.view_slug == slug) := rfl
  obtain ⟨ro1, ro2, ro3⟩ := GetAdventure_of_where db slug ReadOnly _ wRO
  obtain ⟨rw1, rw2, rw3⟩ := GetAdventure_of_where db slug ReadWrite _ wRW
  obtain ⟨ig1, ig2, ig3⟩ := GetAdventure_of_where db slug Ignore _ wIg
  refine ⟨⟨fun ⟨a, h⟩ => ?_, fun ⟨r, hr, hp⟩ => ro2 ⟨r, hr, by simpa using hp⟩⟩,
    ⟨fun ⟨a, h⟩ => ?_, fun ⟨r, hr, hp⟩ => rw2 ⟨r, hr, by simpa using hp⟩⟩,
    ⟨fun ⟨a, h⟩ => ?_, fun ⟨r, hr, hp⟩ => ig2 ⟨r, hr, by simpa using hp⟩⟩,
    fun a h => ?_, fun a h => ?_, fun a h => ?_, fun h => ro3 ?_, fun h => rw3 ?_,
    fun h => ig3 ?_, fun mode a h => ?_⟩
  · obtain ⟨r, hr, hp, _⟩ := ro1 a h
    exact ⟨r, hr, by simpa using hp⟩
  · obtain ⟨r, hr, hp, _⟩ := rw1 a h
    exact ⟨r, hr, by simpa using hp⟩
  · obtain ⟨r, hr, hp, _⟩ := ig1 a h
    exact ⟨r, hr, by simpa using hp⟩
  · obtain ⟨r, hr, hp, ha⟩ := ro1 a h
    exact ⟨by rw [ha]; simpa using hp, r, hr, ha⟩
  · obtain ⟨r, hr, hp, ha⟩ := rw1 a h
    exact ⟨by rw [ha]; simpa using hp, r, hr, ha⟩
  · obtain ⟨r, hr, hp, ha⟩ := ig1 a h
    exact ⟨by rw [ha]; simpa using hp, r, hr, ha⟩
  · intro r hr
    have := fun hp => h ⟨r, hr, hp⟩
    simpa using this
  · intro r hr
    have := fun hp => h ⟨r, hr, hp⟩
    simpa using this
  · intro r hr
    have := fun hp => h ⟨r, hr, hp⟩
    simpa using this
  · rw [GetAdventure_eq] at h
    rcases hw : SQLStore.adventureWhere slug mode with _ | p
    · simp [hw] at h
    · rcases hf : db.adventure.find? p with _ | r
      · simp [hw, hf] at h
      · simp only [hw, hf, Except.ok.injEq] at h
        rw [← h]
        rfl

/-- C10, at the sample tables: the view slug of adventure 1 resolves under ReadOnly
with permission ReadOnly, not under ReadWrite; its edit slug resolves under Ignore
with permission ReadWrite. -/
theorem C10_slug_resolution_witness :
    (∃ a, SQLStore.GetAdventure demoDB "view0001" ReadOnly = .ok a ∧ a.ID = 1 ∧
        a.Permission = ReadOnly) ∧
      SQLStore.GetAdventure demoDB "view0001" ReadWrite = .error .ErrNoRows ∧
      (∃ a, SQLStore.GetAdventure demoDB "edit0001" Ignore = .ok a ∧ a.ID = 1 ∧
        a.Permission = ReadWrite) :=
  ⟨⟨_, rfl, rfl, rfl⟩,
    (C10_slug_resolution demoDB "view0001").2.2.2.2.2.2.2.1 (by decide),
    ⟨_, rfl, rfl, rfl⟩⟩

/-- C6, at the sample store: the calls of the sample reconciliation, in order. -/
theorem C6_write_order_witness :
    issued demoStore (SQLStore.UpdateAdventureContent demoStore demoSnapshot).1 =
        [ .UpdateAdventureRow "Cave II" "Deeper" 1 false "/upload/edit0001/d.jpg" "fonts-v2" 1
            "edit0001",
          .DeleteNode { ID := 3, NodeID := 2, AdventureID := 1, Title := "Right" },
          .UpdateNode { ID := 2, NodeID := 1, AdventureID := 1, Title := "Left turn",
                        Changed := true },
          .CreateNewNode { ID := 0, NodeID := 5, AdventureID := 1, Title := "Pit" },
          .DeleteLink { ID := 2, LinkID := 2, AdventureID := 1, SourceNodeID := 0,
                        TargetNodeID := 2, LinkType := "bidirectional" },
          .UpdateLink { ID := 1, LinkID := 1, AdventureID := 1, SourceNodeID := 0,
                        TargetNodeID := 1, LinkType := "default", Changed := true },
          .CreateNewLink { ID := 0, LinkID := 7, AdventureID := 1, SourceNodeID := 1,
                           TargetNodeID := 5, LinkType := "default" } ] ∧
      (issued demoStore
        (SQLStore.UpdateAdventureContent demoStore demoSnapshot).1).Pairwise inOrder :=
  ⟨rfl, C6_write_order demoStore demoSnapshot⟩

/-! ## minting of slugs -/

/-- C13: `CreateNewAdventure` does not look at the slugs already persisted.  On the
sample store, whose first adventure has edit slug `edit0001`, a call in which `uniuri`
mints that same edit slug succeeds, returns an adventure with this slug, and leaves
two rows with edit slug `edit0001` in the table. -/
theorem C13_minted_slug_not_checked :
    (SQLStore.CreateNewAdventure demoStore mintedViewSlug "edit0001").2 =
        .ok { ID := 3, Slug := "edit0001", ViewSlug := mintedViewSlug } ∧
      (demoStore.db.adventure.map AdventureRow.slug) = ["edit0001", "edit0002"] ∧
      ((SQLStore.CreateNewAdventure demoStore mintedViewSlug "edit0001").1.db.adventure.map
        AdventureRow.slug) = ["edit0001", "edit0002", "edit0001"] :=
  ⟨rfl, rfl, rfl⟩

/-! ## import: order of minting and validation, returned slugs -/

/-- C15: an archive without a `.json` entry is answered 500 "Adventure file missing in
archive.", but only after `CreateNewAdventure` has run: on the sample store the
adventure table has a third row, with the minted slugs, afterwards. -/
theorem C15_orphan_row_without_json :
    (API.ImportAdventure demoStore demoUploadPath [] (.archive demoArchiveNoJson)
        mintedViewSlug mintedSlug).2.2 =
        .error StatusInternalServerError "Adventure file missing in archive." ∧
      (API.ImportAdventure demoStore demoUploadPath [] (.archive demoArchiveNoJson)
        mintedViewSlug mintedSlug).1.db.adventure.map
          (fun r => (r.id, r.slug, r.view_slug)) =
        [(1, "edit0001", "view0001"), (2, "edit0002", "view0002"),
         (3, mintedSlug, mintedViewSlug)] ∧
      (API.ImportAdventure demoStore demoUploadPath [] (.archive demoArchiveNoJson)
        mintedViewSlug mintedSlug).1.log = [.CreateNewAdventure mintedSlug mintedViewSlug] :=
  ⟨rfl, rfl, rfl⟩

/-- C17: the adventure `ImportAdventure` returns carries the minted edit slug but the
view slug of the archive's snapshot: on the sample archive the response has
`view_slug = srcviewslug000001`, while the persisted row has the minted view slug. -/
theorem C17_returned_view_slug_is_the_archives :
    (∃ a, (API.ImportAdventure demoStore demoUploadPath [] (.archive demoArchive)
          mintedViewSlug mintedSlug).2.2 = .json StatusOK a ∧
        a.Slug = mintedSlug ∧ a.ViewSlug = demoPayload.ViewSlug ∧
        a.ViewSlug ≠ mintedViewSlug) ∧
      (API.ImportAdventure demoStore demoUploadPath [] (.archive demoArchive)
        mintedViewSlug mintedSlug).1.db.adventure.map
          (fun r => (r.id, r.slug, r.view_slug)) =
        [(1, "edit0001", "view0001"), (2, "edit0002", "view0002"),
         (3, mintedSlug, mintedViewSlug)] :=
  ⟨⟨_, rfl, rfl, rfl, by decide⟩, rfl⟩

/-! ## export: the asset set -/

/-- C20: the empty string is removed from the asset set before the font URLs are
added.  For an adventure whose props document lists the empty string as a font, the
set `CreateExportZip` iterates over contains the empty string. -/
theorem C20_empty_font_url_kept :
    "" ∈ API.assetSet demoJSON
      { CoverUrl := "/upload/x/c.jpg", Props := "\x7b\"font_list\":[\"\"]\x7d",
        Nodes := [ { ImageURL := "/upload/x/n.jpg" } ] } := by
  decide

/-! ## slugs under updates -/

theorem applyCall_editSlugs (db : DB) (c : Call) (h : c.createsOrDeletes = false) :
    (applyCall db c).editSlugs = db.editSlugs := by
  cases c <;> first
    | rfl
    | (exfalso; simp [Call.createsOrDeletes] at h; done)
    | (simp only [applyCall, DB.editSlugs, List.map_map]
       apply List.map_congr_left
       intro r _
       simp only [Function.comp]
       split <;> rfl)

theorem applyCall_viewSlugs (db : DB) (c : Call) (h : c.createsOrDeletes = false)
    (hu : c.isUpdateAdventure = false) :
    (applyCall db c).viewSlugs = db.viewSlugs := by
  cases c <;> first
    | rfl
    | (exfalso; simp [Call.createsOrDeletes] at h; done)
    | (exfalso; simp [Call.isUpdateAdventure] at hu; done)
    | (simp only [applyCall, DB.viewSlugs, List.map_map]
       apply List.map_congr_left
       intro r _
       simp only [Function.comp]
       split <;> rfl)

/-- A property of the tables that a call keeps is kept by its `Exec`, failed or not. -/
theorem Exec_preserves (Q : DB → Prop) (s : Store) (c : Call)
    (hc : ∀ db, Q db → Q (applyCall db c)) (h : Q s.db) : Q (s.Exec c).1.db := by
  rcases hr : (s.Exec c).2 with _ | err
  · rw [Exec_ok_db s c hr]; exact hc _ h
  · rw [Exec_err_db s c (by rw [hr]; simp)]; exact h

/-- A property of the tables that every call of a list keeps is kept by its run. -/
theorem run_preserves (Q : DB → Prop) (s : Store) (cs : List Call)
    (hc : ∀ c ∈ cs, ∀ db, Q db → Q (applyCall db c)) (h : Q s.db) : Q (s.run cs).1.db := by
  induction cs generalizing s with
  | nil => exact h
  | cons c cs ih =>
    have h1 := Exec_preserves Q s c (hc c (List.mem_cons_self _ _)) h
    simp only [Store.run]
    rcases hx : s.Exec c with ⟨s1, _ | err⟩
    · rw [hx] at h1
      exact ih s1 (fun c hc2 => hc c (List.mem_cons_of_mem _ hc2)) h1
    · rw [hx] at h1
      exact h1

theorem removeUsers_preserves (Q : DB → Prop)
    (hc : ∀ c, c.createsOrDeletes = false → c.isUpdateAdventure = false →
      ∀ db, Q db → Q (applyCall db c))
    (e a : Adventure) (s : Store) (users : List User) (h : Q s.db) :
    Q (SQLStore.removeUsers e a s users).1.db := by
  induction users generalizing s with
  | nil => exact h
  | cons user rest ih =>
    unfold SQLStore.removeUsers
    simp only
    split
    · have h1 := Exec_preserves Q s (.DeleteUserFromAdventure user.ID e.ID)
        (hc _ rfl rfl) h
      simp only [SQLStore.DeleteUserFromAdventure]
      rcases hx : s.Exec (.DeleteUserFromAdventure user.ID e.ID) with ⟨s1, _ | err⟩
      · rw [hx] at h1
        exact ih s1 h1
      · rw [hx] at h1
        exact h1
    · exact ih s h

theorem addUsers_preserves (Q : DB → Prop)
    (hc : ∀ c, c.createsOrDeletes = false → c.isUpdateAdventure = false →
      ∀ db, Q db → Q (applyCall db c))
    (e : Adventure) (s : Store) (users : List User) (h : Q s.db) :
    Q (SQLStore.addUsers e s users).1.db := by
  induction users generalizing s with
  | nil => exact h
  | cons user rest ih =>
    unfold SQLStore.addUsers
    simp only
    split
    · have h1 := Exec_preserves Q s (.AddUserToAdventure user.ID e.ID) (hc _ rfl rfl) h
      simp only [SQLStore.AddUserToAdventure]
      rcases hx : s.Exec (.AddUserToAdventure user.ID e.ID) with ⟨s1, _ | err⟩
      · rw [hx] at h1
        exact ih s1 h1
      · rw [hx] at h1
        exact h1
    · exact ih s h

/-- `SQLStore.UpdateAdventure` keeps every property of the tables that its calls keep. -/
theorem UpdateAdventure_preserves (Q : DB → Prop)
    (hc : ∀ c, c.createsOrDeletes = false → ∀ db, Q db → Q (applyCall db c))
    (s : Store) (adventure : Adventure) (h : Q s.db) :
    Q (SQLStore.UpdateAdventure s adventure).1.db := by
  unfold SQLStore.UpdateAdventure
  rcases SQLStore.GetAdventure s.db adventure.Slug ReadWrite with e | existing
  · exact h
  · simp only
    have h1 := Exec_preserves Q s (.UpdateAdventure adventure.Title adventure.Description
      adventure.Category.ID adventure.Locked adventure.ViewSlug adventure.ID) (hc _ rfl) h
    rcases hx : s.Exec (.UpdateAdventure adventure.Title adventure.Description
      adventure.Category.ID adventure.Locked adventure.ViewSlug adventure.ID) with ⟨s1, _ | err⟩
    · rw [hx] at h1
      simp only
      have h2 := removeUsers_preserves Q (fun c h _ => hc c h) existing adventure s1
        existing.Users h1
      rcases hy : SQLStore.removeUsers existing adventure s1 existing.Users with ⟨s2, _ | err⟩
      · rw [hy] at h2
        exact addUsers_preserves Q (fun c h _ => hc c h) existing s2 adventure.Users h2
      · rw [hy] at h2
        exact h2
    · rw [hx] at h1
      exact h1

theorem UpdateAdventureByID_preserves (Q : DB → Prop)
    (hc : ∀ c, c.createsOrDeletes = false → ∀ db, Q db → Q (applyCall db c))
    (s : Store) (adventureID : Option Int) (body : Option Adventure) (h : Q s.db) :
    Q (API.UpdateAdventureByID s adventureID body).1.db := by
  unfold API.UpdateAdventureByID
  cases adventureID with
  | none => exact h
  | some id =>
    simp only
    rcases SQLStore.GetAdventureByID s.db id with e | existing
    · exact h
    · cases body with
      | none => exact h
      | some payload =>
        simp only
        have h1 := UpdateAdventure_preserves Q hc s
          { existing with
            Category := { existing.Category with ID := payload.Category.ID }
            Title := payload.Title
            Description := payload.Description
            Locked := payload.Locked
            CoverUrl := payload.CoverUrl
            Users := payload.Users
            ViewSlug := payload.ViewSlug } h
        rcases hx : SQLStore.UpdateAdventure s
          { existing with
            Category := { existing.Category with ID := payload.Category.ID }
            Title := payload.Title
            Description := payload.Description
            Locked := payload.Locked
            CoverUrl := payload.CoverUrl
            Users := payload.Users
            ViewSlug := payload.ViewSlug } with ⟨s1, _ | err⟩
        · rw [hx] at h1
          simp only
          split <;> exact h1
        · rw [hx] at h1
          exact h1

theorem plan_not_createsOrDeletes (P S : Adventure) (c : Call) (hc : c ∈ plan P S) :
    c.createsOrDeletes = false ∧ c.isUpdateAdventure = false := by
  rcases mem_plan P S c hc with rfl | h | h | h | h
  · exact ⟨rfl, rfl⟩
  · obtain ⟨n, _, _, rfl⟩ := mem_nodeDeletes P S _ c h
    exact ⟨rfl, rfl⟩
  · obtain ⟨n, _, ⟨_, rfl⟩ | ⟨_, _, rfl⟩⟩ := mem_nodeWrites P _ c h <;> exact ⟨rfl, rfl⟩
  · obtain ⟨n, _, _, rfl⟩ := mem_linkDeletes P S _ c h
    exact ⟨rfl, rfl⟩
  · obtain ⟨n, _, ⟨_, rfl⟩ | ⟨_, _, rfl⟩⟩ := mem_linkWrites P _ c h <;> exact ⟨rfl, rfl⟩

/-- `SQLStore.UpdateAdventureContent` keeps every property of the tables that the
calls of its plan keep. -/
theorem UpdateAdventureContent_preserves (Q : DB → Prop)
    (hc : ∀ c, c.createsOrDeletes = false → c.isUpdateAdventure = false →
      ∀ db, Q db → Q (applyCall db c))
    (s : Store) (S : Adventure) (h : Q s.db) :
    Q (SQLStore.UpdateAdventureContent s S).1.db := by
  rcases hP : SQLStore.GetAdventure s.db S.Slug ReadWrite with e | P
  · have h1 : (SQLStore.UpdateAdventureContent s S).1 = s := by
      simp [SQLStore.UpdateAdventureContent, hP]
    rw [h1]; exact h
  · rw [UpdateAdventureContent_eq_run s S P hP]
    exact run_preserves Q s _ (fun c hc2 =>
      hc c (plan_not_createsOrDeletes P S c hc2).1 (plan_not_createsOrDeletes P S c hc2).2) h

/-- C14, the claim as stated fails: on the sample store `UpdateAdventureByID` with a
payload that carries another view slug changes the view slug of adventure 1. -/
theorem C14_view_slug_changed :
    ¬ ((API.UpdateAdventureByID demoStore (some 1)
          (some { Title := "Cave", ViewSlug := "other-view-slug" })).1.db.viewSlugs =
        demoStore.db.viewSlugs) ∧
      (API.UpdateAdventureByID demoStore (some 1)
          (some { Title := "Cave", ViewSlug := "other-view-slug" })).1.db.viewSlugs =
        [(1, "other-view-slug"), (2, "view0002")] := by
  decide

/-- C14 as amended: no write statement of the store other than the insertion and the
deletion of an adventure row changes the edit slug of any row, and none of them other
than the `UPDATE` of `UpdateAdventure` changes a view slug; that statement sets the
view slug of the row with the given id to the one it is called with and leaves all
other view slugs; accordingly `UpdateAdventure` and `UpdateAdventureByID` leave every
edit slug as it was for every payload, and `UpdateAdventureContent` leaves every edit
slug and every view slug as it was. -/
theorem C14_slugs_under_updates :
    (∀ (db : DB) (c : Call), c.createsOrDeletes = false →
        (applyCall db c).editSlugs = db.editSlugs) ∧
      (∀ (db : DB) (c : Call), c.createsOrDeletes = false → c.isUpdateAdventure = false →
        (applyCall db c).viewSlugs = db.viewSlugs) ∧
      (∀ (db : DB) (title description : String) (category_id : Int) (locked : Bool)
          (view_slug : String) (id : Int),
        (applyCall db (.UpdateAdventure title description category_id locked view_slug
            id)).viewSlugs =
          db.adventure.map (fun r => (r.id, if r.id = id then view_slug else r.view_slug))) ∧
      (∀ (s : Store) (adventure : Adventure),
        (SQLStore.UpdateAdventure s adventure).1.db.editSlugs = s.db.editSlugs) ∧
      (∀ (s : Store) (adventureID : Option Int) (body : Option Adventure),
        (API.UpdateAdventureByID s adventureID body).1.db.editSlugs = s.db.editSlugs) ∧
      (∀ (s : Store) (S : Adventure),
        (SQLStore.UpdateAdventureContent s S).1.db.editSlugs = s.db.editSlugs ∧
          (SQLStore.UpdateAdventureContent s S).1.db.viewSlugs = s.db.viewSlugs) := by
  refine ⟨applyCall_editSlugs, applyCall_viewSlugs, ?_, ?_, ?_, ?_⟩
  · intro db title description category_id locked view_slug id
    simp only [applyCall, DB.viewSlugs, List.map_map]
    apply List.map_congr_left
    intro r _
    simp only [Function.comp, beq_iff_eq]
    split <;> rfl
  · intro s adventure
    exact UpdateAdventure_preserves (fun db => db.editSlugs = s.db.editSlugs)
      (fun c h db hq => (applyCall_editSlugs db c h).trans hq) s adventure rfl
  · intro s adventureID body
    exact UpdateAdventureByID_preserves (fun db => db.editSlugs = s.db.editSlugs)
      (fun c h db hq => (applyCall_editSlugs db c h).trans hq) s adventureID body rfl
  · intro s S
    exact ⟨UpdateAdventureContent_preserves (fun db => db.editSlugs = s.db.editSlugs)
        (fun c h _ db hq => (applyCall_editSlugs db c h).trans hq) s S rfl,
      UpdateAdventureContent_preserves (fun db => db.viewSlugs = s.db.viewSlugs)
        (fun c h hu db hq => (applyCall_viewSlugs db c h hu).trans hq) s S rfl⟩

/-- C14 as amended, at the sample store: the admin update that changes the view slug
of adventure 1 leaves all edit slugs. -/
theorem C14_slugs_under_updates_witness :
    (API.UpdateAdventureByID demoStore (some 1)
        (some { Title := "Cave", ViewSlug := "other-view-slug" })).1.db.editSlugs =
      [(1, "edit0001"), (2, "edit0002")] :=
  (C14_slugs_under_updates.2.2.2.2.1 demoStore (some 1)
    (some { Title := "Cave", ViewSlug := "other-view-slug" })).trans rfl

/-! ## reconciling a snapshot of new nodes and links into an empty adventure -/

theorem foldl_createNodes (advID : Int) (nodes : List Node) (db : DB) :
    ((nodes.map (fun n => Call.CreateNewNode { n with AdventureID := advID })).foldl
        applyCall db).adventure_node = db.adventure_node ++ newNodeRows advID db.node_seq nodes ∧
      ((nodes.map (fun n => Call.CreateNewNode { n with AdventureID := advID })).foldl
        applyCall db).adventure_link = db.adventure_link ∧
      ((nodes.map (fun n => Call.CreateNewNode { n with AdventureID := advID })).foldl
        applyCall db).link_seq = db.link_seq := by
  induction nodes generalizing db with
  | nil => simp [newNodeRows]
  | cons n ns ih =>
    obtain ⟨h1, h2, h3⟩ := ih (applyCall db (.CreateNewNode { n with AdventureID := advID }))
    simp only [List.map_cons, List.foldl_cons]
    refine ⟨?_, h2, h3⟩
    rw [h1]
    simp [applyCall, newNodeRows, newNodeRow]

theorem foldl_createLinks (advID : Int) (links : List Link) (db : DB) :
    ((links.map (fun l => Call.CreateNewLink { l with AdventureID := advID })).foldl
        applyCall db).adventure_link = db.adventure_link ++ newLinkRows advID db.link_seq links ∧
      ((links.map (fun l => Call.CreateNewLink { l with AdventureID := advID })).foldl
        applyCall db).adventure_node = db.adventure_node := by
  induction links generalizing db with
  | nil => simp [newLinkRows]
  | cons l ls ih =>
    obtain ⟨h1, h2⟩ := ih (applyCall db (.CreateNewLink { l with AdventureID := advID }))
    simp only [List.map_cons, List.foldl_cons]
    refine ⟨?_, h2⟩
    rw [h1]
    simp [applyCall, newLinkRows, newLinkRow]

theorem newNodeRows_spec (advID : Int) (nodes : List Node) (seq : Int) :
    (newNodeRows advID seq nodes).map NodeRow.node_id = nodes.map Node.NodeID ∧
      (∀ r ∈ newNodeRows advID seq nodes, r.adventure_id = advID ∧ seq < r.id) ∧
      ((newNodeRows advID seq nodes).map NodeRow.id).Nodup := by
  induction nodes generalizing seq with
  | nil => simp [newNodeRows]
  | cons n ns ih =>
    obtain ⟨h1, h2, h3⟩ := ih (seq + 1)
    refine ⟨?_, ?_, ?_⟩
    · simp [newNodeRows, newNodeRow, h1]
    · intro r hr
      simp only [newNodeRows, List.mem_cons] at hr
      rcases hr with rfl | hr
      · exact ⟨rfl, by simp [newNodeRow]⟩
      · exact ⟨(h2 r hr).1, by have := (h2 r hr).2; omega⟩
    · simp only [newNodeRows, List.map_cons, List.nodup_cons]
      refine ⟨?_, h3⟩
      intro hmem
      simp only [List.mem_map] at hmem
      obtain ⟨r, hr, he⟩ := hmem
      have := (h2 r hr).2
      simp only [newNodeRow] at he
      omega

theorem newLinkRows_spec (advID : Int) (links : List Link) (seq : Int) :
    (newLinkRows advID seq links).map
        (fun r => (r.link_id, r.source_node_id, r.target_node_id, r.link_type.getD "")) =
        links.map (fun l => (l.LinkID, l.SourceNodeID, l.TargetNodeID, l.LinkType)) ∧
      (∀ r ∈ newLinkRows advID seq links, r.adventure_id = advID ∧ seq < r.id) ∧
      ((newLinkRows advID seq links).map LinkRow.id).Nodup := by
  induction links generalizing seq with
  | nil => simp [newLinkRows]
  | cons n ns ih =>
    obtain ⟨h1, h2, h3⟩ := ih (seq + 1)
    refine ⟨?_, ?_, ?_⟩
    · simp [newLinkRows, newLinkRow, h1]
    · intro r hr
      simp only [newLinkRows, List.mem_cons] at hr
      rcases hr with rfl | hr
      · exact ⟨rfl, by simp [newLinkRow]⟩
      · exact ⟨(h2 r hr).1, by have := (h2 r hr).2; omega⟩
    · simp only [newLinkRows, List.map_cons, List.nodup_cons]
      refine ⟨?_, h3⟩
      intro hmem
      simp only [List.mem_map] at hmem
      obtain ⟨r, hr, he⟩ := hmem
      have := (h2 r hr).2
      simp only [newLinkRow] at he
      omega

/-- The plan for a snapshot of nodes and links without storage id, against a persisted
adventure without nodes and links: the scalar update and one insert per node and
link. -/
theorem plan_all_new (P S : Adventure) (hPn : P.Nodes = []) (hPl : P.Links = [])
    (hn : ∀ n ∈ S.Nodes, n.ID = 0) (hl : ∀ l ∈ S.Links, l.ID = 0) :
    plan P S = scalarUpdate P S ::
      (S.Nodes.map (fun n => Call.CreateNewNode { n with AdventureID := P.ID }) ++
        S.Links.map (fun l => Call.CreateNewLink { l with AdventureID := P.ID })) := by
  have h2 : S.Nodes.filterMap (nodeWrite P) =
      S.Nodes.map (fun n => Call.CreateNewNode { n with AdventureID := P.ID }) := by
    rw [← List.filterMap_eq_map]
    apply List.filterMap_congr
    intro n hmem
    simp [nodeWrite, hn n hmem]
  have h4 : S.Links.filterMap (linkWrite P) =
      S.Links.map (fun l => Call.CreateNewLink { l with AdventureID := P.ID }) := by
    rw [← List.filterMap_eq_map]
    apply List.filterMap_congr
    intro l hmem
    simp [linkWrite, hl l hmem]
  simp only [plan, hPn, hPl, nodeDeletes, linkDeletes, h2, h4, List.filter_nil, List.map_nil,
    List.nil_append]

theorem run_noFault_keeps (s : Store) (cs : List Call) (h : s.noFault = true) :
    (s.run cs).1.noFault = true := by
  induction cs generalizing s with
  | nil => exact h
  | cons c cs ih =>
    have hnf := Exec_noFault s c h
    simp only [Store.run]
    rcases hx : s.Exec c with ⟨s1, _ | err⟩
    · rw [hx] at hnf
      exact ih s1 hnf.2
    · rw [hx] at hnf
      simp at hnf

theorem fetched_content (db : DB) (slug : String) (P : Adventure)
    (hP : SQLStore.GetAdventure db slug ReadWrite = .ok P) :
    P.Nodes = SQLStore.GetNodesByAdventureID db P.ID ∧
      P.Links = SQLStore.GetLinksByAdventureID db P.ID := by
  obtain ⟨r, _, hPs, _⟩ := GetAdventure_ReadWrite_ok _ _ _ hP
  rw [hPs]
  exact ⟨rfl, rfl⟩

/-- A snapshot of nodes and links without storage id, reconciled without a failing
write into a persisted adventure without nodes and links: one row is appended per
node and per link, under the next storage ids, and nothing else changes in the two
tables. -/
theorem reconcile_all_new (s : Store) (S P : Adventure)
    (hP : SQLStore.GetAdventure s.db S.Slug ReadWrite = .ok P) (hnf : s.noFault = true)
    (hPn : P.Nodes = []) (hPl : P.Links = [])
    (hn : ∀ n ∈ S.Nodes, n.ID = 0) (hl : ∀ l ∈ S.Links, l.ID = 0) :
    (SQLStore.UpdateAdventureContent s S).2 = none ∧
      (SQLStore.UpdateAdventureContent s S).1.noFault = true ∧
      (SQLStore.UpdateAdventureContent s S).1.db.adventure_node =
        s.db.adventure_node ++ newNodeRows P.ID s.db.node_seq S.Nodes ∧
      (SQLStore.UpdateAdventureContent s S).1.db.adventure_link =
        s.db.adventure_link ++ newLinkRows P.ID s.db.link_seq S.Links ∧
      (SQLStore.UpdateAdventureContent s S).1.db.adventure =
        s.db.adventure.map (scalarRow P S) ∧
      (SQLStore.UpdateAdventureContent s S).1.db.adventure_category =
        s.db.adventure_category ∧
      SQLStore.GetNodesByAdventureID (SQLStore.UpdateAdventureContent s S).1.db P.ID =
        (newNodeRows P.ID s.db.node_seq S.Nodes).map SQLStore.scanNode ∧
      SQLStore.GetLinksByAdventureID (SQLStore.UpdateAdventureContent s S).1.db P.ID =
        (newLinkRows P.ID s.db.link_seq S.Links).map SQLStore.scanLink := by
  have hrun := UpdateAdventureContent_eq_run s S P hP
  obtain ⟨h1, _, h3⟩ := run_noFault s (plan P S) hnf
  have hkeep := run_noFault_keeps s (plan P S) hnf
  rw [← hrun] at h1 h3 hkeep
  have hadv := plan_foldl_adventure s.db P S
  rw [← h3] at hadv
  have hplan := plan_all_new P S hPn hPl hn hl
  have hnodes := foldl_createNodes P.ID S.Nodes (applyCall s.db (scalarUpdate P S))
  have hlinks := foldl_createLinks P.ID S.Links
    ((S.Nodes.map (fun n => Call.CreateNewNode { n with AdventureID := P.ID })).foldl
      applyCall (applyCall s.db (scalarUpdate P S)))
  have hN : (SQLStore.UpdateAdventureContent s S).1.db.adventure_node =
      s.db.adventure_node ++ newNodeRows P.ID s.db.node_seq S.Nodes := by
    rw [h3, hplan, List.foldl_cons, List.foldl_append, hlinks.2, hnodes.1]
    rfl
  have hL : (SQLStore.UpdateAdventureContent s S).1.db.adventure_link =
      s.db.adventure_link ++ newLinkRows P.ID s.db.link_seq S.Links := by
    rw [h3, hplan, List.foldl_cons, List.foldl_append, hlinks.1, hnodes.2.1, hnodes.2.2]
    rfl
  obtain ⟨hPN, hPL⟩ := fetched_content s.db S.Slug P hP
  refine ⟨h1, hkeep, hN, hL, hadv.1, hadv.2, ?_, ?_⟩
  · have hold : s.db.adventure_node.filter (fun r => r.adventure_id == P.ID) = [] := by
      have := hPN.symm.trans hPn
      simpa [SQLStore.GetNodesByAdventureID] using this
    have hnew : (newNodeRows P.ID s.db.node_seq S.Nodes).filter
        (fun r => r.adventure_id == P.ID) = newNodeRows P.ID s.db.node_seq S.Nodes := by
      rw [List.filter_eq_self]
      intro r hr
      simp [(newNodeRows_spec P.ID S.Nodes s.db.node_seq).2.1 r hr]
    simp only [SQLStore.GetNodesByAdventureID, hN, List.filter_append, hold, hnew,
      List.nil_append]
  · have hold : s.db.adventure_link.filter (fun r => r.adventure_id == P.ID) = [] := by
      have := hPL.symm.trans hPl
      simpa [SQLStore.GetLinksByAdventureID] using this
    have hnew : (newLinkRows P.ID s.db.link_seq S.Links).filter
        (fun r => r.adventure_id == P.ID) = newLinkRows P.ID s.db.link_seq S.Links := by
      rw [List.filter_eq_self]
      intro r hr
      simp [(newLinkRows_spec P.ID S.Links s.db.link_seq).2.1 r hr]
    simp only [SQLStore.GetLinksByAdventureID, hL, List.filter_append, hold, hnew,
      List.nil_append]

theorem CreateNewAdventure_noFault (s : Store) (viewSlug slug : String)
    (hnf : s.noFault = true) :
    (SQLStore.CreateNewAdventure s viewSlug slug).2 =
        .ok { ViewSlug := viewSlug, Slug := slug, ID := s.db.adventure_seq + 1 } ∧
      (SQLStore.CreateNewAdventure s viewSlug slug).1.db =
        applyCall s.db (.CreateNewAdventure slug viewSlug) ∧
      (SQLStore.CreateNewAdventure s viewSlug slug).1.noFault = true := by
  have h1 := Exec_noFault s (.CreateNewAdventure slug viewSlug) hnf
  have h2 := Exec_ok_db s (.CreateNewAdventure slug viewSlug) h1.1
  unfold SQLStore.CreateNewAdventure
  rcases hx : s.Exec (.CreateNewAdventure slug viewSlug) with ⟨s1, _ | err⟩
  · rw [hx] at h1 h2
    simp only at h1 h2 ⊢
    refine ⟨?_, h2, h1.2⟩
    rw [h2]
    rfl
  · rw [hx] at h1
    simp at h1

theorem wellFormed_iff (db : DB) :
    db.wellFormed = true ↔
      (∀ r ∈ db.adventure, r.id ≤ db.adventure_seq) ∧
      (∀ r ∈ db.adventure_node, r.id ≤ db.node_seq ∧ r.adventure_id ≤ db.adventure_seq) ∧
      (∀ r ∈ db.adventure_link, r.id ≤ db.link_seq ∧ r.adventure_id ≤ db.adventure_seq) := by
  simp only [DB.wellFormed, Bool.and_eq_true, List.all_eq_true, decide_eq_true_eq, and_assoc]

/-- The row `CreateNewAdventure` inserts. -/
theorem minted_table (db : DB) (viewSlug slug : String) :
    (applyCall db (.CreateNewAdventure slug viewSlug)).adventure =
        db.adventure ++ [mintedRow (db.adventure_seq + 1) slug viewSlug] ∧
      (applyCall db (.CreateNewAdventure slug viewSlug)).adventure_node = db.adventure_node ∧
      (applyCall db (.CreateNewAdventure slug viewSlug)).adventure_link = db.adventure_link ∧
      (applyCall db (.CreateNewAdventure slug viewSlug)).node_seq = db.node_seq ∧
      (applyCall db (.CreateNewAdventure slug viewSlug)).link_seq = db.link_seq :=
  ⟨rfl, rfl, rfl, rfl, rfl⟩

/-- On well-formed tables without the minted edit slug, that slug resolves to the new
adventure right after `CreateNewAdventure`, and the new adventure has no nodes and no
links. -/
theorem GetAdventure_minted (db : DB) (viewSlug slug : String)
    (hwf : db.wellFormed = true) (hfresh : ∀ r ∈ db.adventure, r.slug ≠ slug) :
    ∃ P, SQLStore.GetAdventure (applyCall db (.CreateNewAdventure slug viewSlug)) slug
        ReadWrite = .ok P ∧
      P.ID = db.adventure_seq + 1 ∧ P.Slug = slug ∧ P.ViewSlug = viewSlug ∧
      P.Nodes = [] ∧ P.Links = [] := by
  obtain ⟨_, hwn, hwl⟩ := (wellFormed_iff db).mp hwf
  have hfind : (applyCall db (.CreateNewAdventure slug viewSlug)).adventure.find?
      (fun r => r.slug == slug) =
      some (mintedRow (db.adventure_seq + 1) slug viewSlug) := by
    have hold : db.adventure.find? (fun r => r.slug == slug) = none := by
      rw [List.find?_eq_none]
      intro r hr
      simpa using hfresh r hr
    rw [(minted_table db viewSlug slug).1, List.find?_append, hold]
    simp [mintedRow]
  refine ⟨_, by rw [GetAdventure_ReadWrite, hfind], rfl, rfl, rfl, ?_, ?_⟩
  · show SQLStore.GetNodesByAdventureID _ (db.adventure_seq + 1) = []
    simp only [SQLStore.GetNodesByAdventureID, (minted_table db viewSlug slug).2.1,
      List.map_eq_nil_iff, List.filter_eq_nil_iff, beq_iff_eq]
    intro r hr he
    have := (hwn r hr).2
    omega
  · show SQLStore.GetLinksByAdventureID _ (db.adventure_seq + 1) = []
    simp only [SQLStore.GetLinksByAdventureID, (minted_table db viewSlug slug).2.2.1,
      List.map_eq_nil_iff, List.filter_eq_nil_iff, beq_iff_eq]
    intro r hr he
    have := (hwl r hr).2
    omega

theorem find_id_map_scalarRow (rows : List AdventureRow) (a newAdventure : Adventure)
    (id : Int) :
    (rows.map (scalarRow a newAdventure)).find? (fun r => r.id == id) =
      (rows.find? (fun r => r.id == id)).map (scalarRow a newAdventure) := by
  rw [List.find?_map]
  congr 2
  funext r
  simp [(scalarRow_slug a newAdventure r).2.1]

/-- Minting an adventure and reconciling a snapshot of new nodes and links under its
edit slug, on well-formed tables that do not hold this slug and without a failing
write: the new adventure then has exactly the inserted nodes and links, whether
fetched by its id or by its edit slug. -/
theorem mint_and_reconcile (s : Store) (viewSlug slug : String) (S : Adventure)
    (hnf : s.noFault = true) (hwf : s.db.wellFormed = true)
    (hfresh : ∀ r ∈ s.db.adventure, r.slug ≠ slug) (hS : S.Slug = slug)
    (hn : ∀ n ∈ S.Nodes, n.ID = 0) (hl : ∀ l ∈ S.Links, l.ID = 0) :
    (SQLStore.CreateNewAdventure s viewSlug slug).2 =
        .ok { ViewSlug := viewSlug, Slug := slug, ID := s.db.adventure_seq + 1 } ∧
      (SQLStore.UpdateAdventureContent (SQLStore.CreateNewAdventure s viewSlug slug).1 S).2 =
        none ∧
      (∃ B, SQLStore.GetAdventureByID
          (SQLStore.UpdateAdventureContent (SQLStore.CreateNewAdventure s viewSlug slug).1
            S).1.db (s.db.adventure_seq + 1) = .ok B ∧
        B.ID = s.db.adventure_seq + 1 ∧ B.Slug = slug ∧ B.ViewSlug = viewSlug ∧
        B.Nodes = (newNodeRows (s.db.adventure_seq + 1) s.db.node_seq S.Nodes).map
          SQLStore.scanNode ∧
        B.Links = (newLinkRows (s.db.adventure_seq + 1) s.db.link_seq S.Links).map
          SQLStore.scanLink) ∧
      (∃ B, SQLStore.GetAdventure
          (SQLStore.UpdateAdventureContent (SQLStore.CreateNewAdventure s viewSlug slug).1
            S).1.db slug ReadWrite = .ok B ∧
        B.ID = s.db.adventure_seq + 1 ∧ B.Slug = slug ∧ B.ViewSlug = viewSlug ∧
        B.Nodes = (newNodeRows (s.db.adventure_seq + 1) s.db.node_seq S.Nodes).map
          SQLStore.scanNode ∧
        B.Links = (newLinkRows (s.db.adventure_seq + 1) s.db.link_seq S.Links).map
          SQLStore.scanLink) := by
  obtain ⟨hc2, hc1db, hc1nf⟩ := CreateNewAdventure_noFault s viewSlug slug hnf
  obtain ⟨P, hP, hPid, hPslug, hPview, hPn, hPl⟩ :=
    GetAdventure_minted s.db viewSlug slug hwf hfresh
  obtain ⟨hwa, _, _⟩ := (wellFormed_iff s.db).mp hwf
  have hP1 : SQLStore.GetAdventure (SQLStore.CreateNewAdventure s viewSlug slug).1.db S.Slug
      ReadWrite = .ok P := by
    rw [hc1db, hS]; exact hP
  obtain ⟨r1, _, _, _, r5, r6, r7, r8⟩ :=
    reconcile_all_new (SQLStore.CreateNewAdventure s viewSlug slug).1 S P hP1 hc1nf hPn hPl hn hl
  have hseqN : (SQLStore.CreateNewAdventure s viewSlug slug).1.db.node_seq = s.db.node_seq := by
    rw [hc1db]; rfl
  have hseqL : (SQLStore.CreateNewAdventure s viewSlug slug).1.db.link_seq = s.db.link_seq := by
    rw [hc1db]; rfl
  rw [hseqN, hPid] at r7
  rw [hseqL, hPid] at r8
  have hrowP : P = SQLStore.scanAdventure (applyCall s.db (.CreateNewAdventure slug viewSlug))
      slug (mintedRow (s.db.adventure_seq + 1) slug viewSlug) := by
    obtain ⟨r, hr, hPs, _⟩ := GetAdventure_ReadWrite_ok _ _ _ hP
    have hold : s.db.adventure.find? (fun r => r.slug == slug) = none := by
      rw [List.find?_eq_none]
      intro r hr
      simpa using hfresh r hr
    rw [(minted_table s.db viewSlug slug).1, List.find?_append, hold] at hr
    simp at hr
    rw [hPs, ← hr.2]
  have hmatch : scalarRow P S (mintedRow (s.db.adventure_seq + 1) slug viewSlug) =
      { mintedRow (s.db.adventure_seq + 1) slug viewSlug with
        title := some S.Title, description := some S.Description,
        category_id := some S.Category.ID, locked := S.Locked,
        cover_url := some S.CoverUrl, props := some S.Props } := by
    have h1 : P.ID = s.db.adventure_seq + 1 := hPid
    simp [scalarRow, mintedRow, h1, hPslug]
  have hfindId : (SQLStore.UpdateAdventureContent
      (SQLStore.CreateNewAdventure s viewSlug slug).1 S).1.db.adventure.find?
        (fun r => r.id == s.db.adventure_seq + 1) =
      some (scalarRow P S (mintedRow (s.db.adventure_seq + 1) slug viewSlug)) := by
    have hold : s.db.adventure.find? (fun r => r.id == s.db.adventure_seq + 1) = none := by
      rw [List.find?_eq_none]
      intro r hr
      have := hwa r hr
      simp only [beq_iff_eq]
      omega
    rw [r5, hc1db, find_id_map_scalarRow, (minted_table s.db viewSlug slug).1,
      List.find?_append, hold]
    simp [mintedRow]
  have hfindSlug : (SQLStore.UpdateAdventureContent
      (SQLStore.CreateNewAdventure s viewSlug slug).1 S).1.db.adventure.find?
        (fun r => r.slug == slug) =
      some (scalarRow P S (mintedRow (s.db.adventure_seq + 1) slug viewSlug)) := by
    have hold : s.db.adventure.find? (fun r => r.slug == slug) = none := by
      rw [List.find?_eq_none]
      intro r hr
      simpa using hfresh r hr
    rw [r5, hc1db, find_slug_map_scalarRow, (minted_table s.db viewSlug slug).1,
      List.find?_append, hold]
    simp [mintedRow]
  refine ⟨hc2, r1, ?_, ?_⟩
  · simp only [SQLStore.GetAdventureByID, hfindId, hmatch, fetchCategory_eq]
    exact ⟨_, rfl, rfl, rfl, rfl, r7, r8⟩
  · rw [GetAdventure_ReadWrite, hfindSlug, hmatch]
    exact ⟨_, rfl, rfl, rfl, rfl, r7, r8⟩

/-! ## copy -/

theorem resetNodes_spec (nodes : List Node) (slug newSlug : String) :
    (∀ n ∈ API.resetNodes nodes slug newSlug, n.ID = 0) ∧
      (API.resetNodes nodes slug newSlug).map Node.NodeID = nodes.map Node.NodeID ∧
      (API.resetNodes nodes slug newSlug).length = nodes.length := by
  refine ⟨?_, ?_, ?_⟩
  · intro n hn
    simp only [API.resetNodes, List.mem_map] at hn
    obtain ⟨m, _, rfl⟩ := hn
    rfl
  · simp [API.resetNodes, List.map_map, Function.comp]
  · simp [API.resetNodes]

theorem resetLinks_spec (links : List Link) :
    (∀ l ∈ API.resetLinks links, l.ID = 0) ∧
      (API.resetLinks links).map
          (fun l => (l.LinkID, l.SourceNodeID, l.TargetNodeID, l.LinkType)) =
        links.map (fun l => (l.LinkID, l.SourceNodeID, l.TargetNodeID, l.LinkType)) ∧
      (API.resetLinks links).length = links.length := by
  refine ⟨?_, ?_, ?_⟩
  · intro l hl
    simp only [API.resetLinks, List.mem_map] at hl
    obtain ⟨m, _, rfl⟩ := hl
    rfl
  · simp [API.resetLinks, List.map_map, Function.comp]
  · simp [API.resetLinks]

theorem scanned_new_nodes (advID seq : Int) (nodes : List Node) :
    ((newNodeRows advID seq nodes).map SQLStore.scanNode).map Node.NodeID =
        nodes.map Node.NodeID ∧
      ((newNodeRows advID seq nodes).map SQLStore.scanNode).length = nodes.length ∧
      (∀ n ∈ (newNodeRows advID seq nodes).map SQLStore.scanNode, seq < n.ID) ∧
      (((newNodeRows advID seq nodes).map SQLStore.scanNode).map Node.ID).Nodup := by
  obtain ⟨h1, h2, h3⟩ := newNodeRows_spec advID nodes seq
  refine ⟨?_, ?_, ?_, ?_⟩
  · rw [← h1, List.map_map]
    rfl
  · have := congrArg List.length h1
    simpa using this
  · intro n hn
    simp only [List.mem_map] at hn
    obtain ⟨r, hr, rfl⟩ := hn
    exact (h2 r hr).2
  · rw [List.map_map]
    exact h3

theorem scanned_new_links (advID seq : Int) (links : List Link) :
    ((newLinkRows advID seq links).map SQLStore.scanLink).map
          (fun l => (l.LinkID, l.SourceNodeID, l.TargetNodeID, l.LinkType)) =
        links.map (fun l => (l.LinkID, l.SourceNodeID, l.TargetNodeID, l.LinkType)) ∧
      ((newLinkRows advID seq links).map SQLStore.scanLink).length = links.length ∧
      (∀ l ∈ (newLinkRows advID seq links).map SQLStore.scanLink, seq < l.ID) ∧
      (((newLinkRows advID seq links).map SQLStore.scanLink).map Link.ID).Nodup := by
  obtain ⟨h1, h2, h3⟩ := newLinkRows_spec advID links seq
  refine ⟨?_, ?_, ?_, ?_⟩
  · rw [← h1, List.map_map]
    rfl
  · have := congrArg List.length h1
    simpa using this
  · intro n hn
    simp only [List.mem_map] at hn
    obtain ⟨r, hr, rfl⟩ := hn
    exact (h2 r hr).2
  · rw [List.map_map]
    exact h3

/-- The snapshot `CopyAdventureById` hands to `UpdateAdventureContent` has storage
id 0 on every node and link and the logical ids of the source (node ids; link ids with
source, target and type).  When no write fails, the tables are well-formed and the
minted edit slug is not yet an edit slug of the store, the copy answered has as many
nodes and links as the source, with the same logical ids in the same order, and
storage ids that are pairwise different, above the counters of the store, and hence
none of them a storage id of the source or of any row persisted before. -/
theorem copy_identity_fresh (s : Store) (slug viewSlug newSlug : String) (A : Adventure)
    (hA : SQLStore.GetAdventure s.db slug ReadWrite = .ok A) :
    (∀ newAdventure : Adventure,
        (∀ n ∈ (API.copySnapshot A slug newAdventure).Nodes, n.ID = 0) ∧
        (∀ l ∈ (API.copySnapshot A slug newAdventure).Links, l.ID = 0) ∧
        (API.copySnapshot A slug newAdventure).Nodes.map Node.NodeID =
          A.Nodes.map Node.NodeID ∧
        (API.copySnapshot A slug newAdventure).Links.map
            (fun l => (l.LinkID, l.SourceNodeID, l.TargetNodeID, l.LinkType)) =
          A.Links.map (fun l => (l.LinkID, l.SourceNodeID, l.TargetNodeID, l.LinkType))) ∧
      (s.noFault = true → s.db.wellFormed = true →
        (∀ r ∈ s.db.adventure, r.slug ≠ newSlug) →
        ∃ copy, (API.CopyAdventureById s slug viewSlug newSlug none).2 = .json StatusOK copy ∧
          copy.Slug = newSlug ∧ copy.ViewSlug = viewSlug ∧
          copy.Nodes.length = A.Nodes.length ∧ copy.Links.length = A.Links.length ∧
          copy.Nodes.map Node.NodeID = A.Nodes.map Node.NodeID ∧
          copy.Links.map (fun l => (l.LinkID, l.SourceNodeID, l.TargetNodeID, l.LinkType)) =
            A.Links.map (fun l => (l.LinkID, l.SourceNodeID, l.TargetNodeID, l.LinkType)) ∧
          (copy.Nodes.map Node.ID).Nodup ∧ (copy.Links.map Link.ID).Nodup ∧
          (∀ n ∈ copy.Nodes, s.db.node_seq < n.ID ∧ n.ID ∉ A.Nodes.map Node.ID ∧
            n.ID ∉ s.db.adventure_node.map NodeRow.id) ∧
          (∀ l ∈ copy.Links, s.db.link_seq < l.ID ∧ l.ID ∉ A.Links.map Link.ID ∧
            l.ID ∉ s.db.adventure_link.map LinkRow.id)) := by
  refine ⟨fun newAdventure => ?_, fun hnf hwf hfresh => ?_⟩
  · exact ⟨(resetNodes_spec A.Nodes slug newAdventure.Slug).1, (resetLinks_spec A.Links).1,
      (resetNodes_spec A.Nodes slug newAdventure.Slug).2.1, (resetLinks_spec A.Links).2.1⟩
  · obtain ⟨_, hwn, hwl⟩ := (wellFormed_iff s.db).mp hwf
    obtain ⟨hAN, hAL⟩ := fetched_content s.db slug A hA
    obtain ⟨hc, hu, ⟨B, hB, _, hBs, hBv, hBn, hBl⟩, _⟩ :=
      mint_and_reconcile s viewSlug newSlug
        (API.copySnapshot A slug { ViewSlug := viewSlug, Slug := newSlug,
                                   ID := s.db.adventure_seq + 1 })
        hnf hwf hfresh rfl (resetNodes_spec A.Nodes slug newSlug).1 (resetLinks_spec A.Links).1
    have hresp : (API.CopyAdventureById s slug viewSlug newSlug none).2 = .json StatusOK B := by
      simp only [API.CopyAdventureById, hA]
      rcases hx : SQLStore.CreateNewAdventure s viewSlug newSlug with ⟨s1, e | a⟩
      · rw [hx] at hc; cases hc
      · rw [hx] at hc hu hB
        simp only [Except.ok.injEq] at hc
        subst hc
        simp only at hu hB ⊢
        rcases hy : SQLStore.UpdateAdventureContent s1
          (API.copySnapshot A slug { ViewSlug := viewSlug, Slug := newSlug,
                                     ID := s.db.adventure_seq + 1 }) with ⟨s2, _ | err⟩
        · rw [hy] at hB
          simp only at hB ⊢
          rw [hB]
        · rw [hy] at hu
          cases hu
    obtain ⟨n1, n2, n3, n4⟩ := scanned_new_nodes (s.db.adventure_seq + 1) s.db.node_seq
      (API.resetNodes A.Nodes slug newSlug)
    obtain ⟨l1, l2, l3, l4⟩ := scanned_new_links (s.db.adventure_seq + 1) s.db.link_seq
      (API.resetLinks A.Links)
    have hBn2 : B.Nodes = (newNodeRows (s.db.adventure_seq + 1) s.db.node_seq
        (API.resetNodes A.Nodes slug newSlug)).map SQLStore.scanNode := hBn
    have hBl2 : B.Links = (newLinkRows (s.db.adventure_seq + 1) s.db.link_seq
        (API.resetLinks A.Links)).map SQLStore.scanLink := hBl
    refine ⟨B, hresp, hBs, hBv, ?_, ?_, ?_, ?_, ?_, ?_, ?_, ?_⟩
    · rw [hBn2, n2, (resetNodes_spec A.Nodes slug newSlug).2.2]
    · rw [hBl2, l2, (resetLinks_spec A.Links).2.2]
    · rw [hBn2, n1, (resetNodes_spec A.Nodes slug newSlug).2.1]
    · rw [hBl2, l1, (resetLinks_spec A.Links).2.1]
    · rw [hBn2]; exact n4
    · rw [hBl2]; exact l4
    · intro n hn
      rw [hBn2] at hn
      have hlt := n3 n hn
      have hold : n.ID ∉ s.db.adventure_node.map NodeRow.id := by
        intro hmem
        simp only [List.mem_map] at hmem
        obtain ⟨r, hr, he⟩ := hmem
        have := (hwn r hr).1
        omega
      refine ⟨hlt, ?_, hold⟩
      intro hmem
      apply hold
      rw [hAN] at hmem
      simp only [SQLStore.GetNodesByAdventureID, List.map_map, List.mem_map,
        List.mem_filter] at hmem
      obtain ⟨r, ⟨hr, _⟩, he⟩ := hmem
      exact List.mem_map.mpr ⟨r, hr, he⟩
    · intro l hl
      rw [hBl2] at hl
      have hlt := l3 l hl
      have hold : l.ID ∉ s.db.adventure_link.map LinkRow.id := by
        intro hmem
        simp only [List.mem_map] at hmem
        obtain ⟨r, hr, he⟩ := hmem
        have := (hwl r hr).1
        omega
      refine ⟨hlt, ?_, hold⟩
      intro hmem
      apply hold
      rw [hAL] at hmem
      simp only [SQLStore.GetLinksByAdventureID, List.map_map, List.mem_map,
        List.mem_filter] at hmem
      obtain ⟨r, ⟨hr, _⟩, he⟩ := hmem
      exact List.mem_map.mpr ⟨r, hr, he⟩

/-- At the sample store: the open adventure (nodes with storage ids 1, 2, 3 and
logical ids 0, 1, 2) copied under freshly minted slugs. -/
theorem copy_identity_fresh_demo :
    SQLStore.GetAdventure demoStore.db "edit0001" ReadWrite = .ok demoAdventure ∧
      demoStore.noFault = true ∧ demoStore.db.wellFormed = true ∧
      (∀ r ∈ demoStore.db.adventure, r.slug ≠ mintedSlug) ∧
      ∃ copy, (API.CopyAdventureById demoStore "edit0001" mintedViewSlug mintedSlug none).2 =
          .json StatusOK copy ∧
        copy.Slug = mintedSlug ∧ copy.ViewSlug = mintedViewSlug ∧
        copy.Nodes.length = demoAdventure.Nodes.length ∧
        copy.Links.length = demoAdventure.Links.length ∧
        copy.Nodes.map Node.NodeID = demoAdventure.Nodes.map Node.NodeID ∧
        copy.Links.map (fun l => (l.LinkID, l.SourceNodeID, l.TargetNodeID, l.LinkType)) =
          demoAdventure.Links.map
            (fun l => (l.LinkID, l.SourceNodeID, l.TargetNodeID, l.LinkType)) ∧
        (copy.Nodes.map Node.ID).Nodup ∧ (copy.Links.map Link.ID).Nodup ∧
        (∀ n ∈ copy.Nodes, demoStore.db.node_seq < n.ID ∧
          n.ID ∉ demoAdventure.Nodes.map Node.ID ∧
          n.ID ∉ demoStore.db.adventure_node.map NodeRow.id) ∧
        (∀ l ∈ copy.Links, demoStore.db.link_seq < l.ID ∧
          l.ID ∉ demoAdventure.Links.map Link.ID ∧
          l.ID ∉ demoStore.db.adventure_link.map LinkRow.id) :=
  ⟨rfl, rfl, rfl, by decide,
    (copy_identity_fresh demoStore "edit0001" mintedViewSlug mintedSlug demoAdventure rfl).2
      rfl rfl (by decide)⟩

/-- The copy of the sample adventure, evaluated: storage ids 5, 6, 7 for the nodes
with logical ids 0, 1, 2, and 3, 4 for the two links. -/
theorem copy_demo_ids :
    ∃ copy, (API.CopyAdventureById demoStore "edit0001" mintedViewSlug mintedSlug none).2 =
        .json StatusOK copy ∧
      copy.Nodes.map (fun n => (n.ID, n.NodeID)) = [(5, 0), (6, 1), (7, 2)] ∧
      copy.Links.map (fun l => (l.ID, l.LinkID, l.SourceNodeID, l.TargetNodeID)) =
        [(3, 1, 0, 1), (4, 2, 0, 2)] ∧
      copy.Title = "Copy of Cave" :=
  ⟨_, rfl, rfl, rfl, rfl⟩

/-! ## round trip of an export through the import -/

theorem HasSuffix_append (s suffix : String) : strings.HasSuffix (s ++ suffix) suffix = true := by
  simp only [strings.HasSuffix, String.data_append, List.isSuffixOf_iff_suffix]
  exact List.suffix_append _ _

/-- A successful export starts with the snapshot entry. -/
theorem CreateExportZip_ok (db : DB) (env : ExportEnv) (json : JSON) (slug : String)
    (A : Adventure) (files : List ZipFile)
    (hA : SQLStore.GetAdventure db slug Ignore = .ok A)
    (hE : API.CreateExportZip db env json slug = .ok files) :
    ∃ rest, files = { Name := "PSadventure_" ++ slug ++ ".json",
                      Json := some (jsonSnapshot A) } :: rest := by
  simp only [API.CreateExportZip, hA] at hE
  split at hE
  · cases hE
  · split at hE
    · cases hE
    · split at hE
      · cases hE
      · simp only [Except.ok.injEq] at hE
        exact ⟨_, hE.symm⟩

/-- The import of an archive whose first `.json` entry decodes to `payload`, on
well-formed tables without the minted edit slug and without a failing write. -/
theorem import_ok (s : Store) (dest : String) (failing : List String) (files : List ZipFile)
    (viewSlug newSlug : String) (file : ZipFile) (payload : Adventure)
    (hfile : files.find? (fun f => strings.HasSuffix f.Name ".json") = some file)
    (hopen : file.OpenFails = false) (hjson : file.Json = some payload)
    (hnf : s.noFault = true) (hwf : s.db.wellFormed = true)
    (hfresh : ∀ r ∈ s.db.adventure, r.slug ≠ newSlug) :
    (API.ImportAdventure s dest failing (.archive files) viewSlug newSlug).2.2 =
        .json StatusOK (API.importSnapshot payload
          { ViewSlug := viewSlug, Slug := newSlug, ID := s.db.adventure_seq + 1 }) ∧
      ∃ B, SQLStore.GetAdventure
          (API.ImportAdventure s dest failing (.archive files) viewSlug newSlug).1.db newSlug
          ReadWrite = .ok B ∧
        B.ID = s.db.adventure_seq + 1 ∧ B.Slug = newSlug ∧ B.ViewSlug = viewSlug ∧
        B.Nodes = (newNodeRows (s.db.adventure_seq + 1) s.db.node_seq
          (API.resetNodes payload.Nodes payload.Slug newSlug)).map SQLStore.scanNode ∧
        B.Links = (newLinkRows (s.db.adventure_seq + 1) s.db.link_seq
          (API.resetLinks payload.Links)).map SQLStore.scanLink := by
  obtain ⟨hc, hu, _, ⟨B, hB, hBi, hBs, hBv, hBn, hBl⟩⟩ :=
    mint_and_reconcile s viewSlug newSlug
      (API.importSnapshot payload { ViewSlug := viewSlug, Slug := newSlug,
                                    ID := s.db.adventure_seq + 1 })
      hnf hwf hfresh rfl (resetNodes_spec payload.Nodes payload.Slug newSlug).1
      (resetLinks_spec payload.Links).1
  simp only [API.ImportAdventure, hfile, hopen, hjson]
  rcases hx : SQLStore.CreateNewAdventure s viewSlug newSlug with ⟨s1, e | a⟩
  · rw [hx] at hc; cases hc
  · rw [hx] at hc hu hB
    simp only [Except.ok.injEq] at hc
    subst hc
    simp only at hu hB ⊢
    rcases hy : SQLStore.UpdateAdventureContent s1
      (API.importSnapshot payload { ViewSlug := viewSlug, Slug := newSlug,
                                    ID := s.db.adventure_seq + 1 }) with ⟨s2, _ | err⟩
    · rw [hy] at hB
      simp only [Bool.false_eq_true, if_false] at hB ⊢
      exact ⟨trivial, B, hB, hBi, hBs, hBv, hBn, hBl⟩
    · rw [hy] at hu
      cases hu

/-- Let `files` be the archive `CreateExportZip` writes for the persisted
adventure A.  Imported on well-formed tables that do not hold the minted edit slug,
and without a failing write, it is answered 200 and the minted edit slug then resolves
to a new adventure with as many nodes and links as A, the same logical node ids and
the same (link id, source, target, type) tuples, in the same order. -/
theorem round_trip_fresh (s : Store) (env : ExportEnv) (json : JSON)
    (slug dest : String) (failing : List String) (viewSlug newSlug : String)
    (A : Adventure) (files : List ZipFile)
    (hA : SQLStore.GetAdventure s.db slug Ignore = .ok A)
    (hE : API.CreateExportZip s.db env json slug = .ok files)
    (hnf : s.noFault = true) (hwf : s.db.wellFormed = true)
    (hfresh : ∀ r ∈ s.db.adventure, r.slug ≠ newSlug) :
    (API.ImportAdventure s dest failing (.archive files) viewSlug newSlug).2.2.code = StatusOK ∧
      ∃ B, SQLStore.GetAdventure
          (API.ImportAdventure s dest failing (.archive files) viewSlug newSlug).1.db newSlug
          ReadWrite = .ok B ∧
        B.ID = s.db.adventure_seq + 1 ∧
        B.Nodes.length = A.Nodes.length ∧ B.Links.length = A.Links.length ∧
        B.Nodes.map Node.NodeID = A.Nodes.map Node.NodeID ∧
        B.Links.map (fun l => (l.LinkID, l.SourceNodeID, l.TargetNodeID, l.LinkType)) =
          A.Links.map (fun l => (l.LinkID, l.SourceNodeID, l.TargetNodeID, l.LinkType)) := by
  obtain ⟨rest, hfiles⟩ := CreateExportZip_ok s.db env json slug A files hA hE
  have hfind : files.find? (fun f => strings.HasSuffix f.Name ".json") =
      some { Name := "PSadventure_" ++ slug ++ ".json", Json := some (jsonSnapshot A) } := by
    rw [hfiles, List.find?_cons]
    simp only [HasSuffix_append]
  obtain ⟨hresp, B, hB, hBi, _, _, hBn, hBl⟩ :=
    import_ok s dest failing files viewSlug newSlug _ (jsonSnapshot A) hfind rfl rfl hnf hwf hfresh
  have hjn : (jsonSnapshot A).Nodes.map Node.NodeID = A.Nodes.map Node.NodeID := by
    simp [jsonSnapshot, List.map_map, Function.comp]
  have hjl : (jsonSnapshot A).Links.map
      (fun l => (l.LinkID, l.SourceNodeID, l.TargetNodeID, l.LinkType)) =
      A.Links.map (fun l => (l.LinkID, l.SourceNodeID, l.TargetNodeID, l.LinkType)) := by
    simp [jsonSnapshot, List.map_map, Function.comp]
  obtain ⟨n1, n2, _, _⟩ := scanned_new_nodes (s.db.adventure_seq + 1) s.db.node_seq
    (API.resetNodes (jsonSnapshot A).Nodes (jsonSnapshot A).Slug newSlug)
  obtain ⟨l1, l2, _, _⟩ := scanned_new_links (s.db.adventure_seq + 1) s.db.link_seq
    (API.resetLinks (jsonSnapshot A).Links)
  refine ⟨by rw [hresp]; rfl, B, hB, hBi, ?_, ?_, ?_, ?_⟩
  · rw [hBn, n2, (resetNodes_spec _ _ _).2.2]
    simp [jsonSnapshot]
  · rw [hBl, l2, (resetLinks_spec _).2.2]
    simp [jsonSnapshot]
  · rw [hBn, n1, (resetNodes_spec _ _ _).2.1, hjn]
  · rw [hBl, l1, (resetLinks_spec _).2.1, hjl]

/-- At the sample store: the open adventure (logical nodes 0, 1, 2; bidirectional
links 0 -> 1 and 0 -> 2) exported and imported again: the import has 3 nodes and 2
links with that topology, under storage ids 5, 6, 7 and 3, 4. -/
theorem round_trip_fresh_demo :
    ∃ files, API.CreateExportZip demoStore.db {} demoJSON "edit0001" = .ok files ∧
      SQLStore.GetAdventure demoStore.db "edit0001" Ignore = .ok demoAdventure ∧
      demoStore.noFault = true ∧ demoStore.db.wellFormed = true ∧
      (∀ r ∈ demoStore.db.adventure, r.slug ≠ mintedSlug) ∧
      ((API.ImportAdventure demoStore demoUploadPath [] (.archive files) mintedViewSlug
          mintedSlug).2.2.code = StatusOK ∧
        ∃ B, SQLStore.GetAdventure
            (API.ImportAdventure demoStore demoUploadPath [] (.archive files) mintedViewSlug
              mintedSlug).1.db mintedSlug ReadWrite = .ok B ∧
          B.ID = demoStore.db.adventure_seq + 1 ∧
          B.Nodes.length = demoAdventure.Nodes.length ∧
          B.Links.length = demoAdventure.Links.length ∧
          B.Nodes.map Node.NodeID = demoAdventure.Nodes.map Node.NodeID ∧
          B.Links.map (fun l => (l.LinkID, l.SourceNodeID, l.TargetNodeID, l.LinkType)) =
            demoAdventure.Links.map
              (fun l => (l.LinkID, l.SourceNodeID, l.TargetNodeID, l.LinkType))) :=
  ⟨_, rfl, rfl, rfl, rfl, by decide,
    round_trip_fresh demoStore {} demoJSON "edit0001" demoUploadPath []
      mintedViewSlug mintedSlug demoAdventure _ rfl rfl rfl rfl (by decide)⟩

/-- The round trip of the sample adventure, evaluated. -/
theorem round_trip_demo :
    ∃ files B, API.CreateExportZip demoStore.db {} demoJSON "edit0001" = .ok files ∧
      SQLStore.GetAdventure
        (API.ImportAdventure demoStore demoUploadPath [] (.archive files) mintedViewSlug
          mintedSlug).1.db mintedSlug ReadWrite = .ok B ∧
      B.Nodes.map (fun n => (n.ID, n.NodeID, n.NodeType)) =
        [(5, 0, "root"), (6, 1, ""), (7, 2, "")] ∧
      B.Links.map (fun l => (l.ID, l.SourceNodeID, l.TargetNodeID, l.LinkType)) =
        [(3, 0, 1, "bidirectional"), (4, 0, 2, "bidirectional")] :=
  ⟨_, _, rfl, rfl, rfl, rfl⟩

/-! ## export: the asset set -/

theorem mem_fileMapSet (fileMap : List String) (key x : String) :
    x ∈ API.fileMapSet fileMap key ↔ x ∈ fileMap ∨ x = key := by
  unfold API.fileMapSet
  split
  · constructor
    · exact Or.inl
    · rintro (h | rfl)
      · exact h
      · assumption
  · simp

theorem mem_foldl_fileMapSet (keys fileMap : List String) (x : String) :
    x ∈ keys.foldl API.fileMapSet fileMap ↔ x ∈ fileMap ∨ x ∈ keys := by
  induction keys generalizing fileMap with
  | nil => simp
  | cons k ks ih =>
    simp only [List.foldl_cons, ih, mem_fileMapSet, List.mem_cons]
    tauto

theorem mem_foldl_manifest (names fileMap : List String) (x : String) :
    x ∈ names.foldl (fun fileMap fileName => API.fileMapSet fileMap ("/web/" ++ fileName))
        fileMap ↔
      x ∈ fileMap ∨ x ∈ names.map (fun fileName => "/web/" ++ fileName) := by
  induction names generalizing fileMap with
  | nil => simp
  | cons k ks ih =>
    simp only [List.foldl_cons, ih, mem_fileMapSet, List.map_cons, List.mem_cons]
    tauto

/-- Each URL of the props after `Unmarshal` is set by the document or was there
before. -/
theorem Unmarshal_fields (json : JSON) (node : Node) (props : Props) (x : String)
    (h : x = (json.Unmarshal node.Props props).AudioUrl ∨
      x = (json.Unmarshal node.Props props).AudioUrlAlt ∨
      x = (json.Unmarshal node.Props props).SubtitlesUrl) :
    json.sets node x ∨ x = props.AudioUrl ∨ x = props.AudioUrlAlt ∨ x = props.SubtitlesUrl := by
  simp only [JSON.Unmarshal, JSON.sets] at h ⊢
  rcases h with h | h | h
  · cases hp : (json.nodeProps node.Props).AudioUrl with
    | none => rw [hp] at h; exact Or.inr (Or.inl h)
    | some v => rw [hp] at h; exact Or.inl (Or.inl (by rw [h]; rfl))
  · cases hp : (json.nodeProps node.Props).AudioUrlAlt with
    | none => rw [hp] at h; exact Or.inr (Or.inr (Or.inl h))
    | some v => rw [hp] at h; exact Or.inl (Or.inr (Or.inl (by rw [h]; rfl)))
  · cases hp : (json.nodeProps node.Props).SubtitlesUrl with
    | none => rw [hp] at h; exact Or.inr (Or.inr (Or.inr h))
    | some v => rw [hp] at h; exact Or.inl (Or.inr (Or.inr (by rw [h]; rfl)))

/-- A URL the document sets is a URL of the props after `Unmarshal`. -/
theorem sets_Unmarshal (json : JSON) (node : Node) (props : Props) (x : String)
    (h : json.sets node x) :
    x = (json.Unmarshal node.Props props).AudioUrl ∨
      x = (json.Unmarshal node.Props props).AudioUrlAlt ∨
      x = (json.Unmarshal node.Props props).SubtitlesUrl := by
  simp only [JSON.Unmarshal, JSON.sets] at h ⊢
  rcases h with h | h | h
  · exact Or.inl (by rw [h]; rfl)
  · exact Or.inr (Or.inl (by rw [h]; rfl))
  · exact Or.inr (Or.inr (by rw [h]; rfl))

theorem collectNodes_mono (json : JSON) (props : Props) (fileMap : List String)
    (nodes : List Node) (x : String) (h : x ∈ fileMap) :
    x ∈ API.collectNodes json props fileMap nodes := by
  induction nodes generalizing props fileMap with
  | nil => exact h
  | cons n ns ih =>
    simp only [API.collectNodes]
    apply ih
    simp only [mem_fileMapSet]
    exact Or.inl (Or.inl (Or.inl (Or.inl h)))

theorem collectNodes_sound (json : JSON) (props : Props) (fileMap : List String)
    (nodes : List Node) (x : String) (h : x ∈ API.collectNodes json props fileMap nodes) :
    x ∈ fileMap ∨ (x = props.AudioUrl ∨ x = props.AudioUrlAlt ∨ x = props.SubtitlesUrl) ∨
      ∃ n ∈ nodes, x = n.ImageURL ∨ json.sets n x := by
  induction nodes generalizing props fileMap with
  | nil => exact Or.inl h
  | cons n ns ih =>
    simp only [API.collectNodes] at h
    rcases ih _ _ h with h1 | h1 | ⟨m, hm, h1⟩
    · simp only [mem_fileMapSet] at h1
      rcases h1 with (((h1 | h1) | h1) | h1) | h1
      · exact Or.inl h1
      · exact Or.inr (Or.inr ⟨n, List.mem_cons_self _ _, Or.inl h1⟩)
      · rcases Unmarshal_fields json n props x (Or.inl h1) with h2 | h2
        · exact Or.inr (Or.inr ⟨n, List.mem_cons_self _ _, Or.inr h2⟩)
        · exact Or.inr (Or.inl h2)
      · rcases Unmarshal_fields json n props x (Or.inr (Or.inl h1)) with h2 | h2
        · exact Or.inr (Or.inr ⟨n, List.mem_cons_self _ _, Or.inr h2⟩)
        · exact Or.inr (Or.inl h2)
      · rcases Unmarshal_fields json n props x (Or.inr (Or.inr h1)) with h2 | h2
        · exact Or.inr (Or.inr ⟨n, List.mem_cons_self _ _, Or.inr h2⟩)
        · exact Or.inr (Or.inl h2)
    · rcases Unmarshal_fields json n props x h1 with h2 | h2
      · exact Or.inr (Or.inr ⟨n, List.mem_cons_self _ _, Or.inr h2⟩)
      · exact Or.inr (Or.inl h2)
    · exact Or.inr (Or.inr ⟨m, List.mem_cons_of_mem _ hm, h1⟩)

theorem collectNodes_complete (json : JSON) (props : Props) (fileMap : List String)
    (nodes : List Node) (x : String) (n : Node) (hn : n ∈ nodes)
    (h : x = n.ImageURL ∨ json.sets n x) :
    x ∈ API.collectNodes json props fileMap nodes := by
  induction nodes generalizing props fileMap with
  | nil => cases hn
  | cons m ms ih =>
    simp only [API.collectNodes]
    rcases List.mem_cons.mp hn with rfl | hn2
    · apply collectNodes_mono
      simp only [mem_fileMapSet]
      rcases h with h | h
      · exact Or.inl (Or.inl (Or.inl (Or.inr h)))
      · rcases sets_Unmarshal json n props x h with h2 | h2 | h2
        · exact Or.inl (Or.inl (Or.inr h2))
        · exact Or.inl (Or.inr h2)
        · exact Or.inr h2
    · exact ih _ _ hn2

/-- C19: a non-empty string is a key of the asset set exactly when it is the cover
URL, the image URL of a node, a URL that a node's own props document sets (audio,
alternate audio or subtitles), a font URL of the adventure's props, or a key of the
fixed manifest of ten files; and for cover URL `/upload/x/c.jpg`, one node with image
URL `/upload/x/n.jpg` and empty props, and no fonts, the set is those two URLs
followed by the manifest. -/
theorem C19_asset_set (json : JSON) (adventureModel : Adventure) :
    (∀ x : String, x ≠ "" →
      (x ∈ API.assetSet json adventureModel ↔
        x = adventureModel.CoverUrl ∨
        (∃ n ∈ adventureModel.Nodes, x = n.ImageURL ∨ json.sets n x) ∨
        x ∈ json.fontList adventureModel.Props ∨
        x ∈ API.manifestKeys)) ∧
      API.manifestKeys.length = 10 ∧
      (∀ node : Node, adventureModel.CoverUrl = "/upload/x/c.jpg" →
        adventureModel.Nodes = [node] → node.ImageURL = "/upload/x/n.jpg" →
        node.Props = "" → json.nodeProps "" = {} → json.fontList adventureModel.Props = [] →
        API.assetSet json adventureModel =
          "/upload/x/c.jpg" :: "/upload/x/n.jpg" :: API.manifestKeys) := by
  refine ⟨fun x hx => ?_, rfl, ?_⟩
  · simp only [API.assetSet, mem_foldl_manifest, mem_foldl_fileMapSet, List.mem_filter,
      bne_iff_ne, ne_eq, hx, not_false_eq_true, and_true, API.manifestKeys]
    constructor
    · rintro ((h | h) | h)
      · rcases collectNodes_sound json {} _ _ x h with h1 | h1 | h1
        · simp only [mem_fileMapSet, List.not_mem_nil, false_or] at h1
          exact Or.inl h1
        · rcases h1 with h1 | h1 | h1 <;> exact absurd h1 hx
        · exact Or.inr (Or.inl h1)
      · exact Or.inr (Or.inr (Or.inl h))
      · exact Or.inr (Or.inr (Or.inr h))
    · rintro (h | ⟨n, hn, h⟩ | h | h)
      · exact Or.inl (Or.inl (collectNodes_mono json {} _ _ x
          (by simp only [mem_fileMapSet]; exact Or.inr h)))
      · exact Or.inl (Or.inl (collectNodes_complete json {} _ _ x n hn h))
      · exact Or.inl (Or.inr h)
      · exact Or.inr h
  · intro node hc hn hi hp hj hf
    simp only [API.assetSet, hc, hn, API.collectNodes, hi, hp, hf, JSON.Unmarshal, hj,
      List.foldl_nil]
    decide

/-- C19, at a sample: the set for the adventure of the claim, and for a node whose
props document sets an audio URL. -/
theorem C19_asset_set_witness :
    API.assetSet demoJSON
        { CoverUrl := "/upload/x/c.jpg", Nodes := [ { ImageURL := "/upload/x/n.jpg" } ] } =
        "/upload/x/c.jpg" :: "/upload/x/n.jpg" :: API.manifestKeys ∧
      ("/upload/x/a.mp3" ∈ API.assetSet demoJSON
        { CoverUrl := "/upload/x/c.jpg",
          Nodes := [ { ImageURL := "/upload/x/n.jpg",
                       Props := "\x7b\"audio_url\":\"/upload/x/a.mp3\"\x7d" } ] }) :=
  ⟨(C19_asset_set demoJSON
      { CoverUrl := "/upload/x/c.jpg", Nodes := [ { ImageURL := "/upload/x/n.jpg" } ] }).2.2
      { ImageURL := "/upload/x/n.jpg" } rfl rfl rfl rfl rfl rfl,
    ((C19_asset_set demoJSON
      { CoverUrl := "/upload/x/c.jpg",
        Nodes := [ { ImageURL := "/upload/x/n.jpg",
                     Props := "\x7b\"audio_url\":\"/upload/x/a.mp3\"\x7d" } ] }).1
      "/upload/x/a.mp3" (by decide)).mpr
      (Or.inr (Or.inl ⟨_, List.mem_singleton.mpr rfl, Or.inr (Or.inl rfl)⟩))⟩

/-- The empty string is a key of the asset set exactly when the font list holds it. -/
theorem assetSet_empty_iff (json : JSON) (adventureModel : Adventure) :
    "" ∈ API.assetSet json adventureModel ↔ "" ∈ json.fontList adventureModel.Props := by
  simp only [API.assetSet, mem_foldl_manifest, mem_foldl_fileMapSet, List.mem_filter,
    bne_self_eq_false, Bool.false_eq_true, and_false, false_or]
  constructor
  · rintro (h | h)
    · exact h
    · exact absurd h (by decide)
  · exact Or.inl

/-! ## `strings.Replace` on values that hold the slug as a path element -/

namespace strings

theorem Contains_iff (s substr : String) :
    Contains s substr = true ↔ substr.data <:+: s.data := by
  simp only [Contains, List.any_eq_true, List.mem_tails, List.isPrefixOf_iff_prefix]
  rw [List.infix_iff_prefix_suffix]
  constructor
  · rintro ⟨t, h1, h2⟩; exact ⟨t, h2, h1⟩
  · rintro ⟨t, h1, h2⟩; exact ⟨t, h2, h1⟩

theorem Contains_eq_false (s substr : String) :
    Contains s substr = false ↔ ¬ substr.data <:+: s.data := by
  rw [← Contains_iff]; simp

theorem replaceLoop_skip (old new : List Char) (n : Nat) (x y : List Char) :
    replaceLoop old new n x.length (x ++ y) = replaceLoop old new n 0 y := by
  induction x with
  | nil => simp
  | cons c cs ih => simpa [replaceLoop] using ih

theorem replaceLoop_zero (old new t : List Char) : replaceLoop old new 0 0 t = t := by
  cases t <;> simp [replaceLoop]

theorem replaceLoop_match (old new : List Char) (n : Nat) (t : List Char) (h : old ≠ []) :
    replaceLoop old new (n + 1) 0 (old ++ t) = new ++ replaceLoop old new n 0 t := by
  obtain ⟨o, os, rfl⟩ := List.exists_cons_of_ne_nil h
  have hp : (o :: os).isPrefixOf (o :: (os ++ t)) = true := by
    rw [List.isPrefixOf_iff_prefix]
    exact List.prefix_append (o :: os) t
  show replaceLoop (o :: os) new (n + 1) 0 (o :: (os ++ t)) = _
  rw [replaceLoop, if_pos hp]
  simp only [List.length_cons, Nat.add_sub_cancel]
  rw [replaceLoop_skip]

theorem replaceLoop_scan (old new : List Char) (n : Nat) (u rest : List Char)
    (h : ∀ u1 c u2, u = u1 ++ c :: u2 → old.isPrefixOf (c :: u2 ++ rest) = false) :
    replaceLoop old new (n + 1) 0 (u ++ rest) = u ++ replaceLoop old new (n + 1) 0 rest := by
  induction u with
  | nil => rfl
  | cons c cs ih =>
    have h0 := h [] c cs rfl
    simp only [List.cons_append] at h0 ⊢
    simp only [replaceLoop, h0, Bool.false_eq_true, if_false]
    rw [ih (fun u1 d u2 e => h (c :: u1) d u2 (by simp [e]))]

theorem replaceLoop_none (old new : List Char) (n : Nat) (t : List Char)
    (h : ¬ old <:+: t) : replaceLoop old new n 0 t = t := by
  cases n with
  | zero => exact replaceLoop_zero old new t
  | succ n =>
    have := replaceLoop_scan old new n t [] (by
      intro u1 c u2 e
      cases hb : old.isPrefixOf (c :: u2 ++ []) with
      | false => rfl
      | true =>
        exfalso
        rw [List.isPrefixOf_iff_prefix, List.append_nil] at hb
        obtain ⟨w, hw⟩ := hb
        exact h ⟨u1, w, by rw [e, ← hw]; simp⟩)
    simpa [replaceLoop] using this

theorem infix_slash (old x y : List Char) (hs : '/' ∉ old) (h : old <:+: x ++ '/' :: y) :
    old <:+: x ∨ old <:+: y := by
  obtain ⟨s, t, e⟩ := h
  rw [List.append_assoc, List.append_eq_append_iff] at e
  rcases e with ⟨a, rfl, e2⟩ | ⟨c, rfl, e2⟩
  · -- old ++ t = a ++ '/' :: y
    rw [List.append_eq_append_iff] at e2
    rcases e2 with ⟨b, rfl, _⟩ | ⟨b, rfl, e3⟩
    · exact Or.inl ⟨s, b, by simp⟩
    · cases b with
      | nil => exact Or.inl ⟨s, [], by simp⟩
      | cons d b =>
        simp only [List.cons_append, List.cons.injEq] at e3
        exact absurd (by rw [← e3.1]; simp) hs
  · -- '/' :: y = c ++ (old ++ t), x ++ c = s
    cases c with
    | nil =>
      cases old with
      | nil => exact Or.inl ⟨x, [], by simp⟩
      | cons o os =>
        simp only [List.nil_append, List.cons_append, List.cons.injEq] at e2
        exact absurd (by rw [← e2.1]; simp) hs
    | cons d c =>
      simp only [List.cons_append, List.cons.injEq] at e2
      exact Or.inr ⟨c, t, by rw [e2.2]; simp⟩

theorem no_start_of_delimited (old g rest : List Char) (hs : '/' ∉ old) (hg : ¬ old <:+: g) :
    ∀ u1 c u2, g ++ ['/'] = u1 ++ c :: u2 → old.isPrefixOf (c :: u2 ++ rest) = false := by
  intro u1 c u2 e
  cases hb : old.isPrefixOf (c :: u2 ++ rest) with
  | false => rfl
  | true =>
    exfalso
    rw [List.isPrefixOf_iff_prefix] at hb
    have hlast : ∃ v, c :: u2 = v ++ ['/'] ∧ g = u1 ++ v := by
      rcases List.eq_nil_or_concat (c :: u2) with h | ⟨v, x, h⟩
      · exact absurd h (by simp)
      · rw [List.concat_eq_append] at h
        rw [h, ← List.append_assoc] at e
        have h1 := List.append_inj_right' e rfl
        have h2 := List.append_inj_left' e rfl
        simp only [List.cons.injEq, and_true] at h1
        exact ⟨v, by rw [h, ← h1], h2⟩
    obtain ⟨v, hv, hgv⟩ := hlast
    rcases List.prefix_or_prefix_of_prefix hb (List.prefix_append (c :: u2) rest) with h | h
    · -- old is an initial piece of v ++ "/"
      rw [hv] at h
      obtain ⟨w, hw⟩ := h
      rcases List.eq_nil_or_concat w with hnil | ⟨w1, x, hx⟩
      · subst hnil
        rw [List.append_nil] at hw
        exact hs (by rw [hw]; simp)
      · rw [List.concat_eq_append] at hx
        subst hx
        rw [← List.append_assoc] at hw
        have h2 := List.append_inj_left' hw rfl
        exact hg ⟨u1, w1, by rw [hgv, ← h2]; simp⟩
    · obtain ⟨w, hw⟩ := h
      exact hs (by rw [← hw, hv]; simp)

theorem delimited_cons (old : List Char) (c : Char) (g : List Char) (gs : List (List Char)) :
    delimited old (c :: g) gs = c :: delimited old g gs := by
  cases gs <;> rfl

theorem length_delimited (old : List Char) (gs : List (List Char)) :
    ∀ g, gs.length ≤ (delimited old g gs).length := by
  induction gs with
  | nil => intro g; simp
  | cons g1 gs ih =>
    intro g
    have := ih g1
    simp only [delimited, List.length_cons, List.length_append]
    omega

theorem replaceLoop_delimited (old new : List Char) (hs : '/' ∉ old) (h0 : old ≠ []) :
    ∀ (gs : List (List Char)) (g : List Char) (n : Nat), gs.length ≤ n → ¬ old <:+: g →
      (∀ x ∈ gs, ¬ old <:+: x) →
      replaceLoop old new n 0 (delimited old g gs) = delimited new g gs := by
  intro gs
  induction gs with
  | nil => intro g n _ hg _; exact replaceLoop_none old new n g hg
  | cons g1 gs ih =>
    intro g n hn hg hgs
    obtain ⟨m, rfl⟩ : ∃ m, n = m + 1 := ⟨n - 1, by simp at hn; omega⟩
    have hsplit : delimited old g (g1 :: gs) =
        (g ++ ['/']) ++ (old ++ '/' :: delimited old g1 gs) := by
      simp [delimited]
    rw [hsplit, replaceLoop_scan old new m (g ++ ['/']) _
      (no_start_of_delimited old g _ hs hg), replaceLoop_match old new m _ h0,
      ← delimited_cons, ih ('/' :: g1) m (by simp at hn; omega) _
        (fun x hx => hgs x (List.mem_cons_of_mem _ hx)), delimited_cons]
    · simp [delimited]
    · intro h
      rcases infix_slash old [] g1 hs (by simpa using h) with h1 | h1
      · exact h0 (List.eq_nil_of_infix_nil h1)
      · exact hgs g1 (List.mem_cons_self _ _) h1

theorem not_infix_delimited (old new : List Char) (hs : '/' ∉ old) (hn : ¬ old <:+: new) :
    ∀ (gs : List (List Char)) (g : List Char), ¬ old <:+: g → (∀ x ∈ gs, ¬ old <:+: x) →
      ¬ old <:+: delimited new g gs := by
  intro gs
  induction gs with
  | nil => intro g hg _; exact hg
  | cons g1 gs ih =>
    intro g hg hgs h
    rcases infix_slash old g _ hs h with h1 | h1
    · exact hg h1
    · rcases infix_slash old new _ hs h1 with h2 | h2
      · exact hn h2
      · exact ih g1 (hgs g1 (List.mem_cons_self _ _))
          (fun x hx => hgs x (List.mem_cons_of_mem _ hx)) h2

/-- Replacing the slug `old`, at most `n` times and at least as often as it occurs, in a
value that holds it only as a path element: every instance becomes `new`, and the
result does not contain `old` when `new` does not. -/
theorem Replace_delimited (v old new : String) (n : Int) (g : List Char)
    (gs : List (List Char)) (hs : '/' ∉ old.data) (h0 : old ≠ "")
    (hnew : Contains new old = false) (hv : v.data = delimited old.data g gs)
    (hg : Contains (String.mk g) old = false)
    (hgs : ∀ x ∈ gs, Contains (String.mk x) old = false)
    (hn : n < 0 ∨ (gs.length : Int) ≤ n ∧ n ≠ 0) :
    Replace v old new n = String.mk (delimited new.data g gs) ∧
      Contains (Replace v old new n) old = false := by
  rw [Contains_eq_false] at hnew hg
  have hgs1 : ∀ x ∈ gs, ¬ old.data <:+: x := fun x hx => (Contains_eq_false _ _).mp (hgs x hx)
  have hne : old ≠ new := by
    intro e; rw [e] at hnew; exact hnew List.infix_rfl
  have hd : old.data ≠ [] := by
    intro e; apply h0; cases old; simp_all
  have hn0 : n ≠ 0 := by rcases hn with h | h <;> omega
  have hk : gs.length ≤ (if n < 0 then v.data.length + 1 else n.toNat) := by
    split
    · have := length_delimited old.data gs g
      rw [hv]; omega
    · rcases hn with h | h <;> omega
  have hR : Replace v old new n = String.mk (delimited new.data g gs) := by
    simp only [Replace, hne, hn0, or_self, if_false, hd]
    rw [hv] at hk ⊢
    rw [replaceLoop_delimited old.data new.data hs hd gs g _ hk hg hgs1]
  refine ⟨hR, ?_⟩
  rw [hR, Contains_eq_false]
  exact not_infix_delimited old.data new.data hs hnew gs g hg hgs1

end strings

/-- C12, as stated, fails: in the copy of `demoCopySource` the adventure's props and the
link's props still contain the source slug (they are not rewritten), and so does the
node's image URL, in which only the first instance is replaced. -/
theorem C12_slug_survives :
    strings.Contains (API.copySnapshot demoCopySource "edit0001" demoMinted).Props
        "edit0001" = true ∧
      (API.copySnapshot demoCopySource "edit0001" demoMinted).Links.map
        (fun link => strings.Contains link.Props "edit0001") = [true] ∧
      (API.copySnapshot demoCopySource "edit0001" demoMinted).Nodes.map
        (fun node => node.ImageURL) = ["/upload/Zx81kQpL/edit0001.jpg"] ∧
      (API.copySnapshot demoCopySource "edit0001" demoMinted).Nodes.map
        (fun node => strings.Contains node.ImageURL "edit0001") = [true] := by
  refine ⟨?_, ?_, ?_, ?_⟩ <;> decide

theorem elementOnly_spec (v old : String) (g : List Char) (gs : List (List Char))
    (h : strings.elementOnly v old g gs = true) :
    v.data = strings.delimited old.data g gs ∧ strings.Contains (String.mk g) old = false ∧
      ∀ x ∈ gs, strings.Contains (String.mk x) old = false := by
  simp only [strings.elementOnly, Bool.and_eq_true, beq_iff_eq, Bool.not_eq_true',
    List.all_eq_true] at h
  exact ⟨h.1.1, h.1.2, h.2⟩

/-- C12 (amended): when the source slug (non-empty, without a slash) occurs in every
node's props as a path element only, in every node's image URL and in the cover URL at
most once and as a path element, and the minted slug does not contain it, then after the
rewrite step of `CopyAdventureById` neither the cover URL nor any node's image URL or
props of the copy contains the source slug. -/
theorem C12_rewritten_values (existingAdventure newAdventure : Adventure) (slug : String)
    (hs : '/' ∉ slug.data) (h0 : slug ≠ "")
    (hnew : strings.Contains newAdventure.Slug slug = false)
    (hcover : ∃ g gs, gs.length ≤ 1 ∧
      strings.elementOnly existingAdventure.CoverUrl slug g gs = true)
    (himage : ∀ node ∈ existingAdventure.Nodes, ∃ g gs, gs.length ≤ 1 ∧
      strings.elementOnly node.ImageURL slug g gs = true)
    (hprops : ∀ node ∈ existingAdventure.Nodes, ∃ g gs,
      strings.elementOnly node.Props slug g gs = true) :
    strings.Contains (API.copySnapshot existingAdventure slug newAdventure).CoverUrl slug
        = false ∧
      ∀ node ∈ (API.copySnapshot existingAdventure slug newAdventure).Nodes,
        strings.Contains node.ImageURL slug = false ∧
          strings.Contains node.Props slug = false := by
  constructor
  · obtain ⟨g, gs, hlen, he⟩ := hcover
    obtain ⟨hv, hg, hgs⟩ := elementOnly_spec _ _ _ _ he
    exact (strings.Replace_delimited _ slug newAdventure.Slug 1 g gs hs h0 hnew hv hg hgs
      (Or.inr ⟨by omega, by decide⟩)).2
  · intro node hnode
    simp only [API.copySnapshot, API.resetNodes, List.mem_map] at hnode
    obtain ⟨src, hsrc, rfl⟩ := hnode
    constructor
    · obtain ⟨g, gs, hlen, he⟩ := himage src hsrc
      obtain ⟨hv, hg, hgs⟩ := elementOnly_spec _ _ _ _ he
      exact (strings.Replace_delimited _ slug newAdventure.Slug 1 g gs hs h0 hnew hv hg hgs
        (Or.inr ⟨by omega, by decide⟩)).2
    · obtain ⟨g, gs, he⟩ := hprops src hsrc
      obtain ⟨hv, hg, hgs⟩ := elementOnly_spec _ _ _ _ he
      exact (strings.Replace_delimited _ slug newAdventure.Slug (-1) g gs hs h0 hnew hv hg hgs
        (Or.inl (by decide))).2

/-- C12 (amended), at a sample: the copy of `demoMediaAdventure` under the minted slug. -/
theorem C12_rewritten_values_witness :
    strings.Contains (API.copySnapshot demoMediaAdventure "edit0001" demoMinted).CoverUrl
        "edit0001" = false ∧
      ∀ node ∈ (API.copySnapshot demoMediaAdventure "edit0001" demoMinted).Nodes,
        strings.Contains node.ImageURL "edit0001" = false ∧
          strings.Contains node.Props "edit0001" = false :=
  C12_rewritten_values demoMediaAdventure demoMinted "edit0001" (by decide) (by decide)
    (by decide)
    ⟨"/upload".data, ["cover.jpg".data], by decide, by decide⟩
    (by
      intro node h
      simp only [demoMediaAdventure, List.mem_cons, List.mem_singleton, List.not_mem_nil,
        or_false] at h
      rcases h with rfl | rfl
      · exact ⟨"/upload".data, ["n.jpg".data], by decide, by decide⟩
      · exact ⟨[], [], by decide, by decide⟩)
    (by
      intro node h
      simp only [demoMediaAdventure, List.mem_cons, List.mem_singleton, List.not_mem_nil,
        or_false] at h
      rcases h with rfl | rfl
      · exact ⟨"\x7b\"audio_url\":\"/upload".data,
          ["a.mp3\",\"subtitles_url\":\"/upload".data, "s.vtt\"\x7d".data], by decide⟩
      · exact ⟨[], [], by decide⟩)

/-! ## `path.Clean` on a directory followed by plain elements -/

namespace path

theorem splitSlash_ne_nil (a : List Char) : splitSlash a ≠ [] := by
  induction a with
  | nil => simp [splitSlash]
  | cons c a ih =>
    simp only [splitSlash]
    split
    · simp
    · split <;> simp

theorem splitSlash_append (a b : List Char) :
    splitSlash (a ++ '/' :: b) = splitSlash a ++ splitSlash b := by
  induction a with
  | nil => simp [splitSlash]
  | cons c a ih =>
    simp only [List.cons_append, splitSlash]
    split
    · simp [ih]
    · have ih1 : splitSlash (a.append ('/' :: b)) = splitSlash a ++ splitSlash b := ih
      rw [ih1]
      cases h : splitSlash a with
      | nil => exact absurd h (splitSlash_ne_nil a)
      | cons seg rest => simp

theorem splitSlash_plain (a : List Char) (h : '/' ∉ a) : splitSlash a = [a] := by
  induction a with
  | nil => rfl
  | cons c a ih =>
    simp only [List.mem_cons, not_or] at h
    simp only [splitSlash, if_neg (Ne.symm h.1), ih h.2]

theorem foldl_cleanStep_plain (rooted : Bool) (R : List (List Char))
    (h : ∀ e ∈ R, e ≠ ['.', '.']) :
    ∀ st, R.foldl (cleanStep rooted) st =
      (R.filter (fun e => !(decide (e = []) || decide (e = ['.'])))).reverse ++ st := by
  induction R with
  | nil => intro st; rfl
  | cons e R ih =>
    intro st
    have he := h e (List.mem_cons_self _ _)
    have ih1 := ih (fun x hx => h x (List.mem_cons_of_mem _ hx))
    simp only [List.foldl_cons, List.filter_cons]
    by_cases h1 : e = [] ∨ e = ['.']
    · have hb : (!(decide (e = []) || decide (e = ['.']))) = false := by
        rcases h1 with rfl | rfl <;> rfl
      rw [ih1, hb]
      simp [cleanStep, h1]
    · have hb : (!(decide (e = []) || decide (e = ['.']))) = true := by
        rw [not_or] at h1
        simp [h1.1, h1.2]
      rw [ih1, hb]
      simp [cleanStep, h1, he]

theorem cleanElems_under (dest new r : List Char) (hd : dest ≠ []) (hs : '/' ∉ new)
    (h0 : new ≠ []) (h1 : new ≠ ['.']) (h2 : new ≠ ['.', '.'])
    (hr : ∀ e ∈ splitSlash r, e ≠ ['.', '.']) :
    cleanElems (dest ++ '/' :: (new ++ '/' :: r)) =
      cleanElems dest ++ new ::
        (splitSlash r).filter (fun e => !(decide (e = []) || decide (e = ['.']))) := by
  have hhead : (dest ++ '/' :: (new ++ '/' :: r)).head? = dest.head? := by
    cases dest with
    | nil => exact absurd rfl hd
    | cons c cs => rfl
  simp only [cleanElems, hhead, splitSlash_append, splitSlash_plain new hs, List.foldl_append,
    List.foldl_cons, List.foldl_nil]
  rw [foldl_cleanStep_plain _ _ hr]
  have hstep : ∀ st, cleanStep (decide (dest.head? = some '/')) st new = new :: st := by
    intro st; simp [cleanStep, h0, h1, h2]
  rw [hstep]
  simp

theorem cleanElems_dir (dest new : List Char) (hd : dest ≠ []) (hs : '/' ∉ new)
    (h0 : new ≠ []) (h1 : new ≠ ['.']) (h2 : new ≠ ['.', '.']) :
    cleanElems (dest ++ '/' :: new) = cleanElems dest ++ [new] := by
  have hhead : (dest ++ '/' :: new).head? = dest.head? := by
    cases dest with
    | nil => exact absurd rfl hd
    | cons c cs => rfl
  simp only [cleanElems, hhead, splitSlash_append, splitSlash_plain new hs, List.foldl_append,
    List.foldl_cons, List.foldl_nil]
  simp [cleanStep, h0, h1, h2]

theorem length_le_intercalate (sep x : List Char) (L : List (List Char)) (h : x ∈ L) :
    x.length ≤ (sep.intercalate L).length := by
  induction L with
  | nil => cases h
  | cons a L ih =>
    cases L with
    | nil =>
      simp only [List.mem_singleton] at h
      subst h
      simp [List.intercalate]
    | cons b L =>
      have e : sep.intercalate (a :: b :: L) = a ++ sep ++ sep.intercalate (b :: L) := by
        simp [List.intercalate, List.intersperse]
      rw [e]
      simp only [List.length_append]
      rcases List.mem_cons.mp h with h | h
      · subst h; omega
      · have := ih h
        omega

theorem Clean_under (p dest : String) (elems : List (List Char)) (x : List Char)
    (hhead : p.data.head? = dest.data.head?)
    (he : cleanElems p.data = cleanElems dest.data ++ elems) (hx : x ∈ elems) (hx0 : x ≠ []) :
    Clean p = under dest elems := by
  have hlen := length_le_intercalate ['/'] x (cleanElems dest.data ++ elems)
    (List.mem_append_right _ hx)
  have hpos : 0 < x.length := List.length_pos.mpr hx0
  have hne : (if dest.data.head? = some '/' then ['/'] else []) ++
      ['/'].intercalate (cleanElems dest.data ++ elems) ≠ [] := by
    intro e
    have := congrArg List.length e
    simp only [List.length_append, List.length_nil] at this
    omega
  simp only [Clean, under, hhead, he, if_neg hne]

end path

/-! ## import: where the media files are created -/

/-- C16: the loop relocates every entry whose name begins with `upload`, rewrites only
a leading `upload/<sourceSlug>` and never looks at the joined path.  Of the entries
`ImportAdventure` relocates from `demoArchiveSlip`, the one named with `..` is created
outside the upload directory, and the one filed under another slug outside the media
directory of the new adventure. -/
theorem C16_entry_outside_media_directory :
    (API.ImportAdventure demoStore demoUploadPath [] (.archive demoArchiveSlip)
        mintedViewSlug mintedSlug).2.1 =
        ["/srv/app/upload/Zx81kQpL/a.jpg", "/srv/app/etc/cron.d/job",
         "/srv/app/upload/upload/other/a.jpg"] ∧
      path.Join [demoUploadPath, mintedSlug] = "/srv/app/upload/Zx81kQpL" ∧
      strings.HasPrefix "/srv/app/etc/cron.d/job" (path.Join [demoUploadPath, mintedSlug])
        = false ∧
      strings.HasPrefix "/srv/app/upload/upload/other/a.jpg"
        (path.Join [demoUploadPath, mintedSlug]) = false := by
  refine ⟨?_, ?_, ?_, ?_⟩ <;> decide

theorem data_ne_nil (s : String) (h : s ≠ "") : s.data ≠ [] := by
  intro e
  apply h
  cases s
  simp_all

theorem ne_of_data_ne (s : String) (l : List Char) (h : s ≠ String.mk l) : s.data ≠ l := by
  intro e
  apply h
  cases s
  simp_all

theorem intercalate_pair (a b : String) :
    "/".intercalate [a, b] = String.mk (a.data ++ '/' :: b.data) := by
  apply String.ext
  simp [String.intercalate, String.intercalate.go]

/-- The destination of an entry named `upload/<sourceSlug>/<r>`. -/
theorem destination_of_entry (destinationPath sourceSlug newSlug r : String)
    (hd : destinationPath ≠ "") (hs : '/' ∉ newSlug.data) (h0 : newSlug ≠ "")
    (h1 : newSlug ≠ ".") (h2 : newSlug ≠ "..")
    (hr : ∀ e ∈ path.splitSlash r.data, e ≠ ['.', '.']) :
    path.Join [destinationPath,
        strings.Replace ("upload/" ++ sourceSlug ++ "/" ++ r) ("upload/" ++ sourceSlug)
          newSlug 1] =
      path.under destinationPath (newSlug.data :: path.plainElems r) := by
  have hne : "upload/" ++ sourceSlug ≠ newSlug := by
    intro e
    apply hs
    rw [← e]
    simp
  have hold : ("upload/" ++ sourceSlug).data ≠ [] := by simp
  have hname : ("upload/" ++ sourceSlug ++ "/" ++ r).data =
      ("upload/" ++ sourceSlug).data ++ '/' :: r.data := by
    simp
  have hR : strings.Replace ("upload/" ++ sourceSlug ++ "/" ++ r) ("upload/" ++ sourceSlug)
      newSlug 1 = String.mk (newSlug.data ++ '/' :: r.data) := by
    simp only [strings.Replace, hne, one_ne_zero, or_self, if_false, hold]
    rw [hname]
    have hk : (if (1 : Int) < 0 then
        (("upload/" ++ sourceSlug).data ++ '/' :: r.data).length + 1 else (1 : Int).toNat) = 1 := by
      simp
    rw [hk, strings.replaceLoop_match _ _ 0 _ hold, strings.replaceLoop_zero]
  have hnd := data_ne_nil newSlug h0
  have hx : (String.mk (newSlug.data ++ '/' :: r.data)) ≠ "" := by
    intro e
    have := congrArg String.data e
    simp at this
  have hJ : path.Join [destinationPath, String.mk (newSlug.data ++ '/' :: r.data)] =
      path.Clean (String.mk (destinationPath.data ++ '/' :: (newSlug.data ++ '/' :: r.data))) := by
    simp only [path.Join, List.filter_cons, bne_iff_ne, ne_eq, hd, hx, not_false_eq_true,
      decide_True, if_true, List.filter_nil]
    rw [if_neg (by simp), intercalate_pair]
  rw [hR, hJ]
  have hdd := data_ne_nil destinationPath hd
  refine path.Clean_under _ destinationPath _ newSlug.data ?_ ?_ (List.mem_cons_self _ _) hnd
  · show (destinationPath.data ++ '/' :: (newSlug.data ++ '/' :: r.data)).head? = _
    cases h : destinationPath.data with
    | nil => exact absurd h hdd
    | cons c cs => rfl
  · exact path.cleanElems_under _ _ _ hdd hs hnd (ne_of_data_ne _ _ h1) (ne_of_data_ne _ _ h2) hr

/-- The media directory of the new adventure. -/
theorem media_directory (destinationPath newSlug : String)
    (hd : destinationPath ≠ "") (hs : '/' ∉ newSlug.data) (h0 : newSlug ≠ "")
    (h1 : newSlug ≠ ".") (h2 : newSlug ≠ "..") :
    path.Join [destinationPath, newSlug] = path.under destinationPath [newSlug.data] := by
  have hnd := data_ne_nil newSlug h0
  have hdd := data_ne_nil destinationPath hd
  have hJ : path.Join [destinationPath, newSlug] =
      path.Clean (String.mk (destinationPath.data ++ '/' :: newSlug.data)) := by
    simp only [path.Join, List.filter_cons, bne_iff_ne, ne_eq, hd, h0, not_false_eq_true,
      decide_True, if_true, List.filter_nil]
    rw [if_neg (by simp), intercalate_pair]
  rw [hJ]
  refine path.Clean_under _ destinationPath _ newSlug.data ?_ ?_ (List.mem_singleton.mpr rfl) hnd
  · show (destinationPath.data ++ '/' :: newSlug.data).head? = _
    cases h : destinationPath.data with
    | nil => exact absurd h hdd
    | cons c cs => rfl
  · exact path.cleanElems_dir _ _ hdd hs hnd (ne_of_data_ne _ _ h1) (ne_of_data_ne _ _ h2)

/-- Every path `relocate` creates comes from a non-directory entry under `upload`. -/
theorem mem_relocate (destinationPath sourceSlug newSlug : String) (failing : List String) :
    ∀ (files : List ZipFile) (p : String),
      p ∈ API.relocate destinationPath sourceSlug newSlug failing files →
      ∃ file ∈ files, strings.HasPrefix file.Name "upload" = true ∧ file.IsDir = false ∧
        p = path.Join [destinationPath,
          strings.Replace file.Name ("upload/" ++ sourceSlug) newSlug 1] := by
  intro files
  induction files with
  | nil => intro p h; simp [API.relocate] at h
  | cons file rest ih =>
    intro p h
    have lift : (∃ f ∈ rest, strings.HasPrefix f.Name "upload" = true ∧ f.IsDir = false ∧
        p = path.Join [destinationPath,
          strings.Replace f.Name ("upload/" ++ sourceSlug) newSlug 1]) →
        ∃ f ∈ file :: rest, strings.HasPrefix f.Name "upload" = true ∧ f.IsDir = false ∧
          p = path.Join [destinationPath,
            strings.Replace f.Name ("upload/" ++ sourceSlug) newSlug 1] := by
      rintro ⟨f, hf, h3⟩
      exact ⟨f, List.mem_cons_of_mem _ hf, h3⟩
    rw [API.relocate] at h
    cases hp : strings.HasPrefix file.Name "upload" with
    | false => simp only [hp, Bool.not_false, if_true] at h; exact lift (ih p h)
    | true =>
      cases hdir : file.IsDir with
      | true =>
        simp only [hp, hdir, Bool.not_true, Bool.false_eq_true, if_false, if_true] at h
        exact lift (ih p h)
      | false =>
        simp only [hp, hdir, Bool.not_true, Bool.false_eq_true, if_false] at h
        split at h
        · simp at h
        · split at h
          · simp at h
          · rcases List.mem_cons.mp h with h | h
            · exact ⟨file, List.mem_cons_self _ _, hp, hdir, h⟩
            · exact lift (ih p h)

/-- When no `Open` and no `Create` fails, every non-directory entry under `upload` is
relocated. -/
theorem relocate_all (destinationPath sourceSlug newSlug : String) :
    ∀ (files : List ZipFile), (∀ file ∈ files, file.OpenFails = false) →
      API.relocate destinationPath sourceSlug newSlug [] files =
        (files.filter (fun file => strings.HasPrefix file.Name "upload" && !file.IsDir)).map
          (fun file => path.Join [destinationPath,
            strings.Replace file.Name ("upload/" ++ sourceSlug) newSlug 1]) := by
  intro files
  induction files with
  | nil => intro _; rfl
  | cons file rest ih =>
    intro h
    have ih1 := ih (fun f hf => h f (List.mem_cons_of_mem _ hf))
    have ho := h file (List.mem_cons_self _ _)
    rw [API.relocate]
    cases hp : strings.HasPrefix file.Name "upload" <;> cases hdir : file.IsDir <;>
      simp [List.filter_cons, hp, hdir, ho, ih1]

/-- For a non-empty destination directory and a new slug that is a plain
path element, when every non-directory entry under `upload` is named
`upload/<sourceSlug>/<r>` with no `..` among the elements of `r`, every file the import
creates lies inside the media directory of the new adventure: its path is obtained by
replacing the first `upload/<sourceSlug>` of the entry's name by the new slug and
joining it to the destination, and consists of the elements of the destination
directory, the new slug, and the plain elements of `r`.  When no `Open` and no `Create`
fails, every such entry is relocated. -/
theorem relocated_inside (destinationPath sourceSlug newSlug : String)
    (failing : List String) (files : List ZipFile)
    (hd : destinationPath ≠ "") (hs : '/' ∉ newSlug.data) (h0 : newSlug ≠ "")
    (h1 : newSlug ≠ ".") (h2 : newSlug ≠ "..")
    (hfiles : ∀ file ∈ files, strings.HasPrefix file.Name "upload" = true →
      file.IsDir = false →
      ∃ r, file.Name = "upload/" ++ sourceSlug ++ "/" ++ r ∧
        ∀ e ∈ path.splitSlash r.data, e ≠ ['.', '.']) :
    path.Join [destinationPath, newSlug] = path.under destinationPath [newSlug.data] ∧
      (∀ p ∈ API.relocate destinationPath sourceSlug newSlug failing files,
        ∃ file ∈ files, ∃ r, file.Name = "upload/" ++ sourceSlug ++ "/" ++ r ∧
          p = path.Join [destinationPath,
            strings.Replace file.Name ("upload/" ++ sourceSlug) newSlug 1] ∧
          p = path.under destinationPath (newSlug.data :: path.plainElems r)) ∧
      ((∀ file ∈ files, file.OpenFails = false) → failing = [] →
        API.relocate destinationPath sourceSlug newSlug failing files =
          (files.filter (fun file => strings.HasPrefix file.Name "upload" && !file.IsDir)).map
            (fun file => path.Join [destinationPath,
              strings.Replace file.Name ("upload/" ++ sourceSlug) newSlug 1])) := by
  refine ⟨media_directory destinationPath newSlug hd hs h0 h1 h2, ?_, ?_⟩
  · intro p hp
    obtain ⟨file, hmem, hpre, hdir, hpath⟩ :=
      mem_relocate destinationPath sourceSlug newSlug failing files p hp
    obtain ⟨r, hname, hr⟩ := hfiles file hmem hpre hdir
    refine ⟨file, hmem, r, hname, hpath, ?_⟩
    rw [hpath, hname]
    exact destination_of_entry destinationPath sourceSlug newSlug r hd hs h0 h1 h2 hr
  · intro hopen hfail
    subst hfail
    exact relocate_all destinationPath sourceSlug newSlug files hopen

/-- At a sample: the media file of `demoArchive` is created in the media directory of
the minted slug. -/
theorem relocated_inside_demo :
    API.relocate demoUploadPath "srcslug1" mintedSlug [] demoArchive =
        ["/srv/app/upload/Zx81kQpL/a.jpg"] ∧
      path.Join [demoUploadPath, mintedSlug] = path.under demoUploadPath [mintedSlug.data] ∧
      ∀ p ∈ API.relocate demoUploadPath "srcslug1" mintedSlug [] demoArchive,
        ∃ file ∈ demoArchive, ∃ r, file.Name = "upload/" ++ "srcslug1" ++ "/" ++ r ∧
          p = path.Join [demoUploadPath,
            strings.Replace file.Name ("upload/" ++ "srcslug1") mintedSlug 1] ∧
          p = path.under demoUploadPath (mintedSlug.data :: path.plainElems r) :=
  ⟨by decide,
    (relocated_inside demoUploadPath "srcslug1" mintedSlug [] demoArchive (by decide)
      (by decide) (by decide) (by decide) (by decide) (by
        intro file hmem hpre _
        simp only [demoArchive, List.mem_cons, List.mem_singleton, List.not_mem_nil,
          or_false] at hmem
        rcases hmem with rfl | rfl | rfl
        · exact absurd hpre (by decide)
        · exact absurd hpre (by decide)
        · exact ⟨"a.jpg", by decide, by decide⟩)).1,
    (relocated_inside demoUploadPath "srcslug1" mintedSlug [] demoArchive (by decide)
      (by decide) (by decide) (by decide) (by decide) (by
        intro file hmem hpre _
        simp only [demoArchive, List.mem_cons, List.mem_singleton, List.not_mem_nil,
          or_false] at hmem
        rcases hmem with rfl | rfl | rfl
        · exact absurd hpre (by decide)
        · exact absurd hpre (by decide)
        · exact ⟨"a.jpg", by decide, by decide⟩)).2.1⟩

/-! ## a failing write; the frame of one reconciliation -/

/-- A run in which the first `k` writes succeed and the next one fails: the first `k`
calls are applied, the failed one is logged after them, and nothing follows. -/
theorem run_fault (k : Nat) :
    ∀ (s : Store) (cs : List Call) (rest : List Bool),
      s.faults = List.replicate k false ++ true :: rest → k < cs.length →
      s.run cs = ({ db := (cs.take k).foldl applyCall s.db, log := s.log ++ cs.take (k + 1),
                    faults := rest }, some .storage) := by
  induction k with
  | zero =>
    intro s cs rest hf hk
    cases cs with
    | nil => simp at hk
    | cons c cs =>
      simp only [List.replicate_zero, List.nil_append] at hf
      simp [Store.run, Store.Exec, hf]
  | succ k ih =>
    intro s cs rest hf hk
    cases cs with
    | nil => simp at hk
    | cons c cs =>
      simp only [List.replicate_succ, List.cons_append] at hf
      have hk1 : k < cs.length := by simpa using hk
      simp only [Store.run, Store.Exec, hf]
      rw [ih _ cs rest rfl hk1]
      simp

/-- C28: when the first `k` writes of one `UpdateAdventureContent` succeed and the next
one fails, the call returns the error of that write; the tables are those after the first
`k` calls of the write plan (the scalar update, then node deletes, node inserts and
updates, link deletes, link inserts and updates), applied in order; the log holds these
`k` calls and the failed one, once, and nothing after it; and what is left of the fault
script is untouched. -/
theorem C28_failed_write_stops (s : Store) (newAdventure a : Adventure) (k : Nat)
    (rest : List Bool)
    (ha : SQLStore.GetAdventure s.db newAdventure.Slug ReadWrite = .ok a)
    (hf : s.faults = List.replicate k false ++ true :: rest)
    (hk : k < (plan a newAdventure).length) :
    SQLStore.UpdateAdventureContent s newAdventure =
        ({ db := ((plan a newAdventure).take k).foldl applyCall s.db,
           log := s.log ++ (plan a newAdventure).take (k + 1),
           faults := rest }, some .storage) ∧
      issued s (SQLStore.UpdateAdventureContent s newAdventure).1 =
        (plan a newAdventure).take k ++ ((plan a newAdventure).drop k).take 1 := by
  have h := run_fault k s (plan a newAdventure) rest hf hk
  rw [UpdateAdventureContent_eq_run s newAdventure a ha, h]
  refine ⟨rfl, ?_⟩
  simp only [issued, List.drop_left]
  rw [List.take_succ]
  congr 1
  cases hd : (plan a newAdventure).drop k with
  | nil =>
    have := congrArg List.length hd
    simp at this
    omega
  | cons c cs =>
    have h1 : (plan a newAdventure)[k]? = some c := by
      have := congrArg List.head? hd
      simpa [List.head?_drop] using this
    simp [h1]

theorem filter_map_frame {α : Type} (l : List α) (f : α → α) (p : α → Bool)
    (h : ∀ x, p x = true → f x = x) (h2 : ∀ x, p x = false → p (f x) = false) :
    (l.map f).filter p = l.filter p := by
  induction l with
  | nil => rfl
  | cons x l ih =>
    simp only [List.map_cons, List.filter_cons]
    cases hp : p x with
    | true => rw [h x hp, hp, ih]
    | false => rw [h2 x hp, ih]; rfl

theorem filter_filter_frame {α : Type} (l : List α) (q p : α → Bool)
    (h : ∀ x, p x = true → q x = true) : (l.filter q).filter p = l.filter p := by
  rw [List.filter_filter]
  apply List.filter_congr
  intro x _
  cases hp : p x with
  | true => simp [h x hp]
  | false => simp

/-- A call scoped to the adventure `id` leaves the rows of every other adventure as
they are. -/
theorem applyCall_scoped (db : DB) (c : Call) (id B : Int) (hc : c.scopedTo id = true)
    (hB : B ≠ id) :
    (applyCall db c).adventure_node.filter (fun r => r.adventure_id == B) =
        db.adventure_node.filter (fun r => r.adventure_id == B) ∧
      (applyCall db c).adventure_link.filter (fun r => r.adventure_id == B) =
        db.adventure_link.filter (fun r => r.adventure_id == B) ∧
      (applyCall db c).adventure.filter (fun r => r.id == B) =
        db.adventure.filter (fun r => r.id == B) := by
  cases c <;> simp only [Call.scopedTo, beq_iff_eq, Bool.false_eq_true] at hc <;>
    simp only [applyCall, true_and, and_true]
  · -- UpdateAdventureRow
    apply filter_map_frame
    · intro r hr
      simp only [beq_iff_eq] at hr
      have : (r.id == id) = false := by simp only [beq_eq_false_iff_ne]; omega
      simp [hc, this]
    · intro r hr
      split <;> simpa using hr
  · -- DeleteNode
    apply filter_filter_frame
    intro r hr
    simp only [beq_iff_eq] at hr
    have : (r.adventure_id == id) = false := by simp only [beq_eq_false_iff_ne]; omega
    simp [hc, this]
  · -- CreateNewNode
    rw [List.filter_append]
    have hid : (id == B) = false := by simp only [beq_eq_false_iff_ne]; omega
    simp [hc, hid]
  · -- UpdateNode
    apply filter_map_frame
    · intro r hr
      simp only [beq_iff_eq] at hr
      have : (r.adventure_id == id) = false := by simp only [beq_eq_false_iff_ne]; omega
      simp [hc, this]
    · intro r hr
      split <;> simpa using hr
  · -- DeleteLink
    apply filter_filter_frame
    intro r hr
    simp only [beq_iff_eq] at hr
    have : (r.adventure_id == id) = false := by simp only [beq_eq_false_iff_ne]; omega
    simp [hc, this]
  · -- CreateNewLink
    rw [List.filter_append]
    have hid : (id == B) = false := by simp only [beq_eq_false_iff_ne]; omega
    simp [hc, hid]
  · -- UpdateLink
    apply filter_map_frame
    · intro r hr
      simp only [beq_iff_eq] at hr
      have : (r.adventure_id == id) = false := by simp only [beq_eq_false_iff_ne]; omega
      simp [hc, this]
    · intro r hr
      split <;> simpa using hr

theorem foldl_scoped (cs : List Call) (id B : Int) (hcs : ∀ c ∈ cs, c.scopedTo id = true)
    (hB : B ≠ id) :
    ∀ db : DB,
      (cs.foldl applyCall db).adventure_node.filter (fun r => r.adventure_id == B) =
          db.adventure_node.filter (fun r => r.adventure_id == B) ∧
        (cs.foldl applyCall db).adventure_link.filter (fun r => r.adventure_id == B) =
          db.adventure_link.filter (fun r => r.adventure_id == B) ∧
        (cs.foldl applyCall db).adventure.filter (fun r => r.id == B) =
          db.adventure.filter (fun r => r.id == B) := by
  induction cs with
  | nil => intro db; exact ⟨rfl, rfl, rfl⟩
  | cons c cs ih =>
    intro db
    obtain ⟨h1, h2, h3⟩ := ih (fun x hx => hcs x (List.mem_cons_of_mem _ hx)) (applyCall db c)
    obtain ⟨g1, g2, g3⟩ := applyCall_scoped db c id B (hcs c (List.mem_cons_self _ _)) hB
    simp only [List.foldl_cons]
    exact ⟨h1.trans g1, h2.trans g2, h3.trans g3⟩

/-- Every call of the write plan is scoped to the persisted adventure. -/
theorem plan_scoped (a newAdventure : Adventure) :
    ∀ c ∈ plan a newAdventure, c.scopedTo a.ID = true := by
  intro c hc
  rcases mem_plan a newAdventure c hc with rfl | h | h | h | h
  · simp [scalarUpdate, Call.scopedTo]
  · obtain ⟨n, _, _, rfl⟩ := mem_nodeDeletes a newAdventure _ c h
    simp [Call.scopedTo]
  · obtain ⟨n, _, h | h⟩ := mem_nodeWrites a _ c h
    · rw [h.2]; simp [Call.scopedTo]
    · rw [h.2.2]; simp [Call.scopedTo]
  · obtain ⟨l, _, _, rfl⟩ := mem_linkDeletes a newAdventure _ c h
    simp [Call.scopedTo]
  · obtain ⟨l, _, h | h⟩ := mem_linkWrites a _ c h
    · rw [h.2]; simp [Call.scopedTo]
    · rw [h.2.2]; simp [Call.scopedTo]

/-- C30: whatever the incoming snapshot and whichever writes fail, every write call one
`UpdateAdventureContent` issues is scoped to the id of the adventure A its edit slug
resolves to, and the node rows, the link rows and the adventure row of every other
adventure id are the same before and after the call. -/
theorem C30_other_adventures_untouched (s : Store) (newAdventure a : Adventure)
    (ha : SQLStore.GetAdventure s.db newAdventure.Slug ReadWrite = .ok a) :
    (∀ c ∈ issued s (SQLStore.UpdateAdventureContent s newAdventure).1,
        c.scopedTo a.ID = true) ∧
      ∀ B : Int, B ≠ a.ID →
        (SQLStore.UpdateAdventureContent s newAdventure).1.db.adventure_node.filter
            (fun r => r.adventure_id == B) =
          s.db.adventure_node.filter (fun r => r.adventure_id == B) ∧
        (SQLStore.UpdateAdventureContent s newAdventure).1.db.adventure_link.filter
            (fun r => r.adventure_id == B) =
          s.db.adventure_link.filter (fun r => r.adventure_id == B) ∧
        (SQLStore.UpdateAdventureContent s newAdventure).1.db.adventure.filter
            (fun r => r.id == B) =
          s.db.adventure.filter (fun r => r.id == B) := by
  constructor
  · intro c hc
    obtain ⟨k, hk⟩ := (issued_UpdateAdventureContent s newAdventure a ha).1
    rw [hk] at hc
    exact plan_scoped a newAdventure c (List.mem_of_mem_take hc)
  · intro B hB
    rw [UpdateAdventureContent_eq_run s newAdventure a ha]
    obtain ⟨k, j, _, _, _, hdb, _, _⟩ := run_spec s (plan a newAdventure)
    rw [hdb]
    exact foldl_scoped _ a.ID B
      (fun c hc => plan_scoped a newAdventure c (List.mem_of_mem_take hc)) hB s.db

/-- C28, at a sample: the third write of a reconciliation of `demoSnapshot` fails. -/
theorem C28_failed_write_stops_witness :
    SQLStore.UpdateAdventureContent { db := demoDB, faults := [false, false, true, false] }
          demoSnapshot =
        ({ db := ((plan demoAdventure demoSnapshot).take 2).foldl applyCall demoDB,
           log := [] ++ (plan demoAdventure demoSnapshot).take (2 + 1),
           faults := [false] }, some .storage) ∧
      issued { db := demoDB, faults := [false, false, true, false] }
          (SQLStore.UpdateAdventureContent
            { db := demoDB, faults := [false, false, true, false] } demoSnapshot).1 =
        (plan demoAdventure demoSnapshot).take 2 ++
          ((plan demoAdventure demoSnapshot).drop 2).take 1 :=
  C28_failed_write_stops { db := demoDB, faults := [false, false, true, false] } demoSnapshot
    demoAdventure 2 [false] rfl rfl (by decide)

/-- C30, at a sample: a snapshot for adventure 1 that names the node of adventure 2. -/
theorem C30_other_adventures_untouched_witness :
    (∀ c ∈ issued demoStore (SQLStore.UpdateAdventureContent demoStore demoForeignSnapshot).1,
        c.scopedTo demoAdventure.ID = true) ∧
      ∀ B : Int, B ≠ demoAdventure.ID →
        (SQLStore.UpdateAdventureContent demoStore demoForeignSnapshot).1.db.adventure_node.filter
            (fun r => r.adventure_id == B) =
          demoStore.db.adventure_node.filter (fun r => r.adventure_id == B) ∧
        (SQLStore.UpdateAdventureContent demoStore demoForeignSnapshot).1.db.adventure_link.filter
            (fun r => r.adventure_id == B) =
          demoStore.db.adventure_link.filter (fun r => r.adventure_id == B) ∧
        (SQLStore.UpdateAdventureContent demoStore demoForeignSnapshot).1.db.adventure.filter
            (fun r => r.id == B) =
          demoStore.db.adventure.filter (fun r => r.id == B) :=
  C30_other_adventures_untouched demoStore demoForeignSnapshot demoAdventure rfl

/-- The reconciliation of `demoForeignSnapshot`: the three nodes and two links of
adventure 1 are deleted, the update that names node 4 matches no row, and the node of
adventure 2 is as before. -/
theorem foreign_snapshot_demo :
    (SQLStore.UpdateAdventureContent demoStore demoForeignSnapshot).2 = none ∧
      (SQLStore.UpdateAdventureContent demoStore demoForeignSnapshot).1.db.adventure_node =
        [ { id := 4, adventure_id := 2, node_id := 0, title := "Door" } ] ∧
      (SQLStore.UpdateAdventureContent demoStore demoForeignSnapshot).1.db.adventure_link = [] :=
  ⟨rfl, rfl, rfl⟩

/-! ## deletion of an adventure -/

/-- C23: after a `DeleteAdventureByID` that returns no error on the id of a persisted
adventure whose two slugs are not a slug of any adventure of another id, `GetAdventure`
on its former edit slug and on its former view slug fails with `ErrNoRows` in each of the
three modes; and the delete returns no error when no write fails. -/
theorem C23_deleted_not_found (s : Store) (r : AdventureRow) (_ : r ∈ s.db.adventure)
    (huniq : ∀ x ∈ s.db.adventure, x.id ≠ r.id →
      x.slug ≠ r.slug ∧ x.slug ≠ r.view_slug ∧ x.view_slug ≠ r.slug ∧
        x.view_slug ≠ r.view_slug)
    (hok : (SQLStore.DeleteAdventureByID s r.id).2 = none) :
    (∀ q, q = r.slug ∨ q = r.view_slug →
      ∀ mode, mode = ReadOnly ∨ mode = ReadWrite ∨ mode = Ignore →
        SQLStore.GetAdventure (SQLStore.DeleteAdventureByID s r.id).1.db q mode =
          .error .ErrNoRows) ∧
      (s.noFault = true → (SQLStore.DeleteAdventureByID s r.id).2 = none) := by
  constructor
  · intro q hq mode hmode
    have hdb := Exec_ok_db s (.DeleteAdventureByID r.id) hok
    have hnone : ∀ p : AdventureRow → Bool,
        (∀ x ∈ s.db.adventure, x.id ≠ r.id → p x = false) →
        (SQLStore.DeleteAdventureByID s r.id).1.db.adventure.find? p = none := by
      intro p hp
      rw [List.find?_eq_none]
      intro x hx
      simp only [SQLStore.DeleteAdventureByID] at hx
      rw [hdb] at hx
      simp only [applyCall, List.mem_filter, Bool.not_eq_true', beq_eq_false_iff_ne, ne_eq] at hx
      simp [hp x hx.1 hx.2]
    rcases hmode with rfl | rfl | rfl
    · have hw : SQLStore.adventureWhere q ReadOnly = some (fun x => x.view_slug == q) := by
        simp [SQLStore.adventureWhere]
      simp only [SQLStore.GetAdventure, hw]
      rw [hnone]
      intro x hx hid
      have := huniq x hx hid
      rcases hq with rfl | rfl <;> simp [this]
    · have hw : SQLStore.adventureWhere q ReadWrite = some (fun x => x.slug == q) := by
        simp [SQLStore.adventureWhere, ReadOnly, ReadWrite]
      simp only [SQLStore.GetAdventure, hw]
      rw [hnone]
      intro x hx hid
      have := huniq x hx hid
      rcases hq with rfl | rfl <;> simp [this]
    · have hw : SQLStore.adventureWhere q Ignore =
          some (fun x => x.slug == q || x.view_slug == q) := by
        simp [SQLStore.adventureWhere, ReadOnly, ReadWrite, Ignore]
      simp only [SQLStore.GetAdventure, hw]
      rw [hnone]
      intro x hx hid
      have := huniq x hx hid
      rcases hq with rfl | rfl <;> simp [this]
  · intro hnf
    exact (Exec_noFault s (.DeleteAdventureByID r.id) hnf).1

/-- C23, at a sample: the open adventure of `demoDB` is deleted. -/
theorem C23_deleted_not_found_witness :
    (∀ q, q = "edit0001" ∨ q = "view0001" →
      ∀ mode, mode = ReadOnly ∨ mode = ReadWrite ∨ mode = Ignore →
        SQLStore.GetAdventure (SQLStore.DeleteAdventureByID demoStore 1).1.db q mode =
          .error .ErrNoRows) ∧
      (demoStore.noFault = true → (SQLStore.DeleteAdventureByID demoStore 1).2 = none) :=
  C23_deleted_not_found demoStore
    { id := 1, title := some "Cave", description := some "A cave", slug := "edit0001",
      view_slug := "view0001", category_id := some 1,
      cover_url := some "/upload/edit0001/c.jpg", edit_version := 3, view_count := 7 }
    (by decide) (by decide) rfl

/-! ## the default adventure -/

theorem Exec_step (s : Store) (c : Call) (h : s.noFault = true) :
    ∃ s1, s.Exec c = (s1, none) ∧ s1.db = applyCall s.db c ∧ s1.noFault = true := by
  have h1 := Exec_noFault s c h
  have h2 := Exec_ok_db s c h1.1
  rcases hx : s.Exec c with ⟨s1, _ | err⟩
  · rw [hx] at h1 h2
    exact ⟨s1, rfl, h2, h1.2⟩
  · rw [hx] at h1
    simp at h1

/-- C24: when no write fails, on well-formed tables, `CreateDefaultAdventure` returns
the minted adventure with exactly three nodes, of logical ids 0, 1, 2 and types "root",
"default", "default", and exactly two links, of type "bidirectional", from logical node
0 to 1 and from 0 to 2; every link endpoint is the logical id of one of the nodes. -/
theorem C24_default_template (s : Store) (viewSlug slug : String)
    (hnf : s.noFault = true) (hwf : s.db.wellFormed = true) :
    ∃ a, (SQLStore.CreateDefaultAdventure s viewSlug slug).2 = .ok a ∧
      a.ID = s.db.adventure_seq + 1 ∧ a.Slug = slug ∧ a.ViewSlug = viewSlug ∧
      a.Nodes.map (fun n => (n.NodeID, n.NodeType)) =
        [(0, "root"), (1, "default"), (2, "default")] ∧
      a.Nodes.map Node.ID = [s.db.node_seq + 1, s.db.node_seq + 2, s.db.node_seq + 3] ∧
      a.Links.map (fun l => (l.LinkID, l.SourceNodeID, l.TargetNodeID, l.LinkType)) =
        [(0, 0, 1, "bidirectional"), (1, 0, 2, "bidirectional")] ∧
      (∀ l ∈ a.Links, l.SourceNodeID ∈ a.Nodes.map Node.NodeID ∧
        l.TargetNodeID ∈ a.Nodes.map Node.NodeID) := by
  obtain ⟨_, hwn, hwl⟩ := (wellFormed_iff s.db).mp hwf
  have hnodes : s.db.adventure_node.filter
      (fun r => r.adventure_id == s.db.adventure_seq + 1) = [] := by
    rw [List.filter_eq_nil_iff]
    intro r hr
    have := (hwn r hr).2
    simp only [beq_iff_eq]
    omega
  have hlinks : s.db.adventure_link.filter
      (fun r => r.adventure_id == s.db.adventure_seq + 1) = [] := by
    rw [List.filter_eq_nil_iff]
    intro r hr
    have := (hwl r hr).2
    simp only [beq_iff_eq]
    omega
  obtain ⟨s0, e0, d0, n0⟩ := Exec_step s (.CreateNewAdventure slug viewSlug) hnf
  obtain ⟨s1, e1, d1, n1⟩ := Exec_step s0
    (.CreateNewNode (SQLStore.newRootNode s0.db.adventure_seq)) n0
  obtain ⟨s2, e2, d2, n2⟩ := Exec_step s1
    (.CreateNewNode (SQLStore.newLeftNode s0.db.adventure_seq)) n1
  obtain ⟨s3, e3, d3, n3⟩ := Exec_step s2
    (.CreateNewNode (SQLStore.newRightNode s0.db.adventure_seq)) n2
  obtain ⟨s4, e4, d4, n4⟩ := Exec_step s3
    (.CreateNewLink (SQLStore.newLinkRootToLeft s0.db.adventure_seq)) n3
  obtain ⟨s5, e5, d5, _⟩ := Exec_step s4
    (.CreateNewLink (SQLStore.newLinkRootToRight s0.db.adventure_seq)) n4
  have hseq : s0.db.adventure_seq = s.db.adventure_seq + 1 := by rw [d0]; rfl
  have hN : s5.db.adventure_node = s.db.adventure_node ++
      [newNodeRow (s.db.node_seq + 1) (SQLStore.newRootNode (s.db.adventure_seq + 1)),
       newNodeRow (s.db.node_seq + 1 + 1) (SQLStore.newLeftNode (s.db.adventure_seq + 1)),
       newNodeRow (s.db.node_seq + 1 + 1 + 1)
         (SQLStore.newRightNode (s.db.adventure_seq + 1))] := by
    rw [d5, d4, d3, d2, d1, d0]
    simp [applyCall, newNodeRow]
  have hL : s5.db.adventure_link = s.db.adventure_link ++
      [newLinkRow (s.db.link_seq + 1) (SQLStore.newLinkRootToLeft (s.db.adventure_seq + 1)),
       newLinkRow (s.db.link_seq + 1 + 1)
         (SQLStore.newLinkRootToRight (s.db.adventure_seq + 1))] := by
    rw [d5, d4, d3, d2, d1, d0]
    simp [applyCall, newLinkRow]
  have hres : SQLStore.CreateDefaultAdventure s viewSlug slug =
      (s5, .ok { ViewSlug := viewSlug, Slug := slug, ID := s0.db.adventure_seq,
                 Nodes := (SQLStore.getAdventureContent s5.db s0.db.adventure_seq).1,
                 Links := (SQLStore.getAdventureContent s5.db s0.db.adventure_seq).2.1,
                 Users := (SQLStore.getAdventureContent s5.db s0.db.adventure_seq).2.2 }) := by
    simp only [SQLStore.CreateDefaultAdventure, SQLStore.CreateNewAdventure,
      SQLStore.CreateNewNode, SQLStore.CreateNewLink, e0, e1, e2, e3, e4, e5]
  have hGN : SQLStore.GetNodesByAdventureID s5.db (s.db.adventure_seq + 1) =
      [SQLStore.scanNode
        (newNodeRow (s.db.node_seq + 1) (SQLStore.newRootNode (s.db.adventure_seq + 1))),
       SQLStore.scanNode
        (newNodeRow (s.db.node_seq + 1 + 1) (SQLStore.newLeftNode (s.db.adventure_seq + 1))),
       SQLStore.scanNode
        (newNodeRow (s.db.node_seq + 1 + 1 + 1)
          (SQLStore.newRightNode (s.db.adventure_seq + 1)))] := by
    simp only [SQLStore.GetNodesByAdventureID, hN, List.filter_append, hnodes, List.nil_append]
    simp [newNodeRow, SQLStore.newRootNode, SQLStore.newLeftNode, SQLStore.newRightNode]
  have hGL : SQLStore.GetLinksByAdventureID s5.db (s.db.adventure_seq + 1) =
      [SQLStore.scanLink
        (newLinkRow (s.db.link_seq + 1) (SQLStore.newLinkRootToLeft (s.db.adventure_seq + 1))),
       SQLStore.scanLink
        (newLinkRow (s.db.link_seq + 1 + 1)
          (SQLStore.newLinkRootToRight (s.db.adventure_seq + 1)))] := by
    simp only [SQLStore.GetLinksByAdventureID, hL, List.filter_append, hlinks, List.nil_append]
    simp [newLinkRow, SQLStore.newLinkRootToLeft, SQLStore.newLinkRootToRight]
  rw [hres, hseq]
  refine ⟨_, rfl, rfl, rfl, rfl, ?_, ?_, ?_, ?_⟩
  · simp only [SQLStore.getAdventureContent, hGN]
    simp [SQLStore.scanNode, newNodeRow, SQLStore.newRootNode, SQLStore.newLeftNode,
      SQLStore.newRightNode]
  · simp only [SQLStore.getAdventureContent, hGN]
    simp [SQLStore.scanNode, newNodeRow]
    omega
  · simp only [SQLStore.getAdventureContent, hGL]
    simp [SQLStore.scanLink, newLinkRow, SQLStore.newLinkRootToLeft,
      SQLStore.newLinkRootToRight]
  · simp only [SQLStore.getAdventureContent, hGN, hGL]
    simp [SQLStore.scanNode, SQLStore.scanLink, newNodeRow, newLinkRow,
      SQLStore.newRootNode, SQLStore.newLeftNode, SQLStore.newRightNode,
      SQLStore.newLinkRootToLeft, SQLStore.newLinkRootToRight]

/-- C24, at the sample store: the default adventure gets id 3, node ids 5, 6, 7. -/
theorem C24_default_template_witness :
    ∃ a, (SQLStore.CreateDefaultAdventure demoStore mintedViewSlug mintedSlug).2 = .ok a ∧
      a.ID = demoStore.db.adventure_seq + 1 ∧ a.Slug = mintedSlug ∧
      a.ViewSlug = mintedViewSlug ∧
      a.Nodes.map (fun n => (n.NodeID, n.NodeType)) =
        [(0, "root"), (1, "default"), (2, "default")] ∧
      a.Nodes.map Node.ID =
        [demoStore.db.node_seq + 1, demoStore.db.node_seq + 2, demoStore.db.node_seq + 3] ∧
      a.Links.map (fun l => (l.LinkID, l.SourceNodeID, l.TargetNodeID, l.LinkType)) =
        [(0, 0, 1, "bidirectional"), (1, 0, 2, "bidirectional")] ∧
      (∀ l ∈ a.Links, l.SourceNodeID ∈ a.Nodes.map Node.NodeID ∧
        l.TargetNodeID ∈ a.Nodes.map Node.NodeID) :=
  C24_default_template demoStore mintedViewSlug mintedSlug rfl rfl

/-! ## export: the names of the archive entries -/

namespace strings

/-- A value that does not contain `old` is returned as it is. -/
theorem Replace_absent (s old new : String) (n : Int) (h : Contains s old = false) :
    Replace s old new n = s := by
  rw [Contains_eq_false] at h
  unfold Replace
  split
  · rfl
  · have hd : old.data ≠ [] := by
      intro e
      exact h (by rw [e]; exact List.nil_infix)
    simp only [hd, if_false]
    rw [replaceLoop_none _ _ _ _ h]

/-- The first instance of `old` at the head of the value is the one replaced. -/
theorem Replace_head (old new t : String) (hne : old ≠ new) (h0 : old ≠ "") :
    Replace (old ++ t) old new 1 = new ++ t := by
  have hd : old.data ≠ [] := by
    intro e; apply h0; cases old; simp_all
  have hk : (if (1 : Int) < 0 then (old ++ t).data.length + 1 else (1 : Int).toNat) = 1 := by
    simp
  simp only [Replace, hne, one_ne_zero, or_self, if_false, hd]
  rw [hk, String.data_append, replaceLoop_match _ _ 0 _ hd, replaceLoop_zero]
  apply String.ext
  simp

theorem Contains_mono (s t a b : String) (h : Contains s b = false)
    (ht : t.data <:+: s.data) (ha : b.data <:+: a.data) : Contains t a = false := by
  rw [Contains_eq_false] at h ⊢
  intro hc
  exact h (ha.trans (hc.trans ht))

end strings

/-- C21, as stated, fails: the three replacements of the web paths are not tied to the
head of the key, so a key under `/upload/` that contains `/web/css/` further on does not
keep the rest of its path. -/
theorem C21_upload_key_rewritten_inside :
    API.entryName "/upload/edit0001/web/css/a.css" = "upload/edit0001static/css/a.css" ∧
      API.entryName "/upload/edit0001/web/css/a.css" ≠ "upload/edit0001/web/css/a.css" := by
  constructor <;> decide

/-- C21 (amended): for every asset key `/upload/<rest>` that does not contain `/web/`,
the archive entry name is the key without its leading slash, `upload/<rest>`; and the ten
fixed manifest keys `/web/css/<f>`, `/web/js/<f>` and `/web/<f>` map to `static/css/<f>`,
`static/js/<f>` and `static/<f>`. -/
theorem C21_entry_names (rest : String)
    (h : strings.Contains ("/upload/" ++ rest) "/web/" = false) :
    API.entryName ("/upload/" ++ rest) = "upload/" ++ rest ∧
      API.manifestKeys.map API.entryName =
        API.filesToInclude.map (fun fileName => "static/" ++ fileName) ∧
      API.manifestKeys.map API.entryName =
        [ "static/css/ps_fonts.css", "static/css/ps.css", "static/favicon.ico",
          "static/js/aventyr.model.js", "static/js/aventyr.viewer.js",
          "static/js/markdown-it.min.js", "static/js/markdownhelper.js",
          "static/js/aventyr.player.js", "static/js/aventyr.props.js",
          "static/js/aventyr.scrollytell.js" ] := by
  refine ⟨?_, by decide, by decide⟩
  have hsuf : ("upload/" ++ rest).data <:+: ("/upload/" ++ rest).data :=
    ⟨['/'], [], by simp⟩
  have h1 : strings.Replace ("/upload/" ++ rest) "/upload/" "upload/" 1 = "upload/" ++ rest :=
    strings.Replace_head "/upload/" "upload/" rest (by decide) (by decide)
  have h2 := strings.Contains_mono _ ("upload/" ++ rest) "/web/css/" "/web/" h hsuf
    ⟨[], "css/".data, by decide⟩
  have h3 := strings.Contains_mono _ ("upload/" ++ rest) "/web/js/" "/web/" h hsuf
    ⟨[], "js/".data, by decide⟩
  have h4 := strings.Contains_mono _ ("upload/" ++ rest) "/web/" "/web/" h hsuf
    List.infix_rfl
  simp only [API.entryName]
  rw [h1, strings.Replace_absent _ _ _ _ h2, strings.Replace_absent _ _ _ _ h3,
    strings.Replace_absent _ _ _ _ h4]

/-- C21 (amended), at a sample: a media file of the open adventure. -/
theorem C21_entry_names_witness :
    API.entryName ("/upload/" ++ "edit0001/c.jpg") = "upload/" ++ "edit0001/c.jpg" :=
  (C21_entry_names "edit0001/c.jpg" (by decide)).1

/-! ## export: delivery of the archive -/

theorem calls_status (cs : List WriterCall) :
    ∀ (w : ResponseWriter) (code : Nat), w.status = some code →
      (w.calls cs).status = some code ∧ ∃ more, (w.calls cs).body = w.body ++ more := by
  induction cs with
  | nil => intro w code h; exact ⟨h, [], by simp [ResponseWriter.calls]⟩
  | cons c cs ih =>
    intro w code h
    cases c with
    | HeaderSet key value =>
      have e : w.HeaderSet key value = w := by simp [ResponseWriter.HeaderSet, h]
      simp only [ResponseWriter.calls, e]
      exact ih w code h
    | WriteHeader statusCode =>
      have e : w.WriteHeader statusCode = w := by simp [ResponseWriter.WriteHeader, h]
      simp only [ResponseWriter.calls, e]
      exact ih w code h
    | Write data =>
      have e : w.Write data = { w with body := w.body ++ data } := by
        simp [ResponseWriter.Write, ResponseWriter.WriteHeader, h]
      simp only [ResponseWriter.calls, e]
      obtain ⟨h1, more, h2⟩ := ih { w with body := w.body ++ data } code h
      exact ⟨h1, data ++ more, by rw [h2]; simp⟩

theorem Write_sent (w : ResponseWriter) (code : Nat) (h : w.status = some code)
    (data : List Nat) :
    (w.Write data).status = some code ∧ (w.Write data).body = w.body ++ data := by
  simp [ResponseWriter.Write, ResponseWriter.WriteHeader, h]

/-- C22: there is no `return` after the size-limit error.  For a successful
`CreateExportZip` and an archive file that is read without error, whatever the helper
`respondWithError` does with the response writer: an archive of more than 102,400,000
bytes is answered with status 200, sent before the size is looked at, and a body that
ends with all the bytes of the archive; an archive of 102,400,000 bytes or fewer is
answered with status 200 and exactly its bytes. -/
theorem C22_oversized_archive_is_written (db : DB) (env : ExportEnv) (json : JSON)
    (respondWithError : Nat → String → List WriterCall)
    (readFile : String → List Nat × Option Error) (uploadPath slug : String)
    (files : List ZipFile) (data : List Nat)
    (hzip : API.CreateExportZip db env json slug = .ok files)
    (hread : readFile (uploadPath ++ "PSadventure_" ++ slug ++ ".zip") = (data, none)) :
    (data.length > 102400000 →
      (API.ExportAdventure db env json respondWithError readFile uploadPath slug {}).status =
          some StatusOK ∧
        ∃ pre, (API.ExportAdventure db env json respondWithError readFile uploadPath slug
          {}).body = pre ++ data) ∧
      (data.length ≤ 102400000 →
        API.ExportAdventure db env json respondWithError readFile uploadPath slug {} =
          { header := [("Content-Type", "application/zip")], status := some StatusOK,
            body := data }) := by
  constructor
  · intro hlen
    have hgt : data.length > 100 * 1000 * 1024 := by omega
    simp only [API.ExportAdventure, hzip, hread, hgt, if_true]
    obtain ⟨h1, more, h2⟩ := calls_status
      (respondWithError StatusInternalServerError "Could not export. Too large filesize.")
      ((({} : ResponseWriter).HeaderSet "Content-Type" "application/zip").WriteHeader StatusOK)
      StatusOK rfl
    obtain ⟨g1, g2⟩ := Write_sent _ StatusOK h1 data
    refine ⟨g1, more, ?_⟩
    rw [g2, h2]
    rfl
  · intro hlen
    have hle : ¬ data.length > 100 * 1000 * 1024 := by omega
    simp only [API.ExportAdventure, hzip, hread, hle, if_false]
    rfl

/-- C22, at a sample: an archive of 102,400,001 zero bytes, with the usual helper. -/
theorem C22_oversized_archive_is_written_witness :
    (API.ExportAdventure demoDB {} demoJSON demoRespondWithError
        (fun _ => (List.replicate 102400001 0, none)) demoUploadPath "edit0001" {}).status =
        some StatusOK ∧
      ∃ pre, (API.ExportAdventure demoDB {} demoJSON demoRespondWithError
        (fun _ => (List.replicate 102400001 0, none)) demoUploadPath "edit0001" {}).body =
          pre ++ List.replicate 102400001 0 := by
  obtain ⟨files, hfiles⟩ : ∃ files,
      API.CreateExportZip demoDB {} demoJSON "edit0001" = .ok files := ⟨_, rfl⟩
  exact (C22_oversized_archive_is_written demoDB {} demoJSON demoRespondWithError
    (fun _ => (List.replicate 102400001 0, none)) demoUploadPath "edit0001" files
    (List.replicate 102400001 0) hfiles rfl).1 (by rw [List.length_replicate]; decide)

/-! ## media: deletion of a file -/

/-- The loop counts the nodes that name the hash, up to two. -/
theorem countReferences_eq (hash : String) (nodes : List Node) :
    ∀ fileCount, fileCount ≤ 1 →
      API.countReferences hash fileCount nodes =
        min 2 (fileCount + (nodes.filter (fun node =>
          strings.Contains node.ImageURL hash || strings.Contains node.Props hash)).length) := by
  induction nodes with
  | nil => intro fileCount h; simp [API.countReferences]; omega
  | cons node rest ih =>
    intro fileCount h
    simp only [API.countReferences, List.filter_cons]
    cases hc : (strings.Contains node.ImageURL hash || strings.Contains node.Props hash) with
    | false => simpa using ih fileCount h
    | true =>
      simp only [if_true, List.length_cons]
      by_cases h1 : fileCount + 1 > 1
      · rw [if_pos h1]; omega
      · rw [if_neg h1, ih (fileCount + 1) (by omega)]
        omega

/-- The file is handed to `os.Remove` exactly when one node of the adventure names the
hash in its image URL or in its props; the cover URL is not looked at, and a node that
names it twice counts once. -/
theorem DeleteMedia_removes_iff (db : DB) (uploadPath id hash : String) (a : Adventure)
    (ha : SQLStore.GetAdventure db id ReadWrite = .ok a) :
    ((API.DeleteMedia db uploadPath id hash).1 = some (uploadPath ++ id ++ "/" ++ hash) ↔
        (a.Nodes.filter (fun node => strings.Contains node.ImageURL hash ||
          strings.Contains node.Props hash)).length = 1) ∧
      ((API.DeleteMedia db uploadPath id hash).1 = none ↔
        (a.Nodes.filter (fun node => strings.Contains node.ImageURL hash ||
          strings.Contains node.Props hash)).length ≠ 1) := by
  simp only [API.DeleteMedia, ha, countReferences_eq hash a.Nodes 0 (by omega), Nat.zero_add]
  by_cases h : (a.Nodes.filter (fun node => strings.Contains node.ImageURL hash ||
      strings.Contains node.Props hash)).length = 1
  · simp [h]
  · have : (min 2 (a.Nodes.filter (fun node => strings.Contains node.ImageURL hash ||
        strings.Contains node.Props hash)).length == 1) = false := by
      simp only [beq_eq_false_iff_ne]
      omega
    simp [h, this]

/-- C29: the loop counts nodes and leaves the cover out.  On `demoMediaDB` the file
`abc.jpg` is the image of the only node and the cover of the adventure, and on
`demoMediaTwiceDB` it is the image of the only node and named in its props: in both the
file is handed to `os.Remove`. -/
theorem C29_file_with_other_reference_removed :
    API.DeleteMedia demoMediaDB demoUploadPath "edit0001" "abc.jpg" =
        (some "/srv/app/upload/edit0001/abc.jpg", .result StatusOK "success") ∧
      (∃ a, SQLStore.GetAdventure demoMediaDB "edit0001" ReadWrite = .ok a ∧
        strings.Contains a.CoverUrl "abc.jpg" = true ∧
        a.Nodes.map (fun node => strings.Contains node.ImageURL "abc.jpg") = [true]) ∧
      API.DeleteMedia demoMediaTwiceDB demoUploadPath "edit0001" "abc.jpg" =
        (some "/srv/app/upload/edit0001/abc.jpg", .result StatusOK "success") ∧
      (∃ a, SQLStore.GetAdventure demoMediaTwiceDB "edit0001" ReadWrite = .ok a ∧
        a.Nodes.map (fun node => (strings.Contains node.ImageURL "abc.jpg",
          strings.Contains node.Props "abc.jpg")) = [(true, true)]) := by
  refine ⟨by decide, ⟨_, rfl, by decide, by decide⟩, by decide, ⟨_, rfl, by decide⟩⟩

/-! ## bounds on a rounded value -/

namespace float64

theorem floor_le_roundEven (y : ℚ) : ⌊y⌋ ≤ roundEven y := by
  unfold roundEven
  split_ifs <;> omega

theorem roundEven_le_ceil (y : ℚ) : roundEven y ≤ ⌈y⌉ := by
  have hfl : (⌊y⌋ : ℚ) ≤ y := Int.floor_le y
  unfold roundEven
  split_ifs with h1 h2 h3
  · exact Int.floor_le_ceil y
  · have h4 : ⌊y⌋ < ⌈y⌉ := by
      rw [Int.lt_ceil]; linarith
    omega
  · exact Int.floor_le_ceil y
  · have h4 : ⌊y⌋ < ⌈y⌉ := by
      rw [Int.lt_ceil]
      have : y - ⌊y⌋ = 1 / 2 := le_antisymm (not_lt.mp h2) (not_lt.mp h1)
      linarith
    omega

theorem le_roundEven (k : ℤ) (y : ℚ) (h : (k : ℚ) ≤ y) : k ≤ roundEven y :=
  le_trans (Int.le_floor.mpr h) (floor_le_roundEven y)

theorem roundEven_le (k : ℤ) (y : ℚ) (h : y ≤ (k : ℚ)) : roundEven y ≤ k :=
  le_trans (roundEven_le_ceil y) (Int.ceil_le.mpr h)

theorem spacing_pos (e : ℤ) : (0 : ℚ) < 2 ^ e := zpow_pos (by norm_num) e

/-- A multiple `m * 2 ^ t` of a power of two that is at least the spacing of the binade
of `x` is a whole number of spacings. -/
theorem whole_spacings (m : ℕ) (t e : ℤ) (h : e ≤ t) :
    ∃ k : ℤ, (m : ℚ) * 2 ^ t = (k : ℚ) * 2 ^ e := by
  obtain ⟨n, hn⟩ : ∃ n : ℕ, t = e + n := ⟨(t - e).toNat, by omega⟩
  refine ⟨(m : ℤ) * 2 ^ n, ?_⟩
  rw [hn, zpow_add₀ (by norm_num : (2 : ℚ) ≠ 0), zpow_natCast]
  push_cast
  ring

/-- The exponent of a value at or above `m * 2 ^ t` with `t` below the spacing is the
exponent of a normal number, and the value is at least `2 ^ exponent`. -/
theorem normal_of_fine (x : ℚ) (t : ℤ) (hx : 0 < x) (ht : -1074 ≤ t)
    (hlt : t < exponent x - 52) :
    exponent x = Int.log 2 x ∧ (2 : ℚ) ^ exponent x ≤ x := by
  have he : exponent x = Int.log 2 x := by
    unfold exponent at hlt ⊢
    rcases max_cases (Int.log 2 x) (-1022) with ⟨h1, _⟩ | ⟨h1, _⟩
    · exact h1
    · rw [h1] at hlt; omega
  refine ⟨he, ?_⟩
  rw [he]
  have := Int.zpow_log_le_self (b := 2) (by norm_num) hx
  simpa using this

theorem small_lt_binade (m : ℕ) (t e : ℤ) (hm : m < 2 ^ 53) (hlt : t < e - 52) :
    (m : ℚ) * 2 ^ t < 2 ^ e := by
  have h1 : (m : ℚ) < 2 ^ (53 : ℤ) := by
    have e : (2 : ℚ) ^ (53 : ℤ) = 2 ^ (53 : ℕ) := by norm_cast
    rw [e]
    exact_mod_cast hm
  have h2 : (2 : ℚ) ^ (53 : ℤ) * 2 ^ t ≤ 2 ^ e := by
    rw [← zpow_add₀ (by norm_num : (2 : ℚ) ≠ 0)]
    exact zpow_le_zpow_right₀ (by norm_num) (by omega)
  calc (m : ℚ) * 2 ^ t < 2 ^ (53 : ℤ) * 2 ^ t :=
        mul_lt_mul_of_pos_right h1 (spacing_pos t)
    _ ≤ 2 ^ e := h2

/-- A `float64` at or below a positive value is at or below the rounded value. -/
theorem le_nearestPos (m : ℕ) (t : ℤ) (x : ℚ) (hx : 0 < x) (ht : -1074 ≤ t)
    (hm : m < 2 ^ 53) (h : (m : ℚ) * 2 ^ t ≤ x) : (m : ℚ) * 2 ^ t ≤ nearestPos x := by
  unfold nearestPos
  have hq := spacing_pos (exponent x - 52)
  by_cases hc : exponent x - 52 ≤ t
  · obtain ⟨k, hk⟩ := whole_spacings m t (exponent x - 52) hc
    rw [hk] at h ⊢
    have : (k : ℚ) ≤ x / 2 ^ (exponent x - 52) := by
      rw [le_div_iff₀ hq]; exact h
    have := le_roundEven k _ this
    exact mul_le_mul_of_nonneg_right (by exact_mod_cast this) hq.le
  · push_neg at hc
    obtain ⟨_, h2⟩ := normal_of_fine x t hx ht hc
    have h3 := small_lt_binade m t (exponent x) hm hc
    have h4 : (((2 : ℤ) ^ 52 : ℤ) : ℚ) ≤ x / 2 ^ (exponent x - 52) := by
      rw [le_div_iff₀ hq]
      have : (((2 : ℤ) ^ 52 : ℤ) : ℚ) * 2 ^ (exponent x - 52) = 2 ^ exponent x := by
        have : (((2 : ℤ) ^ 52 : ℤ) : ℚ) = 2 ^ (52 : ℤ) := by norm_num
        rw [this, ← zpow_add₀ (by norm_num : (2 : ℚ) ≠ 0)]
        congr 1
        omega
      rw [this]; exact h2
    have h5 := le_roundEven _ _ h4
    have h6 : (2 : ℚ) ^ exponent x ≤ roundEven (x / 2 ^ (exponent x - 52)) *
        2 ^ (exponent x - 52) := by
      have : (2 : ℚ) ^ exponent x = (((2 : ℤ) ^ 52 : ℤ) : ℚ) * 2 ^ (exponent x - 52) := by
        have : (((2 : ℤ) ^ 52 : ℤ) : ℚ) = 2 ^ (52 : ℤ) := by norm_num
        rw [this, ← zpow_add₀ (by norm_num : (2 : ℚ) ≠ 0)]
        congr 1
        omega
      rw [this]
      exact mul_le_mul_of_nonneg_right (by exact_mod_cast h5) hq.le
    linarith

/-- A `float64` at or above a positive value is at or above the rounded value. -/
theorem nearestPos_le (m : ℕ) (t : ℤ) (x : ℚ) (hx : 0 < x) (ht : -1074 ≤ t)
    (hm : m < 2 ^ 53) (h : x ≤ (m : ℚ) * 2 ^ t) : nearestPos x ≤ (m : ℚ) * 2 ^ t := by
  unfold nearestPos
  have hq := spacing_pos (exponent x - 52)
  by_cases hc : exponent x - 52 ≤ t
  · obtain ⟨k, hk⟩ := whole_spacings m t (exponent x - 52) hc
    rw [hk] at h ⊢
    have : x / 2 ^ (exponent x - 52) ≤ (k : ℚ) := by
      rw [div_le_iff₀ hq]; exact h
    have := roundEven_le k _ this
    exact mul_le_mul_of_nonneg_right (by exact_mod_cast this) hq.le
  · push_neg at hc
    obtain ⟨_, h2⟩ := normal_of_fine x t hx ht hc
    have h3 := small_lt_binade m t (exponent x) hm hc
    linarith

theorem Representable.nonneg {a : ℚ} (h : Representable a) : 0 ≤ a := by
  obtain ⟨m, t, _, _, rfl⟩ := h
  exact mul_nonneg (by positivity) (spacing_pos t).le

theorem le_nearest {a x : ℚ} (ha : Representable a) (hx : 0 ≤ x) (h : a ≤ x) :
    a ≤ nearest x := by
  unfold nearest
  rcases hx.eq_or_lt with h0 | h0
  · rw [if_pos h0.symm]; rw [← h0] at h; exact h
  · rw [if_neg h0.ne', if_pos h0]
    obtain ⟨m, t, ht, hm, rfl⟩ := ha
    exact le_nearestPos m t x h0 ht hm h

theorem nearest_le {b x : ℚ} (hb : Representable b) (hx : 0 ≤ x) (h : x ≤ b) :
    nearest x ≤ b := by
  unfold nearest
  rcases hx.eq_or_lt with h0 | h0
  · rw [if_pos h0.symm]; exact hb.nonneg
  · rw [if_neg h0.ne', if_pos h0]
    obtain ⟨m, t, ht, hm, rfl⟩ := hb
    exact nearestPos_le m t x h0 ht hm h

/-- A finite `float64` is its own rounding. -/
theorem nearest_eq {a : ℚ} (ha : Representable a) : nearest a = a :=
  le_antisymm (nearest_le ha ha.nonneg le_rfl) (le_nearest ha ha.nonneg le_rfl)

theorem representable_nat (k : ℕ) (h : k < 2 ^ 53) : Representable (k : ℚ) :=
  ⟨k, 0, by norm_num, h, by simp⟩

/-- The numbers `k / 2 ^ 42` with `k < 2 ^ 53`. -/
theorem representable_fine (k : ℕ) (h : k < 2 ^ 53) :
    Representable ((k : ℚ) / 4398046511104) :=
  ⟨k, -42, by norm_num, h, by
    rw [zpow_neg, div_eq_mul_inv]
    norm_num⟩

end float64

/-! ## the value of `Hours`, `Minutes` and `Seconds`, and its rounding -/

namespace float64

theorem ofInt_nat (k : ℕ) (h : k < 2 ^ 53) : ofInt (k : ℤ) = (k : ℚ) := by
  unfold ofInt
  rw [Int.cast_natCast]
  exact nearest_eq (representable_nat k h)

/-- The value `float64(q) + float64(n)/U` for a unit `U` of at most `2 ^ 42` and a
remainder `n < U`: it lies between `q` and `q + 1 - 2 ^ (-42)`, on the side of
`q + 1/2` on which `q + n/U` lies; adding one half and taking the floor gives `q + 1`
from the half on and `q` below it. -/
theorem scaled (U q n : ℕ) (hU : 0 < U) (hU42 : U ≤ 4398046511104) (hq : q < 1024)
    (hn : n < U) (heven : 2 ∣ U) (F : ℚ)
    (hF : F = add (ofInt (q : ℤ)) (div (ofInt (n : ℤ)) (U : ℚ))) :
    (q : ℚ) ≤ F ∧ F < q + 1 ∧
      ⌊add F (1 / 2)⌋ = (if U ≤ 2 * n then (q : ℤ) + 1 else q) := by
  have hUq : (0 : ℚ) < U := by exact_mod_cast hU
  have hq0 : ofInt (q : ℤ) = q := ofInt_nat q (by omega)
  have hn0 : ofInt (n : ℤ) = n := ofInt_nat n (by omega)
  have hUle : (U : ℚ) ≤ 4398046511104 := by exact_mod_cast hU42
  have heps : (1 : ℚ) / 4398046511104 ≤ 1 / U := one_div_le_one_div_of_le hUq hUle
  have hnU : (n : ℚ) / U ≤ 1 - 1 / U := by
    rw [div_le_iff₀ hUq, sub_mul, one_mul, one_div, inv_mul_cancel₀ hUq.ne']
    have : n + 1 ≤ U := hn
    have : ((n + 1 : ℕ) : ℚ) ≤ U := by exact_mod_cast this
    push_cast at this
    linarith
  have hr0 : (0 : ℚ) ≤ (n : ℚ) / U := div_nonneg (by positivity) hUq.le
  have rep0 : Representable (0 : ℚ) := by
    have := representable_nat 0 (by norm_num)
    simpa using this
  have hfine : ∀ k : ℕ, k < 2 ^ 53 → ∀ a : ℚ, a = (k : ℚ) / 4398046511104 →
      Representable a := fun k hk a ha => ha ▸ representable_fine k hk
  -- the quotient
  have hr_lo : (0 : ℚ) ≤ nearest ((n : ℚ) / U) := le_nearest rep0 hr0 hr0
  have hr_hi : nearest ((n : ℚ) / U) ≤ 1 - 1 / 4398046511104 :=
    nearest_le (hfine 4398046511103 (by norm_num) _ (by norm_num)) hr0 (by linarith)
  -- the sum
  have hqnn : (0 : ℚ) ≤ q := by positivity
  have hq1024 : (q : ℚ) < 1024 := by exact_mod_cast hq
  have hs0 : (0 : ℚ) ≤ q + nearest ((n : ℚ) / U) := by linarith
  have hF1 : F = nearest ((q : ℚ) + nearest ((n : ℚ) / U)) := by
    rw [hF, hq0, hn0]; rfl
  have hF_lo : (q : ℚ) ≤ F := by
    rw [hF1]
    exact le_nearest (representable_nat q (by omega)) hs0 (by linarith)
  have hF_hi : F ≤ q + 1 - 1 / 4398046511104 := by
    rw [hF1]
    refine nearest_le (hfine (q * 4398046511104 + 4398046511103) (by omega) _ ?_) hs0
      (by linarith)
    push_cast
    field_simp
    ring
  refine ⟨hF_lo, by linarith, ?_⟩
  have hG0 : (0 : ℚ) ≤ F + 1 / 2 := by linarith
  by_cases hhalf : U ≤ 2 * n
  · rw [if_pos hhalf]
    have hge : (1 : ℚ) / 2 ≤ (n : ℚ) / U := by
      rw [le_div_iff₀ hUq]
      have : (U : ℚ) ≤ 2 * n := by exact_mod_cast hhalf
      linarith
    have hr_half : (1 : ℚ) / 2 ≤ nearest ((n : ℚ) / U) :=
      le_nearest (hfine 2199023255552 (by norm_num) _ (by norm_num)) hr0 hge
    have hF_half : (q : ℚ) + 1 / 2 ≤ F := by
      rw [hF1]
      refine le_nearest (hfine (q * 4398046511104 + 2199023255552) (by omega) _ ?_) hs0
        (by linarith)
      push_cast
      field_simp
      ring
    have hG_lo : (q : ℚ) + 1 ≤ add F (1 / 2) := by
      have : Representable ((q : ℚ) + 1) := by
        have := representable_nat (q + 1) (by omega)
        simpa using this
      exact le_nearest this hG0 (by linarith)
    have hG_hi : add F (1 / 2) ≤ q + 3 / 2 - 1 / 4398046511104 := by
      refine nearest_le (hfine (q * 4398046511104 + 6597069766655) (by omega) _ ?_) hG0
        (by linarith)
      push_cast
      field_simp
      ring
    rw [Int.floor_eq_iff]
    push_cast
    constructor <;> linarith
  · rw [if_neg hhalf]
    push_neg at hhalf
    obtain ⟨u, hu⟩ := heven
    have hlt : (n : ℚ) / U ≤ 1 / 2 - 1 / U := by
      rw [div_le_iff₀ hUq, sub_mul, one_div, one_div, inv_mul_cancel₀ hUq.ne']
      have : n + 1 ≤ u := by omega
      have h1 : ((n + 1 : ℕ) : ℚ) ≤ u := by exact_mod_cast this
      have h2 : (U : ℚ) = 2 * u := by exact_mod_cast hu
      push_cast at h1
      rw [h2]
      linarith
    have hr_half : nearest ((n : ℚ) / U) ≤ 1 / 2 - 1 / 4398046511104 :=
      nearest_le (hfine 2199023255551 (by norm_num) _ (by norm_num)) hr0 (by linarith)
    have hF_half : F ≤ q + 1 / 2 - 1 / 4398046511104 := by
      rw [hF1]
      refine nearest_le (hfine (q * 4398046511104 + 2199023255551) (by omega) _ ?_) hs0
        (by linarith)
      push_cast
      field_simp
      ring
    have hG_lo : (q : ℚ) ≤ add F (1 / 2) :=
      le_nearest (representable_nat q (by omega)) hG0 (by linarith)
    have hG_hi : add F (1 / 2) ≤ q + 1 - 1 / 4398046511104 := by
      refine nearest_le (hfine (q * 4398046511104 + 4398046511103) (by omega) _ ?_) hG0
        (by linarith)
      push_cast
      field_simp
      ring
    rw [Int.floor_eq_iff]
    push_cast
    constructor <;> linarith

/-- Rounding half up of the exact quotient. -/
theorem half_up (U q n : ℕ) (hU : 0 < U) (hn : n < U) :
    ⌊((q * U + n : ℕ) : ℚ) / U + 1 / 2⌋ = (if U ≤ 2 * n then (q : ℤ) + 1 else q) := by
  have hUq : (0 : ℚ) < U := by exact_mod_cast hU
  have hnq : (n : ℚ) < U := by exact_mod_cast hn
  have e : ((q * U + n : ℕ) : ℚ) / U + 1 / 2 = q + ((n : ℚ) / U + 1 / 2) := by
    push_cast
    field_simp
    ring
  have h0 : (0 : ℚ) ≤ (n : ℚ) / U := div_nonneg (by positivity) hUq.le
  have h1 : (n : ℚ) / U < 1 := by rw [div_lt_one hUq]; exact hnq
  rw [e, Int.floor_eq_iff]
  split_ifs with h
  · have : (1 : ℚ) / 2 ≤ (n : ℚ) / U := by
      rw [le_div_iff₀ hUq]
      have : (U : ℚ) ≤ 2 * n := by exact_mod_cast h
      linarith
    push_cast
    constructor <;> linarith
  · push_neg at h
    have : (n : ℚ) / U < 1 / 2 := by
      rw [div_lt_iff₀ hUq]
      have : (2 * n : ℚ) < U := by exact_mod_cast h
      linarith
    push_cast
    constructor <;> linarith

theorem toInt_intCast (k : ℤ) : toInt (k : ℚ) = k := by
  unfold toInt
  split <;> simp

end float64

/-! ## `timeago`: the text for a duration -/

theorem Hours_nat (D : ℕ) :
    time.Duration.Hours (D : ℤ) =
      float64.add (float64.ofInt ((D / 3600000000000 : ℕ) : ℤ))
        (float64.div (float64.ofInt ((D % 3600000000000 : ℕ) : ℤ))
          ((3600000000000 : ℕ) : ℚ)) := by
  have hH : time.Hour = ((3600000000000 : ℕ) : ℤ) := by
    norm_num [time.Hour, time.Minute, time.Second]
  unfold time.Duration.Hours
  rw [hH, ← Int.ofNat_tdiv, ← Int.ofNat_tmod]
  norm_num

theorem Minutes_nat (D : ℕ) :
    time.Duration.Minutes (D : ℤ) =
      float64.add (float64.ofInt ((D / 60000000000 : ℕ) : ℤ))
        (float64.div (float64.ofInt ((D % 60000000000 : ℕ) : ℤ))
          ((60000000000 : ℕ) : ℚ)) := by
  have hH : time.Minute = ((60000000000 : ℕ) : ℤ) := by
    norm_num [time.Minute, time.Second]
  unfold time.Duration.Minutes
  rw [hH, ← Int.ofNat_tdiv, ← Int.ofNat_tmod]
  norm_num

theorem Seconds_nat (D : ℕ) :
    time.Duration.Seconds (D : ℤ) =
      float64.add (float64.ofInt ((D / 1000000000 : ℕ) : ℤ))
        (float64.div (float64.ofInt ((D % 1000000000 : ℕ) : ℤ))
          ((1000000000 : ℕ) : ℚ)) := by
  have hH : time.Second = ((1000000000 : ℕ) : ℤ) := by
    norm_num [time.Second]
  unfold time.Duration.Seconds
  rw [hH, ← Int.ofNat_tdiv, ← Int.ofNat_tmod]
  norm_num

/-- Below one hour `Hours` is below 1. -/
theorem Hours_lt_one (D : ℕ) (h : D < 3600000000000) :
    time.Duration.Hours (D : ℤ) < 1 := by
  have hs := float64.scaled 3600000000000 (D / 3600000000000) (D % 3600000000000)
    (by norm_num) (by norm_num) (by omega) (Nat.mod_lt _ (by norm_num)) (by norm_num)
    _ (Hours_nat D)
  have hq : D / 3600000000000 = 0 := by omega
  rw [hq] at hs
  have := hs.2.1
  simpa using this

/-- Below one minute `Minutes` is below 1. -/
theorem Minutes_lt_one (D : ℕ) (h : D < 60000000000) :
    time.Duration.Minutes (D : ℤ) < 1 := by
  have hs := float64.scaled 60000000000 (D / 60000000000) (D % 60000000000)
    (by norm_num) (by norm_num) (by omega) (Nat.mod_lt _ (by norm_num)) (by norm_num)
    _ (Minutes_nat D)
  have hq : D / 60000000000 = 0 := by omega
  rw [hq] at hs
  have := hs.2.1
  simpa using this

/-- From one hour up to a day the text is that of the hours, rounded half up. -/
theorem stringForDuration_hours (D : ℕ) (h1 : 3600000000000 ≤ D)
    (h2 : D < 86400000000000) :
    timeago.stringForDuration (D : ℤ) =
      timeago.localizedStringFor .HoursAgo ⌊(D : ℚ) / 3600000000000 + 1 / 2⌋ := by
  have hs := float64.scaled 3600000000000 (D / 3600000000000) (D % 3600000000000)
    (by norm_num) (by norm_num) (by omega) (Nat.mod_lt _ (by norm_num)) (by norm_num)
    _ (Hours_nat D)
  obtain ⟨hlo, hhi, hfl⟩ := hs
  have hq1 : 1 ≤ D / 3600000000000 := by omega
  have hq2 : D / 3600000000000 + 1 ≤ 24 := by omega
  have hq1' : (1 : ℚ) ≤ ((D / 3600000000000 : ℕ) : ℚ) := by exact_mod_cast hq1
  have hq2' : ((D / 3600000000000 : ℕ) : ℚ) + 1 ≤ 24 := by exact_mod_cast hq2
  have hlt : time.Duration.Hours (D : ℤ) < 24 := by linarith
  have hge : time.Duration.Hours (D : ℤ) ≥ 1 := by linarith
  have hup := float64.half_up 3600000000000 (D / 3600000000000) (D % 3600000000000)
    (by norm_num) (Nat.mod_lt _ (by norm_num))
  have hD : D / 3600000000000 * 3600000000000 + D % 3600000000000 = D := by omega
  rw [hD] at hup
  simp only [timeago.stringForDuration, hlt, hge, if_true, timeago.round, hfl,
    float64.toInt_intCast]
  rw [← hup]
  norm_num

/-- From one minute up to an hour the text is that of the minutes, rounded half up. -/
theorem stringForDuration_minutes (D : ℕ) (h1 : 60000000000 ≤ D)
    (h2 : D < 3600000000000) :
    timeago.stringForDuration (D : ℤ) =
      timeago.localizedStringFor .MinutesAgo ⌊(D : ℚ) / 60000000000 + 1 / 2⌋ := by
  have hs := float64.scaled 60000000000 (D / 60000000000) (D % 60000000000)
    (by norm_num) (by norm_num) (by omega) (Nat.mod_lt _ (by norm_num)) (by norm_num)
    _ (Minutes_nat D)
  obtain ⟨hlo, hhi, hfl⟩ := hs
  have hq1 : 1 ≤ D / 60000000000 := by omega
  have hq1' : (1 : ℚ) ≤ ((D / 60000000000 : ℕ) : ℚ) := by exact_mod_cast hq1
  have hH := Hours_lt_one D h2
  have hlt : time.Duration.Hours (D : ℤ) < 24 := by linarith
  have hge : ¬ time.Duration.Hours (D : ℤ) ≥ 1 := by
    intro h; linarith
  have hmin : time.Duration.Minutes (D : ℤ) ≥ 1 := by linarith
  have hup := float64.half_up 60000000000 (D / 60000000000) (D % 60000000000)
    (by norm_num) (Nat.mod_lt _ (by norm_num))
  have hD : D / 60000000000 * 60000000000 + D % 60000000000 = D := by omega
  rw [hD] at hup
  simp only [timeago.stringForDuration, hlt, hge, hmin, if_true, if_false, timeago.round, hfl,
    float64.toInt_intCast]
  rw [← hup]
  norm_num

/-- Below one and a half seconds the text is "Alldeles nyss". -/
theorem stringForDuration_just_now (D : ℕ) (h : D < 1500000000) :
    timeago.stringForDuration (D : ℤ) = "Alldeles nyss" := by
  have hs := float64.scaled 1000000000 (D / 1000000000) (D % 1000000000)
    (by norm_num) (by norm_num) (by omega) (Nat.mod_lt _ (by norm_num)) (by norm_num)
    _ (Seconds_nat D)
  obtain ⟨hlo, hhi, hfl⟩ := hs
  have hH := Hours_lt_one D (by omega)
  have hM := Minutes_lt_one D (by omega)
  have hlt : time.Duration.Hours (D : ℤ) < 24 := by linarith
  have hge : ¬ time.Duration.Hours (D : ℤ) ≥ 1 := by
    intro h; linarith
  have hmin : ¬ time.Duration.Minutes (D : ℤ) ≥ 1 := by
    intro h; linarith
  have hval : ¬ (if 1000000000 ≤ 2 * (D % 1000000000) then ((D / 1000000000 : ℕ) : ℤ) + 1
      else ((D / 1000000000 : ℕ) : ℤ)) ≥ 2 := by
    split_ifs with hc <;> omega
  simp only [timeago.stringForDuration, hlt, hge, hmin, if_true, if_false, timeago.round, hfl,
    float64.toInt_intCast, timeago.localizedStringFor, hval]

theorem Sub_in_range (start endTime : Int) (h1 : 0 ≤ start - endTime)
    (h2 : start - endTime < 86400000000000) :
    ∃ D : ℕ, time.Sub start endTime = (D : ℤ) ∧ start - endTime = (D : ℤ) := by
  have e : ((start - endTime).toNat : ℤ) = start - endTime := Int.toNat_of_nonneg h1
  refine ⟨(start - endTime).toNat, ?_, e.symm⟩
  unfold time.Sub
  rw [if_neg (by omega), if_neg (by omega)]
  exact e.symm

theorem WithTime_nat (start endTime : Int) (D : ℕ) (h : start - endTime = (D : ℤ))
    (h2 : D < 86400000000000) :
    timeago.WithTime start endTime = (timeago.stringForDuration (D : ℤ), none) := by
  obtain ⟨D1, hs, hd⟩ := Sub_in_range start endTime (by omega) (by omega)
  have : D1 = D := by omega
  subst this
  simp only [timeago.WithTime, hs]

/-- C25: for a difference `d = start - end` of at least one hour and less than 24 hours,
`WithTime` returns no error and the text "N timmar sedan" when N is at least 2, and
"En timme sedan" otherwise, where N is `d` in hours rounded half up, which is at least
1; for exactly 3 hours the text is "3 timmar sedan". -/
theorem C25_hours_ago (start endTime : Int) (h1 : time.Hour ≤ start - endTime)
    (h2 : start - endTime < 24 * time.Hour) :
    timeago.WithTime start endTime =
        (if ⌊((start - endTime : ℤ) : ℚ) / 3600000000000 + 1 / 2⌋ ≥ 2 then
            toString ⌊((start - endTime : ℤ) : ℚ) / 3600000000000 + 1 / 2⌋ ++ " timmar sedan"
          else "En timme sedan", none) ∧
      1 ≤ ⌊((start - endTime : ℤ) : ℚ) / 3600000000000 + 1 / 2⌋ ∧
      (start - endTime = 3 * time.Hour →
        timeago.WithTime start endTime = ("3 timmar sedan", none)) := by
  have hH : time.Hour = (3600000000000 : ℤ) := by
    norm_num [time.Hour, time.Minute, time.Second]
  rw [hH] at h1 h2 ⊢
  replace h1 : (3600000000000 : ℤ) ≤ start - endTime := h1
  replace h2 : start - endTime < 24 * (3600000000000 : ℤ) := h2
  obtain ⟨D, hD⟩ : ∃ D : ℕ, start - endTime = (D : ℤ) :=
    ⟨(start - endTime).toNat, (Int.toNat_of_nonneg (by omega)).symm⟩
  have hD1 : 3600000000000 ≤ D := by omega
  have hD2 : D < 86400000000000 := by omega
  have hW := WithTime_nat start endTime D hD hD2
  rw [stringForDuration_hours D hD1 hD2] at hW
  have hcast : ((start - endTime : ℤ) : ℚ) = (D : ℚ) := by rw [hD]; simp
  rw [hcast]
  refine ⟨hW, ?_, ?_⟩
  · rw [Int.le_floor]
    have h3 : (3600000000000 : ℚ) ≤ D := by exact_mod_cast hD1
    have h4 : (1 : ℚ) ≤ (D : ℚ) / 3600000000000 := by
      rw [le_div_iff₀ (by norm_num)]; linarith
    push_cast
    linarith
  · intro h3
    have hD3 : D = 10800000000000 := by omega
    subst hD3
    have hfl : ⌊((10800000000000 : ℕ) : ℚ) / 3600000000000 + 1 / 2⌋ = 3 := by
      rw [Int.floor_eq_iff]; norm_num
    rw [hW, hfl]
    rfl

/-- C25, at a sample: four and a half hours. -/
theorem C25_hours_ago_witness :
    timeago.WithTime 10800000000000 0 = ("3 timmar sedan", none) ∧
      1 ≤ ⌊(((16200000000000 : ℤ) - 0 : ℤ) : ℚ) / 3600000000000 + 1 / 2⌋ :=
  ⟨(C25_hours_ago 10800000000000 0 (by decide) (by decide)).2.2 (by decide),
    (C25_hours_ago 16200000000000 0 (by decide) (by decide)).2.1⟩

/-- C26, as stated, fails: for a difference of exactly one and a half hours `Hours()`
is 1.5 and `round` gives 2, so the text is "2 timmar sedan" and not "En timme sedan". -/
theorem C26_exact_difference_gives_two :
    timeago.WithTime 5400000000000 0 = ("2 timmar sedan", none) ∧
      timeago.WithTime 5400000000000 0 ≠ ("En timme sedan", none) := by
  have h : timeago.WithTime 5400000000000 0 = ("2 timmar sedan", none) := by
    rw [WithTime_nat 5400000000000 0 5400000000000 (by norm_num) (by norm_num),
      stringForDuration_hours _ (by norm_num) (by norm_num)]
    have hfl : ⌊((5400000000000 : ℕ) : ℚ) / 3600000000000 + 1 / 2⌋ = 2 := by
      rw [Int.floor_eq_iff]; norm_num
    rw [hfl]
    rfl
  refine ⟨h, ?_⟩
  rw [h]
  decide

/-- C26 (amended): for a difference `start - end` of exactly one and a half hours
`WithTime` returns "2 timmar sedan"; for every difference of at least one hour and less
than one and a half hours it returns "En timme sedan". -/
theorem C26_around_one_and_a_half_hours (start endTime : Int) :
    (start - endTime = 5400000000000 →
      timeago.WithTime start endTime = ("2 timmar sedan", none)) ∧
      (time.Hour ≤ start - endTime → start - endTime < 5400000000000 →
        timeago.WithTime start endTime = ("En timme sedan", none)) := by
  have hH : time.Hour = (3600000000000 : ℤ) := by
    norm_num [time.Hour, time.Minute, time.Second]
  rw [hH]
  constructor
  · intro h
    rw [WithTime_nat start endTime 5400000000000 (by omega) (by norm_num),
      stringForDuration_hours _ (by norm_num) (by norm_num)]
    have hfl : ⌊((5400000000000 : ℕ) : ℚ) / 3600000000000 + 1 / 2⌋ = 2 := by
      rw [Int.floor_eq_iff]; norm_num
    rw [hfl]
    rfl
  · intro h1 h2
    replace h1 : (3600000000000 : ℤ) ≤ start - endTime := h1
    obtain ⟨D, hD⟩ : ∃ D : ℕ, start - endTime = (D : ℤ) :=
      ⟨(start - endTime).toNat, (Int.toNat_of_nonneg (by omega)).symm⟩
    have hD1 : 3600000000000 ≤ D := by omega
    have hD2 : D < 5400000000000 := by omega
    rw [WithTime_nat start endTime D hD (by omega),
      stringForDuration_hours D hD1 (by omega)]
    have h3 : (3600000000000 : ℚ) ≤ D := by exact_mod_cast hD1
    have h4 : (D : ℚ) < 5400000000000 := by exact_mod_cast hD2
    have hfl : ⌊(D : ℚ) / 3600000000000 + 1 / 2⌋ = 1 := by
      rw [Int.floor_eq_iff]
      constructor
      · have : (1 : ℚ) ≤ (D : ℚ) / 3600000000000 := by
          rw [le_div_iff₀ (by norm_num)]; linarith
        push_cast
        linarith
      · have : (D : ℚ) / 3600000000000 < 3 / 2 := by
          rw [div_lt_iff₀ (by norm_num)]; linarith
        push_cast
        linarith
    rw [hfl]
    rfl

/-- C26 (amended), at samples: exactly one and a half hours, and one nanosecond less. -/
theorem C26_around_one_and_a_half_hours_witness :
    timeago.WithTime 5400000000000 0 = ("2 timmar sedan", none) ∧
      timeago.WithTime 5399999999999 0 = ("En timme sedan", none) :=
  ⟨(C26_around_one_and_a_half_hours 5400000000000 0).1 (by decide),
    (C26_around_one_and_a_half_hours 5399999999999 0).2 (by decide) (by decide)⟩

/-- C27: for a difference `d = start - end` of at least one minute and less than one
hour, `WithTime` returns "N minuter sedan" when N is at least 2 and "En minut sedan"
otherwise, where N is `d` in minutes rounded half up, which is at least 1 (3 minutes
give "3 minuter sedan", 1.2 minutes give "En minut sedan"); for a difference from 0 to
less than one and a half seconds it returns "Alldeles nyss". -/
theorem C27_minutes_and_just_now (start endTime : Int) :
    (time.Minute ≤ start - endTime → start - endTime < time.Hour →
      timeago.WithTime start endTime =
          (if ⌊((start - endTime : ℤ) : ℚ) / 60000000000 + 1 / 2⌋ ≥ 2 then
              toString ⌊((start - endTime : ℤ) : ℚ) / 60000000000 + 1 / 2⌋ ++ " minuter sedan"
            else "En minut sedan", none) ∧
        1 ≤ ⌊((start - endTime : ℤ) : ℚ) / 60000000000 + 1 / 2⌋) ∧
      (start - endTime = 3 * time.Minute →
        timeago.WithTime start endTime = ("3 minuter sedan", none)) ∧
      (start - endTime = 72000000000 →
        timeago.WithTime start endTime = ("En minut sedan", none)) ∧
      (0 ≤ start - endTime → start - endTime < 1500000000 →
        timeago.WithTime start endTime = ("Alldeles nyss", none)) := by
  have hH : time.Hour = (3600000000000 : ℤ) := by
    norm_num [time.Hour, time.Minute, time.Second]
  have hM : time.Minute = (60000000000 : ℤ) := by norm_num [time.Minute, time.Second]
  rw [hH, hM]
  have key : ∀ D : ℕ, start - endTime = (D : ℤ) → 60000000000 ≤ D → D < 3600000000000 →
      timeago.WithTime start endTime =
        (timeago.localizedStringFor .MinutesAgo ⌊(D : ℚ) / 60000000000 + 1 / 2⌋, none) := by
    intro D hD hD1 hD2
    rw [WithTime_nat start endTime D hD (by omega), stringForDuration_minutes D hD1 hD2]
  refine ⟨?_, ?_, ?_, ?_⟩
  · intro h1 h2
    replace h1 : (60000000000 : ℤ) ≤ start - endTime := h1
    replace h2 : start - endTime < (3600000000000 : ℤ) := h2
    obtain ⟨D, hD⟩ : ∃ D : ℕ, start - endTime = (D : ℤ) :=
      ⟨(start - endTime).toNat, (Int.toNat_of_nonneg (by omega)).symm⟩
    have hD1 : 60000000000 ≤ D := by omega
    have hcast : ((start - endTime : ℤ) : ℚ) = (D : ℚ) := by rw [hD]; simp
    rw [hcast]
    refine ⟨key D hD hD1 (by omega), ?_⟩
    rw [Int.le_floor]
    have h3 : (60000000000 : ℚ) ≤ D := by exact_mod_cast hD1
    have h4 : (1 : ℚ) ≤ (D : ℚ) / 60000000000 := by
      rw [le_div_iff₀ (by norm_num)]; linarith
    push_cast
    linarith
  · intro h3
    have hfl : ⌊((180000000000 : ℕ) : ℚ) / 60000000000 + 1 / 2⌋ = 3 := by
      rw [Int.floor_eq_iff]; norm_num
    rw [key 180000000000 (by omega) (by norm_num) (by norm_num), hfl]
    rfl
  · intro h3
    have hfl : ⌊((72000000000 : ℕ) : ℚ) / 60000000000 + 1 / 2⌋ = 1 := by
      rw [Int.floor_eq_iff]; norm_num
    rw [key 72000000000 (by omega) (by norm_num) (by norm_num), hfl]
    rfl
  · intro h1 h2
    obtain ⟨D, hD⟩ : ∃ D : ℕ, start - endTime = (D : ℤ) :=
      ⟨(start - endTime).toNat, (Int.toNat_of_nonneg h1).symm⟩
    rw [WithTime_nat start endTime D hD (by omega), stringForDuration_just_now D (by omega)]

/-- C27, at the samples of the tests: 3 minutes, 1.2 minutes and 1.2 seconds. -/
theorem C27_minutes_and_just_now_witness :
    timeago.WithTime 180000000000 0 = ("3 minuter sedan", none) ∧
      timeago.WithTime 72000000000 0 = ("En minut sedan", none) ∧
      timeago.WithTime 1200000000 0 = ("Alldeles nyss", none) :=
  ⟨(C27_minutes_and_just_now 180000000000 0).2.1 (by decide),
    (C27_minutes_and_just_now 72000000000 0).2.2.1 (by decide),
    (C27_minutes_and_just_now 1200000000 0).2.2.2 (by decide) (by decide)⟩

/-! ## a minted edit slug that is already in the store -/

/-- C11: nothing compares the minted edit slug with the persisted ones.  When the slug
minted for the copy of the open adventure of `demoDB` is the edit slug `edit0001` that
adventure has, `UpdateAdventureContent` resolves it to the source: the source gets the
title "Copy of Cave", its nodes 1, 2, 3 and links 1, 2 are deleted and inserted again
as nodes 5, 6, 7 and links 3, 4 of the source, the minted adventure 3 has no node and no
link, and the handler answers 404. -/
theorem C11_copy_on_slug_collision :
    (API.CopyAdventureById demoStore "edit0001" mintedViewSlug "edit0001" none).2 =
        .error StatusNotFound "error.adventure.adventurenotcopied" ∧
      (API.CopyAdventureById demoStore "edit0001" mintedViewSlug "edit0001"
          none).1.db.adventure.map (fun r => (r.id, r.slug, r.title)) =
        [(1, "edit0001", some "Copy of Cave"), (2, "edit0002", some "Vault"),
         (3, "edit0001", some "Nytt äventyr")] ∧
      (API.CopyAdventureById demoStore "edit0001" mintedViewSlug "edit0001"
          none).1.db.adventure_node.map (fun r => (r.id, r.adventure_id, r.node_id)) =
        [(4, 2, 0), (5, 1, 0), (6, 1, 1), (7, 1, 2)] ∧
      (API.CopyAdventureById demoStore "edit0001" mintedViewSlug "edit0001"
          none).1.db.adventure_link.map (fun r => (r.id, r.adventure_id, r.link_id)) =
        [(3, 1, 1), (4, 1, 2)] ∧
      SQLStore.GetNodesByAdventureID
        (API.CopyAdventureById demoStore "edit0001" mintedViewSlug "edit0001" none).1.db 3 =
        [] :=
  ⟨rfl, rfl, rfl, rfl, rfl⟩

/-- C18: nothing compares the minted edit slug with the persisted ones.  When the
archive exported for the open adventure of `demoDB` is imported and the minted edit slug
is the edit slug `edit0002` of the locked adventure, the import is answered 200, the
locked adventure becomes the unlocked "Cave" with the imported nodes and links, and the
minted adventure 3, the first to carry the minted view slug, has no node and no link. -/
theorem C18_import_on_slug_collision :
    ∃ files, API.CreateExportZip demoStore.db {} demoJSON "edit0001" = .ok files ∧
      (API.ImportAdventure demoStore demoUploadPath [] (.archive files) mintedViewSlug
        "edit0002").2.2.code = StatusOK ∧
      (API.ImportAdventure demoStore demoUploadPath [] (.archive files) mintedViewSlug
          "edit0002").1.db.adventure.map (fun r => (r.id, r.slug, r.title, r.locked)) =
        [(1, "edit0001", some "Cave", false), (2, "edit0002", some "Cave", false),
         (3, "edit0002", some "Nytt äventyr", false)] ∧
      (API.ImportAdventure demoStore demoUploadPath [] (.archive files) mintedViewSlug
          "edit0002").1.db.adventure_node.map (fun r => (r.id, r.adventure_id, r.node_id)) =
        [(1, 1, 0), (2, 1, 1), (3, 1, 2), (5, 2, 0), (6, 2, 1), (7, 2, 2)] ∧
      (∃ B, SQLStore.GetAdventure
          (API.ImportAdventure demoStore demoUploadPath [] (.archive files) mintedViewSlug
            "edit0002").1.db mintedViewSlug ReadOnly = .ok B ∧
        B.ID = 3 ∧ B.Nodes = [] ∧ B.Links = []) :=
  ⟨_, rfl, rfl, rfl, rfl, ⟨_, rfl, rfl, rfl, rfl⟩⟩

end PS
